import Mathlib

/-!
# The task store of `tasks`: a shallow embedding of `storage.go` and `task.go`

The backing file is a sequence of characters.  Every operation of `Storage`
is a function from the file content before the call to the file content after
it and the call's result.  The standard-library functions the store calls
(`strconv.Atoi`, `strconv.Itoa`, `strconv.ParseBool`, `strconv.FormatBool`,
`time.Time.Format`, `time.Parse`, `csv.Writer`, `csv.Reader`) are embedded as
well, as far as the store reaches them: layout `time.RFC3339`, a reader and a
writer with their default settings.

Conventions.
* A Go `string` is a `List Char`.  All characters the codecs test for are
  ASCII, so working on code points instead of UTF-8 bytes changes nothing for
  well-formed text.
* A Go `int` is a 64-bit two's complement integer: an `Int` kept in range by
  `wrapInt`.
* Failures of the operating system (open, lock, stat, truncate, seek, write)
  are outside the embedding: every call is one whose system calls succeed.
* `time.Now()` is an argument of the operations that read the clock.
* `time.Parse` is that of Go 1.20 and later: after the seconds it accepts a
  fraction although the layout has none, and it rejects a zone offset with
  hours above 24 or minutes above 60.
-/

namespace Tasks

/-! ## Definitions -/

/-! ### Machine integers and strings -/

deriving instance DecidableEq for Except

/-- Go strings. -/
abbrev Str := List Char

/-- The least Go `int`. -/
def minInt : Int := -9223372036854775808

/-- The greatest Go `int`. -/
def maxInt : Int := 9223372036854775807

/-- Two's complement wrap-around of a mathematical integer into a Go `int`. -/
def wrapInt (x : Int) : Int := (x + 9223372036854775808) % 18446744073709551616 - 9223372036854775808

/-- Membership in the range of a Go `int`. -/
def IsInt64 (x : Int) : Prop := minInt ≤ x ∧ x ≤ maxInt

instance (x : Int) : Decidable (IsInt64 x) := by unfold IsInt64; exact inferInstance

/-! ### strconv -/

/-- The decimal digit character of a number below ten. -/
def digitChar (n : Nat) : Char := Char.ofNat (48 + n % 10)

/-- Predicate of the ASCII decimal digits. -/
def isDigit (c : Char) : Bool := decide (48 ≤ c.toNat ∧ c.toNat ≤ 57)

/-- The value of a decimal digit character. -/
def digitVal (c : Char) : Nat := c.toNat - 48

/-- Decimal digits of `n`, most significant first, in front of `acc`;
`fuel` bounds the number of digits. -/
def natDigitsAux : Nat → Nat → Str → Str
  | 0, _, acc => acc
  | fuel + 1, n, acc =>
    if n < 10 then digitChar n :: acc
    else natDigitsAux fuel (n / 10) (digitChar (n % 10) :: acc)

/-- Decimal representation of a natural number, without leading zeros. -/
def natDigits (n : Nat) : Str := natDigitsAux (n + 1) n []

/-- The number a string of decimal digits denotes, continuing from `acc`;
`none` when a character is not a digit. -/
def parseDigitsAux : Str → Nat → Option Nat
  | [], acc => some acc
  | c :: cs, acc => if isDigit c then parseDigitsAux cs (acc * 10 + digitVal c) else none

/-- The number a non-empty string of decimal digits denotes. -/
def parseDigits (s : Str) : Option Nat :=
  match s with
  | [] => none
  | _ :: _ => parseDigitsAux s 0

/-- Go `strconv.Itoa`: base 10, a minus sign for negative values. -/
def Itoa (i : Int) : Str :=
  if i < 0 then '-' :: natDigits i.natAbs else natDigits i.natAbs

/-- Go `strconv.Atoi`: an optional sign, then at least one decimal digit and
nothing else; a value outside the range of `int` is an error, as is any other
text.  (The fast path for short inputs and `ParseInt(s, 10, 0)` agree on
this.) -/
def Atoi (s : Str) : Option Int :=
  match s with
  | [] => none
  | c :: cs =>
    if c = '-' then
      match parseDigits cs with
      | some n => if n ≤ 9223372036854775808 then some (-(n : Int)) else none
      | none => none
    else if c = '+' then
      match parseDigits cs with
      | some n => if n ≤ 9223372036854775807 then some (n : Int) else none
      | none => none
    else
      match parseDigits s with
      | some n => if n ≤ 9223372036854775807 then some (n : Int) else none
      | none => none

/-- Go `strconv.FormatBool`. -/
def FormatBool (b : Bool) : Str := if b then "true".toList else "false".toList

/-- Go `strconv.ParseBool`: the twelve accepted spellings. -/
def ParseBool (s : Str) : Option Bool :=
  if s = "1".toList ∨ s = "t".toList ∨ s = "T".toList ∨ s = "TRUE".toList
      ∨ s = "true".toList ∨ s = "True".toList then some true
  else if s = "0".toList ∨ s = "f".toList ∨ s = "F".toList ∨ s = "FALSE".toList
      ∨ s = "false".toList ∨ s = "False".toList then some false
  else none

/-! ### time -/

/-- A Go `time.Time`, given by what its `Date`, `Clock`, `Nanosecond` and
`Zone` methods return: the civil date and the clock reading in the value's own
location, the nanosecond within the second, and the zone offset in seconds
east of UTC.  The instant is the civil reading minus the offset, so two values
with the same fields are the same instant. -/
structure Time where
  year : Int
  month : Nat
  day : Nat
  hour : Nat
  minute : Nat
  second : Nat
  nsec : Nat
  offset : Int
deriving DecidableEq, Repr

/-- Go `time.isLeap`. -/
def isLeap (year : Int) : Bool :=
  decide (year % 4 = 0 ∧ (year % 100 ≠ 0 ∨ year % 400 = 0))

/-- Go `time.daysIn`: the number of days of a month of a year. -/
def daysIn (month : Nat) (year : Int) : Nat :=
  if month = 2 then (if isLeap year then 29 else 28)
  else if month = 4 ∨ month = 6 ∨ month = 9 ∨ month = 11 then 30
  else 31

/-- The readings a `time.Time` can have: a real calendar day and clock time. -/
def Time.Valid (t : Time) : Prop :=
  1 ≤ t.month ∧ t.month ≤ 12 ∧ 1 ≤ t.day ∧ t.day ≤ daysIn t.month t.year ∧
  t.hour < 24 ∧ t.minute < 60 ∧ t.second < 60 ∧ t.nsec < 1000000000

instance (t : Time) : Decidable t.Valid := by unfold Time.Valid; exact inferInstance

/-- The same instant with the fraction of the second dropped. -/
def Time.truncSecond (t : Time) : Time := { t with nsec := 0 }

/-- Go `time.appendInt`: a minus sign for a negative number, then its decimal
digits padded with zeros to at least `width` digits. -/
def appendInt (x : Int) (width : Nat) : Str :=
  let ds := natDigits x.natAbs
  let padded := List.replicate (width - ds.length) '0' ++ ds
  if x < 0 then '-' :: padded else padded

/-- The zone suffix of layout element `Z07:00`: `Z` for offset zero, else the
sign and the offset in hours and minutes, seconds of the offset dropped. -/
def formatZone (offset : Int) : Str :=
  if offset = 0 then ['Z']
  else
    let zone := Int.tdiv offset 60
    let sign := if zone < 0 then '-' else '+'
    let z := zone.natAbs
    sign :: (appendInt (z / 60 : Nat) 2 ++ ':' :: appendInt (z % 60 : Nat) 2)

/-- Go `Time.Format(time.RFC3339)`, layout `2006-01-02T15:04:05Z07:00`. -/
def Time.Format (t : Time) : Str :=
  appendInt t.year 4 ++ '-' :: (appendInt t.month 2 ++ '-' :: (appendInt t.day 2 ++ 'T' ::
    (appendInt t.hour 2 ++ ':' :: (appendInt t.minute 2 ++ ':' :: (appendInt t.second 2 ++
      formatZone t.offset)))))

/-- Go `time.getnum`: one or two leading digits and the rest of the text;
`fixed` demands two digits. -/
def getnum (s : Str) (fixed : Bool) : Option (Nat × Str) :=
  match s with
  | [] => none
  | c :: rest =>
    if isDigit c then
      match rest with
      | [] => if fixed then none else some (digitVal c, rest)
      | d :: rest2 =>
        if isDigit d then some (digitVal c * 10 + digitVal d, rest2)
        else if fixed then none else some (digitVal c, rest)
    else none

/-- Go `time.skip` for a layout literal of one character that is not a blank. -/
def skip (value : Str) (lit : Char) : Option Str :=
  match value with
  | [] => none
  | c :: rest => if c = lit then some rest else none

/-- Layout element `2006`: exactly four digits. -/
def parseYear (value : Str) : Option (Int × Str) :=
  match value with
  | a :: b :: c :: d :: rest =>
    if isDigit a ∧ isDigit b ∧ isDigit c ∧ isDigit d then
      some (((digitVal a * 1000 + digitVal b * 100 + digitVal c * 10 + digitVal d : Nat) : Int), rest)
    else none
  | _ => none

/-- The fraction of a second the parser accepts after the seconds although the
layout has none: a period or comma and at least one digit.  Go
`parseNanoseconds` reads the first nine digits and scales them to
nanoseconds; further digits are consumed and ignored. -/
def parseFraction (value : Str) : Nat × Str :=
  match value with
  | sep :: d :: rest =>
    if (sep = '.' ∨ sep = ',') ∧ isDigit d then
      let digits := (d :: rest).takeWhile isDigit
      let used := digits.take 9
      ((used.foldl (fun acc c => acc * 10 + digitVal c) 0) * 10 ^ (9 - used.length),
        (d :: rest).dropWhile isDigit)
    else (0, value)
  | _ => (0, value)

/-- Layout element `Z07:00`: `Z`, or a sign, two digits, a colon and two
digits; hours above 24 and minutes above 60 are range errors. -/
def parseZone (value : Str) : Option (Int × Str) :=
  match value with
  | [] => none
  | sign :: rest =>
    if sign = 'Z' then some (0, rest)
    else
      match rest with
      | h1 :: h2 :: colon :: m1 :: m2 :: rest2 =>
        if colon = ':' ∧ isDigit h1 ∧ isDigit h2 ∧ isDigit m1 ∧ isDigit m2 then
          let hr := digitVal h1 * 10 + digitVal h2
          let mm := digitVal m1 * 10 + digitVal m2
          if hr > 24 ∨ mm > 60 then none
          else if sign = '+' then some ((((hr * 60 + mm) * 60 : Nat) : Int), rest2)
          else if sign = '-' then some (-(((hr * 60 + mm) * 60 : Nat) : Int), rest2)
          else none
        else none
      | _ => none

/-- Go `time.Parse(time.RFC3339, value)`.  The elements of the layout are read
in turn; a two-digit month, day, minute and second, an hour of one or two
digits, an optional fraction of the second, the zone, and nothing after it.
The day is checked against the month and year at the end. -/
def Parse (value : Str) : Option Time :=
  match parseYear value with
  | none => none
  | some (year, v1) =>
  match skip v1 '-' with
  | none => none
  | some v2 =>
  match getnum v2 true with
  | none => none
  | some (month, v3) =>
  match skip v3 '-' with
  | none => none
  | some v4 =>
  match getnum v4 true with
  | none => none
  | some (day, v5) =>
  match skip v5 'T' with
  | none => none
  | some v6 =>
  match getnum v6 false with
  | none => none
  | some (hour, v7) =>
  match skip v7 ':' with
  | none => none
  | some v8 =>
  match getnum v8 true with
  | none => none
  | some (minute, v9) =>
  match skip v9 ':' with
  | none => none
  | some v10 =>
  match getnum v10 true with
  | none => none
  | some (second, v11) =>
  match parseZone (parseFraction v11).2 with
  | none => none
  | some (offset, v12) =>
    if v12 = [] ∧ 1 ≤ month ∧ month ≤ 12 ∧ hour < 24 ∧ minute < 60 ∧ second < 60 ∧
        1 ≤ day ∧ day ≤ daysIn month year then
      some { year := year, month := month, day := day, hour := hour, minute := minute,
             second := second, nsec := (parseFraction v11).1, offset := offset }
    else none

/-! ### encoding/csv -/

/-- Go `unicode.IsSpace`. -/
def isSpace (c : Char) : Bool :=
  let n := c.toNat
  decide (n = 9 ∨ n = 10 ∨ n = 11 ∨ n = 12 ∨ n = 13 ∨ n = 32 ∨ n = 133 ∨ n = 160 ∨
    n = 5760 ∨ (8192 ≤ n ∧ n ≤ 8202) ∨ n = 8232 ∨ n = 8233 ∨ n = 8239 ∨ n = 8287 ∨ n = 12288)

/-- The characters that force the writer to quote a field. -/
def isSpecial (c : Char) : Bool := decide (c = ',' ∨ c = '"' ∨ c = '\r' ∨ c = '\n')

/-- Go `csv.Writer.fieldNeedsQuotes` with the comma as delimiter. -/
def fieldNeedsQuotes (field : Str) : Bool :=
  match field with
  | [] => false
  | c :: _ =>
    if field = ['\\', '.'] then true
    else if field.any isSpecial then true
    else isSpace c

/-- The body of a quoted field as `csv.Writer.Write` emits it without
`UseCRLF`: a quote is doubled, every other character is copied. -/
def escapeField : Str → Str
  | [] => []
  | c :: cs => if c = '"' then '"' :: '"' :: escapeField cs else c :: escapeField cs

/-- One field as `csv.Writer.Write` emits it. -/
def writeField (field : Str) : Str :=
  if fieldNeedsQuotes field then '"' :: (escapeField field ++ ['"']) else field

/-- The fields of a record, separated by commas. -/
def writeFields : List Str → Str
  | [] => []
  | [f] => writeField f
  | f :: g :: fs => writeField f ++ ',' :: writeFields (g :: fs)

/-- Go `csv.Writer.Write`: the fields separated by commas, then a newline. -/
def writeRecord (record : List Str) : Str := writeFields record ++ ['\n']

/-- The errors of `csv.Reader`: `ErrBareQuote`, `ErrQuote`, `ErrFieldCount`. -/
inductive CsvError where
  | bareQuote
  | quote
  | fieldCount
deriving DecidableEq, Repr

/-- What `csv.Reader.readLine` does to the input, for all lines at once: a
carriage return right before a newline is removed, and so is a carriage return
that ends the input. -/
def normalizeLines : Str → Str
  | [] => []
  | [c] => if c = '\r' then [] else [c]
  | c :: d :: rest =>
    if c = '\r' ∧ d = '\n' then '\n' :: normalizeLines rest else c :: normalizeLines (d :: rest)

/-- Where `csv.Reader.readRecord` stands in its input. -/
inductive ReadState where
  /-- before the first line of a record -/
  | lineStart
  /-- at the first character of a field, after the fields `fields` -/
  | fieldStart (fields : List Str)
  /-- inside a field that did not start with a quote -/
  | bare (fields : List Str) (field : Str)
  /-- inside a quoted field -/
  | quoted (fields : List Str) (field : Str)
  /-- right after a quote met inside a quoted field -/
  | quoteSeen (fields : List Str) (field : Str)

/-- The end of a record for `ReadAll`: with `FieldsPerRecord` zero the first
record fixes the number of fields, before that none is expected. -/
def checkFieldCount (expected : Option Nat) (record : List Str) : Bool :=
  match expected with
  | none => true
  | some n => decide (record.length = n)

/-- Go `csv.Reader.ReadAll` with the default settings (comma, no comment
character, `FieldsPerRecord` zero, no lazy quotes, no trimming), on input whose
lines `readLine` has normalised: `readRecord` is run until the input ends and
the first error ends the reading.  `expected` is `FieldsPerRecord` once it is
set, `done` the records read so far.

* Empty lines before a record are skipped.
* A field that does not start with a quote runs to the next comma or the end
  of the line; a quote in it is `ErrBareQuote`.
* A field that starts with a quote runs, across lines, to the next quote not
  followed by a quote; a doubled quote is one quote of the field.  After the
  closing quote come a comma, the end of the line or the end of the input,
  anything else is `ErrQuote`, and so is the end of the input inside the
  field.
* A record whose number of fields differs from the first record's is
  `ErrFieldCount`. -/
def readRecords : ReadState → Option Nat → List (List Str) → Str →
    Except CsvError (List (List Str))
  | .lineStart, _, done, [] => .ok done
  | .lineStart, expected, done, c :: rest =>
    if c = '\n' then readRecords .lineStart expected done rest
    else if c = '"' then readRecords (.quoted [] []) expected done rest
    else if c = ',' then readRecords (.fieldStart [[]]) expected done rest
    else readRecords (.bare [] [c]) expected done rest
  | .fieldStart fields, expected, done, [] =>
    if checkFieldCount expected (fields ++ [[]]) then .ok (done ++ [fields ++ [[]]])
    else .error .fieldCount
  | .fieldStart fields, expected, done, c :: rest =>
    if c = '"' then readRecords (.quoted fields []) expected done rest
    else if c = ',' then readRecords (.fieldStart (fields ++ [[]])) expected done rest
    else if c = '\n' then
      if checkFieldCount expected (fields ++ [[]]) then
        readRecords .lineStart (some (fields ++ [[]]).length) (done ++ [fields ++ [[]]]) rest
      else .error .fieldCount
    else readRecords (.bare fields [c]) expected done rest
  | .bare fields field, expected, done, [] =>
    if checkFieldCount expected (fields ++ [field]) then .ok (done ++ [fields ++ [field]])
    else .error .fieldCount
  | .bare fields field, expected, done, c :: rest =>
    if c = '"' then .error .bareQuote
    else if c = ',' then readRecords (.fieldStart (fields ++ [field])) expected done rest
    else if c = '\n' then
      if checkFieldCount expected (fields ++ [field]) then
        readRecords .lineStart (some (fields ++ [field]).length) (done ++ [fields ++ [field]]) rest
      else .error .fieldCount
    else readRecords (.bare fields (field ++ [c])) expected done rest
  | .quoted _ _, _, _, [] => .error .quote
  | .quoted fields field, expected, done, c :: rest =>
    if c = '"' then readRecords (.quoteSeen fields field) expected done rest
    else readRecords (.quoted fields (field ++ [c])) expected done rest
  | .quoteSeen fields field, expected, done, [] =>
    if checkFieldCount expected (fields ++ [field]) then .ok (done ++ [fields ++ [field]])
    else .error .fieldCount
  | .quoteSeen fields field, expected, done, c :: rest =>
    if c = '"' then readRecords (.quoted fields (field ++ ['"'])) expected done rest
    else if c = ',' then readRecords (.fieldStart (fields ++ [field])) expected done rest
    else if c = '\n' then
      if checkFieldCount expected (fields ++ [field]) then
        readRecords .lineStart (some (fields ++ [field]).length) (done ++ [fields ++ [field]]) rest
      else .error .fieldCount
    else .error .quote

/-- Go `csv.NewReader(file).ReadAll()` on the content of the file. -/
def ReadAll (content : Str) : Except CsvError (List (List Str)) :=
  readRecords .lineStart none [] (normalizeLines content)

/-! ### task.go -/

/-- Go `Task`. -/
structure Task where
  ID : Int
  Description : Str
  CreatedAt : Time
  IsComplete : Bool
deriving DecidableEq, Repr

/-- Go `NewTask`; `now` is the reading of `time.Now()`. -/
def NewTask (id : Int) (description : Str) (now : Time) : Task :=
  { ID := id, Description := description, CreatedAt := now, IsComplete := false }

/-! ### storage.go -/

/-- The errors a call of the store returns: a failure of `ReadAll` wrapped by
`LoadTasks`, or the `task with ID %d not found` of `CompleteTask` and
`DeleteTask`. -/
inductive StoreError where
  | readCSV (e : CsvError)
  | notFound (id : Int)
deriving DecidableEq, Repr

/-- The header record that `LoadTasks` and `SaveTasks` write. -/
def header : List Str :=
  ["ID".toList, "Description".toList, "CreatedAt".toList, "IsComplete".toList]

/-- The record `SaveTasks` builds for a task (storage.go, lines 158-163). -/
def encodeTask (task : Task) : List Str :=
  [Itoa task.ID, task.Description, task.CreatedAt.Format, FormatBool task.IsComplete]

/-- The body of the loop of `LoadTasks` (storage.go, lines 100-128) for one
record: `none` where the loop continues without appending. -/
def decodeRecord (record : List Str) : Option Task :=
  match record with
  | [f0, f1, f2, f3] =>
    match Atoi f0 with
    | none => none
    | some id =>
      match Parse f2 with
      | none => none
      | some createdAt =>
        match ParseBool f3 with
        | none => none
        | some isComplete =>
          some { ID := id, Description := f1, CreatedAt := createdAt, IsComplete := isComplete }
  | _ => none

/-- Successive `csv.Writer.Write` calls followed by `Flush`. -/
def writeAll : List (List Str) → Str
  | [] => []
  | record :: records => writeRecord record ++ writeAll records

/-- `Storage.LoadTasks`: the content of the file after the call, and the
result.  An empty file gets the header; otherwise the file is read by
`ReadAll`, the first record is dropped and each further record is decoded or
skipped. -/
def LoadTasks (file : Str) : Str × Except StoreError (List Task) :=
  if file.length = 0 then (writeRecord header, .ok [])
  else
    match ReadAll file with
    | .error e => (file, .error (.readCSV e))
    | .ok records =>
      if records.length ≤ 1 then (file, .ok [])
      else (file, .ok ((records.drop 1).filterMap decodeRecord))

/-- `Storage.SaveTasks`: the file is truncated, then the header and one record
per task are written. -/
def SaveTasks (tasks : List Task) (_file : Str) : Str × Except StoreError Unit :=
  (writeAll (header :: tasks.map encodeTask), .ok ())

/-- The loop of `AddTask` that computes the new ID (storage.go, lines
184-189); `task.ID + 1` is a Go `int` addition. -/
def nextID (tasks : List Task) : Int :=
  tasks.foldl (fun next task => if task.ID ≥ next then wrapInt (task.ID + 1) else next) 1

/-- `Storage.AddTask`; `now` is the reading of `time.Now()` in `NewTask`. -/
def AddTask (description : Str) (now : Time) (file : Str) : Str × Except StoreError Unit :=
  match LoadTasks file with
  | (file1, .error e) => (file1, .error e)
  | (file1, .ok tasks) => SaveTasks (tasks ++ [NewTask (nextID tasks) description now]) file1

/-- `Storage.ListTasks`. -/
def ListTasks (showAll : Bool) (file : Str) : Str × Except StoreError (List Task) :=
  match LoadTasks file with
  | (file1, .error e) => (file1, .error e)
  | (file1, .ok tasks) =>
    if showAll then (file1, .ok tasks)
    else (file1, .ok (tasks.filter (fun task => !task.IsComplete)))

/-- The loop of `CompleteTask` (storage.go, lines 226-233): the first task
with the ID is marked and the loop breaks; `none` when `found` stays false. -/
def markComplete (id : Int) : List Task → Option (List Task)
  | [] => none
  | task :: tasks =>
    if task.ID = id then some ({ task with IsComplete := true } :: tasks)
    else
      match markComplete id tasks with
      | none => none
      | some tasks1 => some (task :: tasks1)

/-- `Storage.CompleteTask`. -/
def CompleteTask (id : Int) (file : Str) : Str × Except StoreError Unit :=
  match LoadTasks file with
  | (file1, .error e) => (file1, .error e)
  | (file1, .ok tasks) =>
    match markComplete id tasks with
    | none => (file1, .error (.notFound id))
    | some tasks1 => SaveTasks tasks1 file1

/-- `Storage.DeleteTask`: every task with the ID is left out of
`updatedTasks`, and `found` is set when there is one. -/
def DeleteTask (id : Int) (file : Str) : Str × Except StoreError Unit :=
  match LoadTasks file with
  | (file1, .error e) => (file1, .error e)
  | (file1, .ok tasks) =>
    if tasks.any (fun task => task.ID = id) then
      SaveTasks (tasks.filter (fun task => ¬ task.ID = id)) file1
    else (file1, .error (.notFound id))

/-! ### Notions of the statements -/

/-- The timestamps that `Format` writes in a form `Parse` reads back: a real
calendar day and clock time, a year of four digits, and a zone offset of whole
minutes below 25 hours. -/
def Time.Printable (t : Time) : Prop :=
  (1 ≤ t.month ∧ t.month ≤ 12 ∧ 1 ≤ t.day ∧ t.day ≤ daysIn t.month t.year ∧
    t.hour < 24 ∧ t.minute < 60 ∧ t.second < 60) ∧
  0 ≤ t.year ∧ t.year ≤ 9999 ∧ t.offset % 60 = 0 ∧ -90000 < t.offset ∧ t.offset < 90000

instance (t : Time) : Decidable t.Printable := by unfold Time.Printable; exact inferInstance

/-- No carriage return of the text is directly followed by a line feed. -/
def crlfFree : Str → Bool
  | [] => true
  | [_] => true
  | c :: d :: rest => !(decide (c = '\r') && decide (d = '\n')) && crlfFree (d :: rest)

/-- A text that `readLine` leaves as it is, whatever follows it: free of
carriage return plus line feed, and not ending in a carriage return. -/
def lineSafe : Str → Bool
  | [] => true
  | [c] => !decide (c = '\r')
  | c :: d :: rest => !(decide (c = '\r') && decide (d = '\n')) && lineSafe (d :: rest)

/-- The task with the fraction of the second of its timestamp dropped. -/
def Task.truncSecond (t : Task) : Task := { t with CreatedAt := t.CreatedAt.truncSecond }

/-- The tasks whose record the store reads back: the ID is a Go `int`, the
description has no carriage return directly before a line feed, and the
timestamp is one `Format` writes readably. -/
def Task.Writable (t : Task) : Prop :=
  IsInt64 t.ID ∧ crlfFree t.Description = true ∧ t.CreatedAt.Printable

instance (t : Task) : Decidable t.Writable := by unfold Task.Writable; exact inferInstance

/-- The tasks the store writes and reads back unchanged: writable, and no
fraction of a second in the timestamp. -/
def Task.Canonical (t : Task) : Prop := t.Writable ∧ t.CreatedAt.nsec = 0

instance (t : Task) : Decidable t.Canonical := by unfold Task.Canonical; exact inferInstance

/-- What `SaveTasks` leaves in the file. -/
def fileOf (tasks : List Task) : Str := writeAll (header :: tasks.map encodeTask)

/-- The loaded tasks whose record the store reads back after it has written
it: the description has no carriage return directly before a line feed and
the zone offset is not 25 hours. -/
def Task.Rewritable (t : Task) : Prop :=
  crlfFree t.Description = true ∧ t.CreatedAt.offset ≠ 90000 ∧ t.CreatedAt.offset ≠ -90000

instance (t : Task) : Decidable t.Rewritable := by unfold Task.Rewritable; exact inferInstance

/-- The loaded tasks the store writes and reads back unchanged: rewritable,
and no fraction of a second in the timestamp. -/
def Task.Settled (t : Task) : Prop := t.Rewritable ∧ t.CreatedAt.nsec = 0

instance (t : Task) : Decidable t.Settled := by unfold Task.Settled; exact inferInstance

/-- Successive `AddTask` calls, one for each description and reading of the
clock, as long as they succeed. -/
def addTasks : List (Str × Time) → Str → Str × Except StoreError Unit
  | [], file => (file, .ok ())
  | (d, now) :: rest, file =>
    match AddTask d now file with
    | (file1, .error e) => (file1, .error e)
    | (file1, .ok _) => addTasks rest file1

/-- The records read so far agree with the expected number of fields. -/
def Uniform (expected : Option Nat) (done : List (List Str)) : Prop :=
  match expected with
  | none => done = []
  | some n => ∀ r ∈ done, r.length = n

/-- The text with every carriage return that directly precedes a line feed
removed, as `readLine` leaves the lines inside a quoted field. -/
def crlfToLf : Str → Str
  | [] => []
  | [c] => [c]
  | c :: d :: rest =>
    if c = '\r' ∧ d = '\n' then '\n' :: crlfToLf rest else c :: crlfToLf (d :: rest)

/-- The text ends in a carriage return. -/
def endsCR : Str → Bool
  | [] => false
  | [c] => decide (c = '\r')
  | _ :: d :: rest => endsCR (d :: rest)

/-- What a load makes of the record `SaveTasks` wrote for a task: the record
as the reader returns it, decoded by the loop of `LoadTasks`. -/
def reload (t : Task) : Option Task := decodeRecord ((encodeTask t).map crlfToLf)

/-- What a load makes of a task that `SaveTasks` wrote with a Go `int` as ID
and a timestamp `Format` writes readably: the carriage returns directly
before line feeds gone from the description, the timestamp in whole
seconds. -/
def Task.reloaded (t : Task) : Task :=
  { t with Description := crlfToLf t.Description, CreatedAt := t.CreatedAt.truncSecond }

/-- The tasks in the file after successive additions, the first with the ID
`k`: each as the later `AddTask` calls have loaded and saved it. -/
def tasksAdded (k : Int) : List (Str × Time) → List Task
  | [] => []
  | (d, now) :: rest => Task.reloaded^[rest.length] (NewTask k d now) :: tasksAdded (k + 1) rest

/-! ### Concrete inputs -/

/-- A task created in the year 10000. -/
def taskYear10000 : Task := ⟨1, "a".toList, ⟨10000, 1, 1, 0, 0, 0, 0, 0⟩, false⟩

/-- A task created in a zone thirty seconds east of UTC. -/
def taskOffsetSeconds : Task := ⟨1, "a".toList, ⟨2024, 1, 1, 0, 0, 0, 0, 30⟩, false⟩

/-- A task created in a zone a hundred hours east of UTC. -/
def taskOffsetLarge : Task := ⟨1, "a".toList, ⟨2024, 1, 1, 0, 0, 0, 0, 360000⟩, false⟩

/-- A task created on 6 May 2024, 07:08:09.123456789, two hours east of UTC. -/
def taskMay : Task := ⟨-42, "buy, \"milk\"\r\n".toList, ⟨2024, 5, 6, 7, 8, 9, 123456789, 7200⟩, true⟩

/-- A reading of the clock: 6 May 2024, 07:08:09.123456789, two hours east of
UTC. -/
def clockMay : Time := ⟨2024, 5, 6, 7, 8, 9, 123456789, 7200⟩

/-- A file whose only task has a negative ID. -/
def fileNegativeID : Str :=
  "ID,Description,CreatedAt,IsComplete\n-5,a,2024-01-01T00:00:00Z,false\n".toList

/-- A file with the tasks 3 and 7, the first of them complete. -/
def fileThreeSeven : Str :=
  "ID,Description,CreatedAt,IsComplete\n3,a,2024-01-01T00:00:00Z,true\n7,b,2024-01-02T00:00:00Z,false\n".toList

/-- The tasks of `fileThreeSeven`. -/
def tasksThreeSeven : List Task :=
  [⟨3, "a".toList, ⟨2024, 1, 1, 0, 0, 0, 0, 0⟩, true⟩,
   ⟨7, "b".toList, ⟨2024, 1, 2, 0, 0, 0, 0, 0⟩, false⟩]

/-- A file with one well-formed row and one row of two fields. -/
def fileShortRow : Str :=
  "ID,Description,CreatedAt,IsComplete\n1,a,2024-01-01T00:00:00Z,false\n2,b\n".toList

/-- A file with one well-formed row and one row of four fields whose ID field
is not a number. -/
def fileBadID : Str :=
  "ID,Description,CreatedAt,IsComplete\n1,a,2024-01-01T00:00:00Z,false\nx,b,2024-01-02T00:00:00Z,false\n".toList

/-- A reading of the clock in the year 10000. -/
def clockYear10000 : Time := ⟨10000, 1, 1, 0, 0, 0, 0, 0⟩

/-- A file whose only task has a timestamp with half a second. -/
def fileFraction : Str :=
  "ID,Description,CreatedAt,IsComplete\n1,a,2024-01-01T00:00:00.5Z,false\n".toList

/-- A file with the incomplete tasks 1 and 2. -/
def fileOneTwo : Str :=
  "ID,Description,CreatedAt,IsComplete\n1,a,2024-01-01T00:00:00Z,false\n2,b,2024-01-02T00:00:00Z,false\n".toList

/-- A file whose only task has a description with three carriage returns
before a line feed. -/
def fileCarriageReturns : Str :=
  "ID,Description,CreatedAt,IsComplete\n1,\"a\r\r\r\nb\",2024-01-01T00:00:00Z,false\n".toList

/-- A file whose only task has a timestamp with the zone offset `+24:60`. -/
def fileOffset25 : Str :=
  "ID,Description,CreatedAt,IsComplete\n1,a,2024-01-01T00:00:00+24:60,false\n".toList

/-- A file with the tasks 1 and 2, the second with half a second in its
timestamp. -/
def fileMixed : Str :=
  "ID,Description,CreatedAt,IsComplete\n1,a,2024-01-01T00:00:00Z,false\n2,b,2024-01-02T00:00:00.5Z,false\n".toList

/-- A file with the least and the greatest `int` as IDs, in this order. -/
def fileMinMax : Str :=
  "ID,Description,CreatedAt,IsComplete\n-9223372036854775808,a,2024-01-01T00:00:00Z,false\n9223372036854775807,b,2024-01-02T00:00:00Z,false\n".toList

/-- A file whose only task has the greatest `int` as ID. -/
def fileMaxInt : Str :=
  "ID,Description,CreatedAt,IsComplete\n9223372036854775807,a,2024-01-01T00:00:00Z,false\n".toList

/-- A file in which two tasks share the ID 1. -/
def fileSharedID : Str :=
  "ID,Description,CreatedAt,IsComplete\n1,a,2024-01-01T00:00:00Z,false\n1,b,2024-01-02T00:00:00Z,true\n2,c,2024-01-03T00:00:00Z,false\n".toList

/-- A file whose first row is a well-formed data row. -/
def fileNoHeader : Str := "1,a,2024-01-01T00:00:00Z,false\n".toList

/-- A file with the tasks 1, 2 and 3, the first with a description that is
loaded with a carriage return before a line feed. -/
def fileReturnThree : Str :=
  "ID,Description,CreatedAt,IsComplete\n1,\"a\r\r\nb\",2024-01-01T00:00:00Z,false\n2,b,2024-01-02T00:00:00Z,false\n3,c,2024-01-03T00:00:00Z,false\n".toList

/-- The tasks of `fileReturnThree`. -/
def tasksReturnThree : List Task :=
  [⟨1, "a\r\nb".toList, ⟨2024, 1, 1, 0, 0, 0, 0, 0⟩, false⟩,
   ⟨2, "b".toList, ⟨2024, 1, 2, 0, 0, 0, 0, 0⟩, false⟩,
   ⟨3, "c".toList, ⟨2024, 1, 3, 0, 0, 0, 0, 0⟩, false⟩]

/-- A file with the tasks 1 and 2, the second with the zone offset
`+24:60`. -/
def fileOneTwo25 : Str :=
  "ID,Description,CreatedAt,IsComplete\n1,a,2024-01-01T00:00:00Z,false\n2,b,2024-01-02T00:00:00+24:60,false\n".toList

/-- A file with one well-formed row and one row of five fields. -/
def fileLongRow : Str :=
  "ID,Description,CreatedAt,IsComplete\n1,a,2024-01-01T00:00:00Z,false\n2,b,2024-01-02T00:00:00Z,false,x\n".toList

/-- A file with two well-formed rows and, between them, three rows of four
fields: one whose ID, one whose timestamp and one whose flag does not
parse. -/
def fileBadFields : Str :=
  "ID,Description,CreatedAt,IsComplete\n1,a,2024-01-01T00:00:00Z,false\nx,b,2024-01-02T00:00:00Z,false\n3,c,yesterday,false\n4,d,2024-01-04T00:00:00Z,maybe\n5,e,2024-01-05T00:00:00Z,true\n".toList

/-- The task of `fileBadID`. -/
def tasksBadID : List Task := [⟨1, "a".toList, ⟨2024, 1, 1, 0, 0, 0, 0, 0⟩, false⟩]

/-- A file with a row whose zone offset is `+24:60` and a row, the same but
for the zone offset `+25:00`, that `LoadTasks` skips. -/
def fileSkipped25 : Str :=
  "ID,Description,CreatedAt,IsComplete\n1,a,2024-01-01T00:00:00+24:60,false\n1,a,2024-01-01T00:00:00+25:00,false\n".toList

/-- A file without the header whose first row is a well-formed data row,
repeated as the second row. -/
def fileFirstRowTwice : Str :=
  "1,a,2024-01-01T00:00:00Z,false\n1,a,2024-01-01T00:00:00Z,false\n".toList

/-- The file after the first call of the scenario, `AddTask("buy milk")`. -/
def scenario1 (now1 : Time) : Str := (AddTask "buy milk".toList now1 []).1

/-- The file after the second call, `AddTask("walk dog")`. -/
def scenario2 (now1 now2 : Time) : Str := (AddTask "walk dog".toList now2 (scenario1 now1)).1

/-- The file after the third call, `ListTasks(false)`. -/
def scenario3 (now1 now2 : Time) : Str := (ListTasks false (scenario2 now1 now2)).1

/-- The file after the fourth call, `CompleteTask(1)`. -/
def scenario4 (now1 now2 : Time) : Str := (CompleteTask 1 (scenario3 now1 now2)).1

/-- The file after the fifth call, `ListTasks(false)`. -/
def scenario5 (now1 now2 : Time) : Str := (ListTasks false (scenario4 now1 now2)).1

/-- The file after the sixth call, `ListTasks(true)`. -/
def scenario6 (now1 now2 : Time) : Str := (ListTasks true (scenario5 now1 now2)).1

/-- The file after the seventh call, `DeleteTask(2)`. -/
def scenario7 (now1 now2 : Time) : Str := (DeleteTask 2 (scenario6 now1 now2)).1

/-! ## Theorems -/

/-! ### Decimal digits -/

theorem isDigit_digitChar (n : Nat) : isDigit (digitChar n) = true := by
  have h : n % 10 < 10 := Nat.mod_lt _ (by decide)
  unfold digitChar
  generalize n % 10 = m at h
  interval_cases m <;> decide

theorem digitVal_digitChar (n : Nat) : digitVal (digitChar n) = n % 10 := by
  have h : n % 10 < 10 := Nat.mod_lt _ (by decide)
  unfold digitChar
  generalize n % 10 = m at h
  interval_cases m <;> decide

theorem digitChar_ne_quote (n : Nat) : digitChar n ≠ '-' ∧ digitChar n ≠ '+' := by
  have h : n % 10 < 10 := Nat.mod_lt _ (by decide)
  unfold digitChar
  generalize n % 10 = m at h
  interval_cases m <;> decide

theorem natDigitsAux_eq (n : Nat) : ∀ fuel acc, n < fuel →
    natDigitsAux fuel n acc = natDigits n ++ acc := by
  induction n using Nat.strong_induction_on with
  | _ n ih =>
    intro fuel acc hf
    obtain ⟨f, rfl⟩ : ∃ f, fuel = f + 1 := ⟨fuel - 1, by omega⟩
    by_cases h10 : n < 10
    · simp [natDigitsAux, natDigits, h10]
    · have hlt : n / 10 < n := by omega
      have h1 : natDigits n = natDigits (n / 10) ++ [digitChar (n % 10)] := by
        unfold natDigits
        rw [natDigitsAux, if_neg h10, ih (n / 10) hlt n _ hlt]
        rfl
      rw [h1, natDigitsAux, if_neg h10, ih (n / 10) hlt f _ (by omega)]
      simp

theorem natDigits_small (n : Nat) (h : n < 10) : natDigits n = [digitChar n] := by
  simp [natDigits, natDigitsAux, h]

theorem natDigits_step (n : Nat) (h : ¬ n < 10) :
    natDigits n = natDigits (n / 10) ++ [digitChar (n % 10)] := by
  have hlt : n / 10 < n := by omega
  unfold natDigits
  rw [natDigitsAux, if_neg h, natDigitsAux_eq (n / 10) n _ hlt]
  rfl

theorem parseDigitsAux_append (xs : Str) (c : Char) : ∀ acc,
    parseDigitsAux (xs ++ [c]) acc =
      match parseDigitsAux xs acc with
      | some v => if isDigit c then some (v * 10 + digitVal c) else none
      | none => none := by
  induction xs with
  | nil => intro acc; simp [parseDigitsAux]
  | cons x xs ih =>
    intro acc
    by_cases hx : isDigit x = true
    · simp [parseDigitsAux, hx, ih]
    · simp [parseDigitsAux, hx]

theorem parseDigitsAux_natDigits (n : Nat) : parseDigitsAux (natDigits n) 0 = some n := by
  induction n using Nat.strong_induction_on with
  | _ n ih =>
    by_cases h10 : n < 10
    · rw [natDigits_small n h10]
      simp [parseDigitsAux, isDigit_digitChar, digitVal_digitChar]
      omega
    · rw [natDigits_step n h10, parseDigitsAux_append, ih (n / 10) (by omega)]
      simp [isDigit_digitChar, digitVal_digitChar]
      omega

theorem natDigits_head (n : Nat) : ∃ m cs, natDigits n = digitChar m :: cs := by
  induction n using Nat.strong_induction_on with
  | _ n ih =>
    by_cases h10 : n < 10
    · exact ⟨n, [], natDigits_small n h10⟩
    · obtain ⟨m, cs, h⟩ := ih (n / 10) (by omega)
      exact ⟨m, cs ++ [digitChar (n % 10)], by rw [natDigits_step n h10, h]; rfl⟩

theorem parseDigits_natDigits (n : Nat) : parseDigits (natDigits n) = some n := by
  obtain ⟨m, cs, h⟩ := natDigits_head n
  have := parseDigitsAux_natDigits n
  rw [h] at this ⊢
  simpa [parseDigits] using this

/-- `Atoi` reads back what `Itoa` writes, for every Go `int`. -/
theorem Atoi_Itoa (i : Int) (h : IsInt64 i) : Atoi (Itoa i) = some i := by
  obtain ⟨hlo, hhi⟩ := h
  unfold minInt at hlo
  unfold maxInt at hhi
  unfold Itoa
  by_cases hneg : i < 0
  · rw [if_pos hneg]
    simp only [Atoi, if_true, parseDigits_natDigits]
    have : i.natAbs ≤ 9223372036854775808 := by omega
    rw [if_pos this]
    congr 1
    omega
  · rw [if_neg hneg]
    obtain ⟨m, cs, hd⟩ := natDigits_head i.natAbs
    have hp := parseDigits_natDigits i.natAbs
    rw [hd] at hp ⊢
    have h1 := (digitChar_ne_quote m).1
    have h2 := (digitChar_ne_quote m).2
    simp only [Atoi, if_neg h1, if_neg h2, hp]
    have : i.natAbs ≤ 9223372036854775807 := by omega
    rw [if_pos this]
    congr 1
    omega

theorem ParseBool_FormatBool (b : Bool) : ParseBool (FormatBool b) = some b := by
  cases b <;> decide

/-! ### Timestamps written and read back -/

theorem digitChar_mod (n : Nat) : digitChar (n % 10) = digitChar n := by
  simp [digitChar]

theorem digitChar_zero : digitChar 0 = '0' := by decide

theorem appendInt_two (n : Nat) (h : n < 100) :
    appendInt (n : Int) 2 = [digitChar (n / 10), digitChar n] := by
  have hneg : ¬ ((n : Int) < 0) := by omega
  unfold appendInt
  simp only [Int.natAbs_ofNat, if_neg hneg]
  by_cases h10 : n < 10
  · have h0 : n / 10 = 0 := by omega
    rw [natDigits_small n h10, h0, digitChar_zero]
    rfl
  · rw [natDigits_step n h10, natDigits_small (n / 10) (by omega), digitChar_mod]
    rfl

theorem appendInt_four (n : Nat) (h : n ≤ 9999) :
    appendInt (n : Int) 4 =
      [digitChar (n / 1000), digitChar (n / 100), digitChar (n / 10), digitChar n] := by
  have hneg : ¬ ((n : Int) < 0) := by omega
  unfold appendInt
  simp only [Int.natAbs_ofNat, if_neg hneg]
  by_cases h10 : n < 10
  · have h1 : n / 1000 = 0 := by omega
    have h2 : n / 100 = 0 := by omega
    have h3 : n / 10 = 0 := by omega
    rw [natDigits_small n h10, h1, h2, h3, digitChar_zero]
    rfl
  · rw [natDigits_step n h10, digitChar_mod]
    by_cases h100 : n < 100
    · have h1 : n / 1000 = 0 := by omega
      have h2 : n / 100 = 0 := by omega
      rw [natDigits_small (n / 10) (by omega), h1, h2, digitChar_zero]
      rfl
    · rw [natDigits_step (n / 10) (by omega), digitChar_mod, Nat.div_div_eq_div_mul]
      by_cases h1000 : n < 1000
      · have h1 : n / 1000 = 0 := by omega
        rw [natDigits_small (n / (10 * 10)) (by omega), h1, digitChar_zero]
        rfl
      · rw [natDigits_step (n / (10 * 10)) (by omega), digitChar_mod, Nat.div_div_eq_div_mul,
          natDigits_small (n / (10 * 10 * 10)) (by omega)]
        rfl

theorem parseYear_digits (a b c d : Nat) (rest : Str) :
    parseYear (digitChar a :: digitChar b :: digitChar c :: digitChar d :: rest) =
      some (((a % 10 * 1000 + b % 10 * 100 + c % 10 * 10 + d % 10 : Nat) : Int), rest) := by
  simp [parseYear, isDigit_digitChar, digitVal_digitChar]

theorem getnum_digits (a b : Nat) (rest : Str) (fixed : Bool) :
    getnum (digitChar a :: digitChar b :: rest) fixed = some (a % 10 * 10 + b % 10, rest) := by
  simp [getnum, isDigit_digitChar, digitVal_digitChar]

theorem skip_same (c : Char) (rest : Str) : skip (c :: rest) c = some rest := by
  simp [skip]

theorem parseFraction_formatZone (offset : Int) :
    parseFraction (formatZone offset) = (0, formatZone offset) := by
  unfold formatZone
  by_cases h0 : offset = 0
  · simp [h0, parseFraction]
  · simp only [if_neg h0]
    by_cases hz : Int.tdiv offset 60 < 0
    · simp only [if_pos hz]
      obtain ⟨m, cs, hd⟩ : ∃ m cs, appendInt ((Int.tdiv offset 60).natAbs / 60 : Nat) 2 ++
          ':' :: appendInt ((Int.tdiv offset 60).natAbs % 60 : Nat) 2 = m :: cs := by
        cases hx : appendInt ((Int.tdiv offset 60).natAbs / 60 : Nat) 2 ++
          ':' :: appendInt ((Int.tdiv offset 60).natAbs % 60 : Nat) 2 with
        | nil => simp at hx
        | cons m cs => exact ⟨m, cs, rfl⟩
      rw [hd]
      simp [parseFraction]
    · simp only [if_neg hz]
      obtain ⟨m, cs, hd⟩ : ∃ m cs, appendInt ((Int.tdiv offset 60).natAbs / 60 : Nat) 2 ++
          ':' :: appendInt ((Int.tdiv offset 60).natAbs % 60 : Nat) 2 = m :: cs := by
        cases hx : appendInt ((Int.tdiv offset 60).natAbs / 60 : Nat) 2 ++
          ':' :: appendInt ((Int.tdiv offset 60).natAbs % 60 : Nat) 2 with
        | nil => simp at hx
        | cons m cs => exact ⟨m, cs, rfl⟩
      rw [hd]
      simp [parseFraction]

theorem parseZone_formatZone (offset : Int) (h60 : offset % 60 = 0)
    (hlo : -90000 < offset) (hhi : offset < 90000) :
    parseZone (formatZone offset) = some (offset, []) := by
  obtain ⟨k, rfl⟩ : ∃ k : Int, offset = 60 * k := ⟨offset / 60, by omega⟩
  unfold formatZone
  by_cases h0 : 60 * k = 0
  · simp [h0, parseZone]
  · have hk : Int.tdiv (60 * k) 60 = k := Int.mul_tdiv_cancel_left _ (by decide)
    simp only [if_neg h0, hk]
    have hzk : ((k.natAbs : Nat) : Int) = if k < 0 then -k else k := by split_ifs <;> omega
    have hzb : k.natAbs < 1500 := by omega
    generalize k.natAbs = z at hzk hzb
    have hd : z / 60 < 100 := by omega
    have hm : z % 60 < 100 := by omega
    rw [appendInt_two _ hd, appendInt_two _ hm]
    have e1 : z / 60 / 10 % 10 * 10 + z / 60 % 10 = z / 60 := by omega
    have e2 : z % 60 / 10 % 10 * 10 + z % 60 % 10 = z % 60 := by omega
    have r1 : ¬ (z / 60 > 24 ∨ z % 60 > 60) := by omega
    have e3 : (z / 60 * 60 + z % 60) * 60 = 60 * z := by omega
    by_cases hz : k < 0
    · rw [if_pos hz] at hzk
      simp only [if_pos hz, parseZone, List.cons_append, List.nil_append, isDigit_digitChar,
        digitVal_digitChar, e1, e2, if_neg r1, e3]
      simp
      omega
    · rw [if_neg hz] at hzk
      simp only [if_neg hz, parseZone, List.cons_append, List.nil_append, isDigit_digitChar,
        digitVal_digitChar, e1, e2, if_neg r1, e3]
      simp
      omega

/-- `Parse` reads back what `Format` writes, the fraction of the second
dropped. -/
theorem Parse_Format (t : Time) (h : t.Printable) : Parse t.Format = some t.truncSecond := by
  obtain ⟨⟨hm1, hm2, hd1, hd2, hh, hmi, hs⟩, hy0, hy1, h60, hlo, hhi⟩ := h
  obtain ⟨year, month, day, hour, minute, second, nsec, offset⟩ := t
  simp only at hm1 hm2 hd1 hd2 hh hmi hs hy0 hy1 h60 hlo hhi
  obtain ⟨y, rfl⟩ : ∃ y : Nat, year = (y : Int) := ⟨year.toNat, by omega⟩
  have hd3 : day ≤ 31 := by
    have : daysIn month (y : Int) ≤ 31 := by unfold daysIn; split_ifs <;> omega
    omega
  unfold Time.Format
  simp only []
  rw [appendInt_four y (by omega), appendInt_two month (by omega), appendInt_two day (by omega),
    appendInt_two hour (by omega), appendInt_two minute (by omega),
    appendInt_two second (by omega)]
  simp only [Parse, List.cons_append, List.nil_append, parseYear_digits, getnum_digits, skip_same,
    parseFraction_formatZone, parseZone_formatZone offset h60 hlo hhi]
  have ey : ((y / 1000 % 10 * 1000 + y / 100 % 10 * 100 + y / 10 % 10 * 10 + y % 10 : Nat) : Int)
      = (y : Int) := by omega
  have em : month / 10 % 10 * 10 + month % 10 = month := by omega
  have ed : day / 10 % 10 * 10 + day % 10 = day := by omega
  have eh : hour / 10 % 10 * 10 + hour % 10 = hour := by omega
  have emi : minute / 10 % 10 * 10 + minute % 10 = minute := by omega
  have es : second / 10 % 10 * 10 + second % 10 = second := by omega
  rw [ey, em, ed, eh, emi, es]
  simp [hm1, hm2, hd1, hd2, hh, hmi, hs, Time.truncSecond]

/-! ### The reader on what the writer wrote -/

theorem lineSafe_cons_cons (c d : Char) (rest : Str) :
    lineSafe (c :: d :: rest) =
      (!(decide (c = '\r') && decide (d = '\n')) && lineSafe (d :: rest)) := rfl

theorem normalizeLines_append (xs : Str) : ∀ ys, lineSafe xs = true →
    normalizeLines (xs ++ ys) = xs ++ normalizeLines ys := by
  induction xs with
  | nil => intro ys _; rfl
  | cons c xs ih =>
    intro ys h
    cases xs with
    | nil =>
      have hc : c ≠ '\r' := by simpa [lineSafe] using h
      cases ys with
      | nil => simp [normalizeLines, hc]
      | cons y ys => simp [normalizeLines, hc]
    | cons d xs =>
      simp only [lineSafe, Bool.and_eq_true, Bool.not_eq_true', Bool.and_eq_false_imp,
        decide_eq_true_eq, decide_eq_false_iff_not] at h
      have h2 := ih ys h.2
      simp only [List.cons_append] at h2 ⊢
      rw [normalizeLines]
      by_cases hc : c = '\r'
      · have hd := h.1 hc
        simp [hc, hd, h2]
      · simp [hc, h2]

theorem lineSafe_append (xs : Str) : ∀ ys, lineSafe xs = true → lineSafe ys = true →
    lineSafe (xs ++ ys) = true := by
  induction xs with
  | nil => intro ys _ h; exact h
  | cons c xs ih =>
    intro ys hx hy
    cases xs with
    | nil =>
      have hc : c ≠ '\r' := by simpa [lineSafe] using hx
      cases ys with
      | nil => simpa using hx
      | cons y ys => simp [lineSafe, hc, hy]
    | cons d xs =>
      simp only [lineSafe, Bool.and_eq_true] at hx
      have h2 := ih ys hx.2 hy
      simp only [List.cons_append] at h2 ⊢
      simp only [lineSafe, Bool.and_eq_true]
      exact ⟨hx.1, h2⟩

theorem lineSafe_of_no_cr (xs : Str) (h : ∀ c ∈ xs, c ≠ '\r') : lineSafe xs = true := by
  induction xs with
  | nil => rfl
  | cons c xs ih =>
    have hc : c ≠ '\r' := h c (List.mem_cons_self _ _)
    have h2 := ih (fun d hd => h d (List.mem_cons_of_mem _ hd))
    cases xs with
    | nil => simp [lineSafe, hc]
    | cons d xs => simp [lineSafe, hc, h2]

theorem lineSafe_escapeField (xs : Str) : crlfFree xs = true →
    lineSafe (escapeField xs ++ ['"']) = true := by
  induction xs with
  | nil => intro _; decide
  | cons c xs ih =>
    intro h
    cases xs with
    | nil =>
      by_cases hq : c = '"'
      · subst hq; decide
      · by_cases hc : c = '\r'
        · subst hc; decide
        · simp [escapeField, hq, lineSafe, hc]
    | cons d xs =>
      simp only [crlfFree, Bool.and_eq_true] at h
      have h2 := ih h.2
      by_cases hq : c = '"'
      · subst hq
        have : escapeField ('"' :: d :: xs) ++ ['"'] = '"' :: '"' :: (escapeField (d :: xs) ++ ['"']) := by
          simp [escapeField]
        rw [this]
        cases hx : escapeField (d :: xs) ++ ['"'] with
        | nil => simp at hx
        | cons e es =>
          rw [hx] at h2
          simp [lineSafe, h2]
      · have : escapeField (c :: d :: xs) ++ ['"'] = c :: (escapeField (d :: xs) ++ ['"']) := by
          simp [escapeField, hq]
        rw [this]
        by_cases hd : d = '"'
        · subst hd
          have h3 : escapeField ('"' :: xs) ++ ['"'] = '"' :: '"' :: (escapeField xs ++ ['"']) := by
            simp [escapeField]
          rw [h3] at h2 ⊢
          rw [lineSafe_cons_cons, h2]
          simp
        · have h3 : escapeField (d :: xs) ++ ['"'] = d :: (escapeField xs ++ ['"']) := by
            simp [escapeField, hd]
          rw [h3] at h2 ⊢
          rw [lineSafe_cons_cons, h2]
          simpa using h.1

/-- What the writer emits for a field free of carriage return plus line feed
is left alone by `readLine`. -/
theorem lineSafe_writeField (f : Str) (h : crlfFree f = true) : lineSafe (writeField f) = true := by
  unfold writeField
  by_cases hq : fieldNeedsQuotes f = true
  · rw [if_pos hq]
    have := lineSafe_escapeField f h
    cases hx : escapeField f ++ ['"'] with
    | nil => simp at hx
    | cons e es =>
      rw [hx] at this
      simp [lineSafe, this]
  · rw [if_neg hq]
    apply lineSafe_of_no_cr
    intro c hc hcr
    cases f with
    | nil => simp at hc
    | cons a as =>
      have hany : (a :: as).any isSpecial = true := by
        rw [List.any_eq_true]
        exact ⟨c, hc, by simp [isSpecial, hcr]⟩
      simp [fieldNeedsQuotes, hany] at hq

theorem readRecords_bare (f : Str) : ∀ (fields : List Str) (field : Str) (expected : Option Nat)
    (done : List (List Str)) (rest : Str), (∀ c ∈ f, isSpecial c = false) →
    readRecords (.bare fields field) expected done (f ++ rest) =
      readRecords (.bare fields (field ++ f)) expected done rest := by
  induction f with
  | nil => intro fields field expected done rest _; simp
  | cons c cs ih =>
    intro fields field expected done rest h
    have hc : isSpecial c = false := h c (List.mem_cons_self _ _)
    simp only [isSpecial, decide_eq_false_iff_not, not_or] at hc
    obtain ⟨h1, h2, _, h4⟩ := hc
    rw [List.cons_append, readRecords, if_neg h2, if_neg h1, if_neg h4,
      ih _ _ _ _ _ (fun d hd => h d (List.mem_cons_of_mem _ hd))]
    simp

theorem readRecords_quoted (f : Str) : ∀ (fields : List Str) (field : Str) (expected : Option Nat)
    (done : List (List Str)) (rest : Str),
    readRecords (.quoted fields field) expected done (escapeField f ++ '"' :: rest) =
      readRecords (.quoteSeen fields (field ++ f)) expected done rest := by
  induction f with
  | nil => intro fields field expected done rest; simp [escapeField, readRecords]
  | cons c cs ih =>
    intro fields field expected done rest
    by_cases hq : c = '"'
    · subst hq
      simp only [escapeField, if_true, List.cons_append]
      rw [readRecords, if_pos rfl, readRecords, if_pos rfl, ih]
      simp
    · simp only [escapeField, if_neg hq, List.cons_append]
      rw [readRecords, if_neg hq, ih]
      simp

/-- The reader on a written field that a comma follows. -/
theorem readRecords_field_comma (f : Str) (fields : List Str) (expected : Option Nat)
    (done : List (List Str)) (rest : Str) :
    readRecords (.fieldStart fields) expected done (writeField f ++ ',' :: rest) =
      readRecords (.fieldStart (fields ++ [f])) expected done rest := by
  unfold writeField
  by_cases hq : fieldNeedsQuotes f = true
  · rw [if_pos hq]
    simp only [List.cons_append, List.append_assoc, List.singleton_append]
    rw [readRecords, if_pos rfl, readRecords_quoted]
    simp [readRecords]
  · rw [if_neg hq]
    cases f with
    | nil => rw [List.nil_append, readRecords, if_neg (by decide), if_pos rfl]
    | cons a as =>
      have hany : ∀ c ∈ a :: as, isSpecial c = false := by
        intro c hc
        by_contra hs
        have : (a :: as).any isSpecial = true := by
          rw [List.any_eq_true]; exact ⟨c, hc, by simpa using hs⟩
        simp [fieldNeedsQuotes, this] at hq
      have ha := hany a (List.mem_cons_self _ _)
      simp only [isSpecial, decide_eq_false_iff_not, not_or] at ha
      obtain ⟨h1, h2, _, h4⟩ := ha
      rw [List.cons_append, readRecords, if_neg h2, if_neg h1, if_neg h4,
        readRecords_bare as _ _ _ _ _ (fun d hd => hany d (List.mem_cons_of_mem _ hd)),
        readRecords, if_neg (by decide), if_pos rfl]
      simp

/-- The reader on a written field that ends its line. -/
theorem readRecords_field_newline (f : Str) (fields : List Str) (expected : Option Nat)
    (done : List (List Str)) (rest : Str) :
    readRecords (.fieldStart fields) expected done (writeField f ++ '\n' :: rest) =
      if checkFieldCount expected (fields ++ [f]) then
        readRecords .lineStart (some (fields ++ [f]).length) (done ++ [fields ++ [f]]) rest
      else .error .fieldCount := by
  unfold writeField
  by_cases hq : fieldNeedsQuotes f = true
  · rw [if_pos hq]
    simp only [List.cons_append, List.append_assoc, List.singleton_append]
    rw [readRecords, if_pos rfl, readRecords_quoted]
    simp [readRecords]
  · rw [if_neg hq]
    cases f with
    | nil => rw [List.nil_append, readRecords, if_neg (by decide), if_neg (by decide), if_pos rfl]
    | cons a as =>
      have hany : ∀ c ∈ a :: as, isSpecial c = false := by
        intro c hc
        by_contra hs
        have : (a :: as).any isSpecial = true := by
          rw [List.any_eq_true]; exact ⟨c, hc, by simpa using hs⟩
        simp [fieldNeedsQuotes, this] at hq
      have ha := hany a (List.mem_cons_self _ _)
      simp only [isSpecial, decide_eq_false_iff_not, not_or] at ha
      obtain ⟨h1, h2, _, h4⟩ := ha
      rw [List.cons_append, readRecords, if_neg h2, if_neg h1, if_neg h4,
        readRecords_bare as _ _ _ _ _ (fun d hd => hany d (List.mem_cons_of_mem _ hd)),
        readRecords, if_neg (by decide), if_neg (by decide), if_pos rfl]
      simp

/-- The reader on the written fields of a record, from the start of one of
its fields. -/
theorem readRecords_fields (fs : List Str) : ∀ (f : Str) (fields : List Str)
    (expected : Option Nat) (done : List (List Str)) (rest : Str),
    readRecords (.fieldStart fields) expected done (writeFields (f :: fs) ++ '\n' :: rest) =
      if checkFieldCount expected (fields ++ f :: fs) then
        readRecords .lineStart (some (fields ++ f :: fs).length) (done ++ [fields ++ f :: fs]) rest
      else .error .fieldCount := by
  induction fs with
  | nil =>
    intro f fields expected done rest
    simp only [writeFields]
    exact readRecords_field_newline f fields expected done rest
  | cons g gs ih =>
    intro f fields expected done rest
    simp only [writeFields, List.append_assoc, List.cons_append]
    rw [readRecords_field_comma]
    have := ih g (fields ++ [f]) expected done rest
    simp only [List.append_assoc, List.singleton_append] at this
    exact this

theorem readRecords_lineStart (c : Char) (rest : Str) (expected : Option Nat)
    (done : List (List Str)) (h : c ≠ '\n') :
    readRecords .lineStart expected done (c :: rest) =
      readRecords (.fieldStart []) expected done (c :: rest) := by
  rw [readRecords, readRecords, if_neg h]
  by_cases h1 : c = '"'
  · simp [h1]
  · by_cases h2 : c = ','
    · simp [h2]
    · simp [h1, h2, h]

theorem writeField_comma_head (f : Str) (rest : Str) :
    ∃ c tail, writeField f ++ ',' :: rest = c :: tail ∧ c ≠ '\n' := by
  unfold writeField
  by_cases hq : fieldNeedsQuotes f = true
  · rw [if_pos hq]
    exact ⟨'"', _, rfl, by decide⟩
  · rw [if_neg hq]
    cases f with
    | nil => exact ⟨',', rest, rfl, by decide⟩
    | cons a as =>
      refine ⟨a, as ++ ',' :: rest, rfl, ?_⟩
      intro ha
      subst ha
      simp [fieldNeedsQuotes, isSpecial] at hq

/-- The reader on written records that all have the same number of fields, at
least two: it returns them. -/
theorem readRecords_writeAll (n : Nat) (hn : 2 ≤ n) (rs : List (List Str)) :
    ∀ (expected : Option Nat) (done : List (List Str)), (∀ r ∈ rs, r.length = n) →
    (expected = none ∨ expected = some n) →
    readRecords .lineStart expected done (writeAll rs) = .ok (done ++ rs) := by
  induction rs with
  | nil => intro expected done _ _; simp [writeAll, readRecords]
  | cons r rs ih =>
    intro expected done hlen hexp
    have hr : r.length = n := hlen r (List.mem_cons_self _ _)
    obtain ⟨f, g, fs, rfl⟩ : ∃ f g fs, r = f :: g :: fs := by
      match r, hr with
      | [], h => simp at h; omega
      | [_], h => simp at h; omega
      | f :: g :: fs, _ => exact ⟨f, g, fs, rfl⟩
    have hcheck : checkFieldCount expected (f :: g :: fs) = true := by
      rcases hexp with h | h <;> simp [h, checkFieldCount, hr]
    have hw : writeAll ((f :: g :: fs) :: rs) =
        writeFields (f :: g :: fs) ++ '\n' :: writeAll rs := by
      simp [writeAll, writeRecord]
    rw [hw]
    obtain ⟨c, tail, hc, hne⟩ := writeField_comma_head f (writeFields (g :: fs) ++ '\n' :: writeAll rs)
    have hw2 : writeFields (f :: g :: fs) ++ '\n' :: writeAll rs = c :: tail := by
      rw [← hc]; simp [writeFields]
    rw [hw2, readRecords_lineStart c tail expected done hne, ← hw2, readRecords_fields]
    simp only [List.nil_append, hcheck, if_true]
    rw [ih (some (f :: g :: fs).length) _ (fun r hr => hlen r (List.mem_cons_of_mem _ hr))
      (Or.inr (by rw [hr]))]
    simp

theorem lineSafe_writeFields (r : List Str) (h : ∀ f ∈ r, crlfFree f = true) :
    lineSafe (writeFields r) = true := by
  induction r with
  | nil => rfl
  | cons f fs ih =>
    have hf := lineSafe_writeField f (h f (List.mem_cons_self _ _))
    cases fs with
    | nil => simpa [writeFields] using hf
    | cons g gs =>
      have h2 := ih (fun x hx => h x (List.mem_cons_of_mem _ hx))
      simp only [writeFields]
      apply lineSafe_append _ _ hf
      have : (',' :: writeFields (g :: gs)) = [','] ++ writeFields (g :: gs) := rfl
      rw [this]
      exact lineSafe_append _ _ (by decide) h2

theorem lineSafe_writeAll (rs : List (List Str)) (h : ∀ r ∈ rs, ∀ f ∈ r, crlfFree f = true) :
    lineSafe (writeAll rs) = true := by
  induction rs with
  | nil => rfl
  | cons r rs ih =>
    simp only [writeAll, writeRecord]
    apply lineSafe_append
    · exact lineSafe_append _ _ (lineSafe_writeFields r (h r (List.mem_cons_self _ _))) (by decide)
    · exact ih (fun x hx => h x (List.mem_cons_of_mem _ hx))

/-- Round trip of the CSV layer: records of one length, at least two fields
each, no field with a carriage return directly before a line feed, are read
back as written. -/
theorem ReadAll_writeAll (n : Nat) (hn : 2 ≤ n) (rs : List (List Str))
    (hlen : ∀ r ∈ rs, r.length = n) (hsafe : ∀ r ∈ rs, ∀ f ∈ r, crlfFree f = true) :
    ReadAll (writeAll rs) = .ok rs := by
  unfold ReadAll
  have h := normalizeLines_append (writeAll rs) [] (lineSafe_writeAll rs hsafe)
  simp only [List.append_nil] at h
  have h0 : normalizeLines [] = [] := rfl
  rw [h0, List.append_nil] at h
  rw [h, readRecords_writeAll n hn rs none [] hlen (Or.inl rfl)]
  simp

/-! ### Records of tasks -/

theorem crlfFree_of_no_cr (xs : Str) (h : ∀ c ∈ xs, c ≠ '\r') : crlfFree xs = true := by
  induction xs with
  | nil => rfl
  | cons c xs ih =>
    have hc : c ≠ '\r' := h c (List.mem_cons_self _ _)
    have h2 := ih (fun d hd => h d (List.mem_cons_of_mem _ hd))
    cases xs with
    | nil => rfl
    | cons d xs => simp [crlfFree, hc, h2]

theorem isDigit_ne_cr (c : Char) (h : isDigit c = true) : c ≠ '\r' := by
  intro hc
  subst hc
  exact absurd h (by decide)

theorem natDigits_isDigit (n : Nat) : ∀ c ∈ natDigits n, isDigit c = true := by
  induction n using Nat.strong_induction_on with
  | _ n ih =>
    intro c hc
    by_cases h10 : n < 10
    · rw [natDigits_small n h10] at hc
      simp only [List.mem_singleton] at hc
      rw [hc]; exact isDigit_digitChar n
    · rw [natDigits_step n h10, List.mem_append] at hc
      rcases hc with hc | hc
      · exact ih (n / 10) (by omega) c hc
      · simp only [List.mem_singleton] at hc
        rw [hc]; exact isDigit_digitChar _

theorem Itoa_no_cr (i : Int) : ∀ c ∈ Itoa i, c ≠ '\r' := by
  intro c hc
  unfold Itoa at hc
  split_ifs at hc
  · rcases List.mem_cons.1 hc with h | h
    · rw [h]; decide
    · exact isDigit_ne_cr c (natDigits_isDigit _ c h)
  · exact isDigit_ne_cr c (natDigits_isDigit _ c hc)

theorem appendInt_no_cr (x : Int) (width : Nat) : ∀ c ∈ appendInt x width, c ≠ '\r' := by
  intro c hc
  have hpad : ∀ d ∈ List.replicate (width - (natDigits x.natAbs).length) '0' ++ natDigits x.natAbs,
      d ≠ '\r' := by
    intro d hd
    rcases List.mem_append.1 hd with h | h
    · rw [(List.mem_replicate.1 h).2]; decide
    · exact isDigit_ne_cr d (natDigits_isDigit _ d h)
  unfold appendInt at hc
  simp only [] at hc
  split_ifs at hc
  · rcases List.mem_cons.1 hc with h | h
    · rw [h]; decide
    · exact hpad c h
  · exact hpad c hc

theorem formatZone_no_cr (offset : Int) : ∀ c ∈ formatZone offset, c ≠ '\r' := by
  intro c hc
  unfold formatZone at hc
  split_ifs at hc with h0
  · simp only [List.mem_singleton] at hc
    rw [hc]; decide
  · simp only [List.mem_cons, List.mem_append] at hc
    rcases hc with h | h | h | h
    · rw [h]; split_ifs <;> decide
    · exact appendInt_no_cr _ _ c h
    · rw [h]; decide
    · exact appendInt_no_cr _ _ c h

theorem Format_no_cr (t : Time) : ∀ c ∈ t.Format, c ≠ '\r' := by
  intro c hc
  unfold Time.Format at hc
  simp only [List.mem_cons, List.mem_append] at hc
  rcases hc with h | h | h | h | h | h | h | h | h | h | h | h
  · exact appendInt_no_cr _ _ c h
  · rw [h]; decide
  · exact appendInt_no_cr _ _ c h
  · rw [h]; decide
  · exact appendInt_no_cr _ _ c h
  · rw [h]; decide
  · exact appendInt_no_cr _ _ c h
  · rw [h]; decide
  · exact appendInt_no_cr _ _ c h
  · rw [h]; decide
  · exact appendInt_no_cr _ _ c h
  · exact formatZone_no_cr _ c h

theorem FormatBool_crlfFree (b : Bool) : crlfFree (FormatBool b) = true := by
  cases b <;> decide

/-- The record of a task has no carriage return before a line feed in a field
when the description has none. -/
theorem encodeTask_crlfFree (t : Task) (h : crlfFree t.Description = true) :
    ∀ f ∈ encodeTask t, crlfFree f = true := by
  intro f hf
  simp only [encodeTask, List.mem_cons, List.mem_singleton, List.not_mem_nil, or_false] at hf
  rcases hf with h1 | h1 | h1 | h1
  · rw [h1]; exact crlfFree_of_no_cr _ (Itoa_no_cr _)
  · rw [h1]; exact h
  · rw [h1]; exact crlfFree_of_no_cr _ (Format_no_cr _)
  · rw [h1]; exact FormatBool_crlfFree _

/-- The loop body of `LoadTasks` on the record `SaveTasks` builds. -/
theorem decodeRecord_encodeTask (t : Task) (hid : IsInt64 t.ID) (ht : t.CreatedAt.Printable) :
    decodeRecord (encodeTask t) = some t.truncSecond := by
  simp [decodeRecord, encodeTask, Atoi_Itoa t.ID hid, Parse_Format t.CreatedAt ht,
    ParseBool_FormatBool, Task.truncSecond]

theorem truncSecond_of_canonical (t : Task) (h : t.Canonical) : t.truncSecond = t := by
  obtain ⟨_, hn⟩ := h
  obtain ⟨id, d, ⟨y, mo, da, ho, mi, se, ns, off⟩, c⟩ := t
  simp only at hn
  subst hn
  rfl

theorem map_truncSecond_of_canonical (ts : List Task) (h : ∀ t ∈ ts, t.Canonical) :
    ts.map Task.truncSecond = ts := by
  induction ts with
  | nil => rfl
  | cons t ts ih =>
    rw [List.map_cons, truncSecond_of_canonical t (h t (List.mem_cons_self _ _)),
      ih (fun x hx => h x (List.mem_cons_of_mem _ hx))]

theorem truncSecond_canonical (t : Task) (h : t.Writable) : t.truncSecond.Canonical :=
  ⟨h, rfl⟩

theorem encodeTask_truncSecond (t : Task) : encodeTask t.truncSecond = encodeTask t := rfl

theorem filterMap_decodeRecord_encodeTask (ts : List Task) (h : ∀ t ∈ ts, t.Writable) :
    (ts.map encodeTask).filterMap decodeRecord = ts.map Task.truncSecond := by
  induction ts with
  | nil => rfl
  | cons t ts ih =>
    have ht := h t (List.mem_cons_self _ _)
    simp only [List.map_cons, List.filterMap_cons, decodeRecord_encodeTask t ht.1 ht.2.2]
    rw [ih (fun x hx => h x (List.mem_cons_of_mem _ hx))]

theorem fileOf_map_truncSecond (tasks : List Task) :
    fileOf (tasks.map Task.truncSecond) = fileOf tasks := by
  unfold fileOf
  rw [List.map_map]
  rfl

theorem fileOf_length (tasks : List Task) : ¬ (fileOf tasks).length = 0 := by
  have : fileOf tasks = 'I' :: ("D,Description,CreatedAt,IsComplete\n".toList ++
      writeAll (tasks.map encodeTask)) := by
    simp only [fileOf, writeAll]
    have : writeRecord header = "ID,Description,CreatedAt,IsComplete\n".toList := by decide
    rw [this]; rfl
  rw [this]
  simp

theorem ReadAll_fileOf (tasks : List Task) (h : ∀ t ∈ tasks, crlfFree t.Description = true) :
    ReadAll (fileOf tasks) = .ok (header :: tasks.map encodeTask) := by
  apply ReadAll_writeAll 4 (by decide)
  · intro r hr
    rcases List.mem_cons.1 hr with h1 | h1
    · rw [h1]; rfl
    · obtain ⟨t, _, rfl⟩ := List.mem_map.1 h1
      rfl
  · intro r hr
    rcases List.mem_cons.1 hr with h1 | h1
    · rw [h1]; decide
    · obtain ⟨t, ht, rfl⟩ := List.mem_map.1 h1
      exact encodeTask_crlfFree t (h t ht)

/-- Loading the file `SaveTasks` wrote for writable tasks returns the tasks,
fractions of seconds dropped, and leaves the file as it is. -/
theorem LoadTasks_fileOf (tasks : List Task) (h : ∀ t ∈ tasks, t.Writable) :
    LoadTasks (fileOf tasks) = (fileOf tasks, .ok (tasks.map Task.truncSecond)) := by
  unfold LoadTasks
  rw [if_neg (fileOf_length tasks), ReadAll_fileOf tasks (fun t ht => (h t ht).2.1)]
  simp only [List.length_cons, List.length_map, List.drop_succ_cons, List.drop_zero]
  cases tasks with
  | nil => simp
  | cons t ts =>
    rw [if_neg (by simp), filterMap_decodeRecord_encodeTask _ h]

/-- A second `LoadTasks` finds the file as the first left it and returns the
same. -/
theorem LoadTasks_LoadTasks (file : Str) :
    LoadTasks (LoadTasks file).1 = LoadTasks file := by
  by_cases h0 : file.length = 0
  · have hf : file = [] := List.length_eq_zero.1 h0
    subst hf
    decide
  · have h1 : (LoadTasks file).1 = file := by
      unfold LoadTasks
      rw [if_neg h0]
      split
      · rfl
      · split <;> rfl
    rw [h1]

theorem LoadTasks_fst_of_ok (file : Str) (tasks : List Task) (h : (LoadTasks file).2 = .ok tasks) :
    LoadTasks file = ((LoadTasks file).1, .ok tasks) := by
  rw [← h]

/-! ### Go `int` arithmetic and the new ID -/

theorem wrapInt_of_isInt64 (x : Int) (h : IsInt64 x) : wrapInt x = x := by
  unfold IsInt64 minInt maxInt at h
  unfold wrapInt
  omega

theorem isInt64_wrapInt (x : Int) : IsInt64 (wrapInt x) := by
  unfold IsInt64 minInt maxInt wrapInt
  omega

theorem parseDigits_none_or (s : Str) : parseDigits s = none ∨ ∃ n, parseDigits s = some n := by
  cases h : parseDigits s with
  | none => exact Or.inl rfl
  | some n => exact Or.inr ⟨n, rfl⟩

theorem Atoi_isInt64 (s : Str) (n : Int) (h : Atoi s = some n) : IsInt64 n := by
  unfold IsInt64 minInt maxInt
  cases s with
  | nil => simp [Atoi] at h
  | cons c cs =>
    simp only [Atoi] at h
    split_ifs at h
    · rcases parseDigits_none_or cs with hp | ⟨m, hp⟩
      · simp [hp] at h
      · simp only [hp] at h
        split_ifs at h
        simp only [Option.some.injEq] at h
        omega
    · rcases parseDigits_none_or cs with hp | ⟨m, hp⟩
      · simp [hp] at h
      · simp only [hp] at h
        split_ifs at h
        simp only [Option.some.injEq] at h
        omega
    · rcases parseDigits_none_or (c :: cs) with hp | ⟨m, hp⟩
      · simp [hp] at h
      · simp only [hp] at h
        split_ifs at h
        simp only [Option.some.injEq] at h
        omega

/-- What the loop body of `LoadTasks` accepts, and what it makes of it. -/
theorem decodeRecord_eq_some (r : List Str) (t : Task) :
    decodeRecord r = some t ↔
      ∃ f0 f1 f2 f3, r = [f0, f1, f2, f3] ∧ Atoi f0 = some t.ID ∧ f1 = t.Description ∧
        Parse f2 = some t.CreatedAt ∧ ParseBool f3 = some t.IsComplete := by
  constructor
  · intro h
    unfold decodeRecord at h
    split at h
    · rename_i f0 f1 f2 f3
      refine ⟨f0, f1, f2, f3, rfl, ?_⟩
      cases h0 : Atoi f0 with
      | none => simp [h0] at h
      | some id =>
        cases h2 : Parse f2 with
        | none => simp [h0, h2] at h
        | some c =>
          cases h3 : ParseBool f3 with
          | none => simp [h0, h2, h3] at h
          | some b =>
            simp only [h0, h2, h3, Option.some.injEq] at h
            subst h
            exact ⟨rfl, rfl, rfl, rfl⟩
    · simp at h
  · rintro ⟨f0, f1, f2, f3, rfl, h0, h1, h2, h3⟩
    obtain ⟨id, d, c, b⟩ := t
    simp only at h0 h1 h2 h3
    simp [decodeRecord, h0, h1, h2, h3]

theorem decodeRecord_isInt64 (r : List Str) (t : Task) (h : decodeRecord r = some t) :
    IsInt64 t.ID := by
  obtain ⟨f0, _, _, _, _, h0, _⟩ := (decodeRecord_eq_some r t).1 h
  exact Atoi_isInt64 f0 t.ID h0

/-- What `LoadTasks` returns when it returns tasks: the decoded records after
the first, or nothing for an empty file. -/
theorem LoadTasks_ok (file : Str) (tasks : List Task) (h : (LoadTasks file).2 = .ok tasks) :
    ∃ records : List (List Str), tasks = records.filterMap decodeRecord := by
  unfold LoadTasks at h
  split_ifs at h
  · exact ⟨[], by simpa using h.symm⟩
  · cases hr : ReadAll file with
    | error e => simp [hr] at h
    | ok records =>
      simp only [hr] at h
      split_ifs at h
      · exact ⟨[], by simpa using h.symm⟩
      · exact ⟨records.drop 1, by simpa using h.symm⟩

/-- Every ID that `LoadTasks` returns is a Go `int`. -/
theorem LoadTasks_isInt64 (file : Str) (tasks : List Task) (h : (LoadTasks file).2 = .ok tasks) :
    ∀ t ∈ tasks, IsInt64 t.ID := by
  obtain ⟨records, rfl⟩ := LoadTasks_ok file tasks h
  intro t ht
  obtain ⟨r, _, hr⟩ := List.mem_filterMap.1 ht
  exact decodeRecord_isInt64 r t hr

/-- The loop of `AddTask` from any start value, where no ID is the greatest
`int`: the result is not below the start, exceeds every ID, and is the start
or the successor of an ID. -/
theorem nextID_loop (tasks : List Task) : ∀ (init : Int),
    (∀ t ∈ tasks, IsInt64 t.ID ∧ t.ID < maxInt) →
    let r := tasks.foldl
      (fun next task => if task.ID ≥ next then wrapInt (task.ID + 1) else next) init
    init ≤ r ∧ (∀ t ∈ tasks, t.ID < r) ∧ (r = init ∨ ∃ t ∈ tasks, r = t.ID + 1) := by
  induction tasks with
  | nil => intro init _; simp
  | cons t ts ih =>
    intro init h
    have ht := h t (List.mem_cons_self _ _)
    have hw : wrapInt (t.ID + 1) = t.ID + 1 := by
      apply wrapInt_of_isInt64
      have := ht.1
      have := ht.2
      unfold IsInt64 minInt maxInt at *
      omega
    have hts := fun x hx => h x (List.mem_cons_of_mem _ hx)
    simp only [List.foldl_cons, hw]
    by_cases hge : t.ID ≥ init
    · simp only [if_pos hge]
      obtain ⟨h1, h2, h3⟩ := ih (t.ID + 1) hts
      refine ⟨by omega, ?_, ?_⟩
      · intro u hu
        rcases List.mem_cons.1 hu with rfl | hu
        · omega
        · exact h2 u hu
      · rcases h3 with h3 | ⟨u, hu, h3⟩
        · exact Or.inr ⟨t, List.mem_cons_self _ _, h3⟩
        · exact Or.inr ⟨u, List.mem_cons_of_mem _ hu, h3⟩
    · simp only [if_neg hge]
      obtain ⟨h1, h2, h3⟩ := ih init hts
      refine ⟨h1, ?_, ?_⟩
      · intro u hu
        rcases List.mem_cons.1 hu with rfl | hu
        · omega
        · exact h2 u hu
      · rcases h3 with h3 | ⟨u, hu, h3⟩
        · exact Or.inl h3
        · exact Or.inr ⟨u, List.mem_cons_of_mem _ hu, h3⟩

theorem nextID_spec (tasks : List Task) (h : ∀ t ∈ tasks, IsInt64 t.ID ∧ t.ID < maxInt) :
    1 ≤ nextID tasks ∧ (∀ t ∈ tasks, t.ID < nextID tasks) ∧
      (nextID tasks = 1 ∨ ∃ t ∈ tasks, nextID tasks = t.ID + 1) :=
  nextID_loop tasks 1 h

theorem AddTask_of_ok (file : Str) (tasks : List Task) (d : Str) (now : Time)
    (h : (LoadTasks file).2 = .ok tasks) :
    AddTask d now file = (fileOf (tasks ++ [NewTask (nextID tasks) d now]), .ok ()) := by
  unfold AddTask
  rw [LoadTasks_fst_of_ok file tasks h]
  rfl

/-! ### The loops of the operations -/

theorem markComplete_none (id : Int) (tasks : List Task) (h : ∀ t ∈ tasks, t.ID ≠ id) :
    markComplete id tasks = none := by
  induction tasks with
  | nil => rfl
  | cons t ts ih =>
    simp only [markComplete, if_neg (h t (List.mem_cons_self _ _)),
      ih (fun x hx => h x (List.mem_cons_of_mem _ hx))]

theorem any_ID_false (id : Int) (tasks : List Task) (h : ∀ t ∈ tasks, t.ID ≠ id) :
    tasks.any (fun task => decide (task.ID = id)) = false := by
  rw [List.any_eq_false]
  intro t ht
  simpa using h t ht

theorem LoadTasks_of_ReadAll (file : Str) (hdr : List Str) (rows : List (List Str))
    (h : ReadAll file = .ok (hdr :: rows)) :
    LoadTasks file = (file, .ok (rows.filterMap decodeRecord)) := by
  have hne : ¬ file.length = 0 := by
    intro h0
    have hf : file = [] := List.length_eq_zero.1 h0
    subst hf
    have h1 : ReadAll [] = .ok [] := by decide
    rw [h1] at h
    simp at h
  unfold LoadTasks
  rw [if_neg hne, h]
  cases rows with
  | nil => simp
  | cons r rs => simp

/-! ### The field count of the records `ReadAll` returns -/

theorem uniform_step (expected : Option Nat) (done : List (List Str)) (record : List Str)
    (h : Uniform expected done) (hc : checkFieldCount expected record = true) :
    Uniform (some record.length) (done ++ [record]) := by
  intro r hr
  rcases List.mem_append.1 hr with hr | hr
  · cases expected with
    | none =>
      have hd : done = [] := h
      rw [hd] at hr
      simp at hr
    | some n =>
      have hn : record.length = n := by simpa [checkFieldCount] using hc
      rw [hn]
      exact h r hr
  · rw [List.mem_singleton.1 hr]

theorem uniform_result (expected : Option Nat) (done : List (List Str)) (record : List Str)
    (h : Uniform expected done) (hc : checkFieldCount expected record = true) :
    ∃ n, ∀ r ∈ done ++ [record], r.length = n :=
  ⟨record.length, uniform_step expected done record h hc⟩

/-- Whatever `readRecords` returns has one number of fields in all records. -/
theorem readRecords_uniform (input : Str) : ∀ (st : ReadState) (expected : Option Nat)
    (done out : List (List Str)), Uniform expected done →
    readRecords st expected done input = .ok out → ∃ n, ∀ r ∈ out, r.length = n := by
  induction input with
  | nil =>
    intro st expected done out hu h
    cases st with
    | lineStart =>
      simp only [readRecords, Except.ok.injEq] at h
      subst h
      cases expected with
      | none =>
        have hd : done = [] := hu
        rw [hd]
        exact ⟨0, by simp⟩
      | some n => exact ⟨n, hu⟩
    | fieldStart fields =>
      simp only [readRecords] at h
      split_ifs at h with hc
      simp only [Except.ok.injEq] at h
      subst h
      exact uniform_result expected done _ hu hc
    | bare fields field =>
      simp only [readRecords] at h
      split_ifs at h with hc
      simp only [Except.ok.injEq] at h
      subst h
      exact uniform_result expected done _ hu hc
    | quoted fields field => simp [readRecords] at h
    | quoteSeen fields field =>
      simp only [readRecords] at h
      split_ifs at h with hc
      simp only [Except.ok.injEq] at h
      subst h
      exact uniform_result expected done _ hu hc
  | cons c rest ih =>
    intro st expected done out hu h
    cases st with
    | lineStart =>
      simp only [readRecords] at h
      split_ifs at h
      · exact ih _ _ _ _ hu h
      · exact ih _ _ _ _ hu h
      · exact ih _ _ _ _ hu h
      · exact ih _ _ _ _ hu h
    | fieldStart fields =>
      simp only [readRecords] at h
      split_ifs at h with h1 h2 h3 hc
      · exact ih _ _ _ _ hu h
      · exact ih _ _ _ _ hu h
      · exact ih _ _ _ _ (uniform_step expected done _ hu hc) h
      · exact ih _ _ _ _ hu h
    | bare fields field =>
      simp only [readRecords] at h
      split_ifs at h with h1 h2 h3 hc
      · exact ih _ _ _ _ hu h
      · exact ih _ _ _ _ (uniform_step expected done _ hu hc) h
      · exact ih _ _ _ _ hu h
    | quoted fields field =>
      simp only [readRecords] at h
      split_ifs at h
      · exact ih _ _ _ _ hu h
      · exact ih _ _ _ _ hu h
    | quoteSeen fields field =>
      simp only [readRecords] at h
      split_ifs at h with h1 h2 h3 hc
      · exact ih _ _ _ _ hu h
      · exact ih _ _ _ _ hu h
      · exact ih _ _ _ _ (uniform_step expected done _ hu hc) h

/-- Every record `ReadAll` returns has as many fields as the first. -/
theorem ReadAll_uniform (file : Str) (hdr : List Str) (rows : List (List Str))
    (h : ReadAll file = .ok (hdr :: rows)) : ∀ r ∈ rows, r.length = hdr.length := by
  obtain ⟨n, hn⟩ := readRecords_uniform _ .lineStart none [] _ rfl h
  intro r hr
  rw [hn r (List.mem_cons_of_mem _ hr), hn hdr (List.mem_cons_self _ _)]

/-! ### What `Parse` returns -/

theorem digitVal_le (c : Char) (h : isDigit c = true) : digitVal c ≤ 9 := by
  unfold isDigit at h
  unfold digitVal
  simp only [decide_eq_true_eq] at h
  omega

theorem parseYear_range (v : Str) (y : Int) (rest : Str) (h : parseYear v = some (y, rest)) :
    0 ≤ y ∧ y ≤ 9999 := by
  unfold parseYear at h
  split at h
  · rename_i a b c d r
    split_ifs at h with hd
    simp only [Option.some.injEq, Prod.mk.injEq] at h
    have ha := digitVal_le a hd.1
    have hb := digitVal_le b hd.2.1
    have hc := digitVal_le c hd.2.2.1
    have hdd := digitVal_le d hd.2.2.2
    omega
  · simp at h

theorem parseZone_range (v : Str) (off : Int) (rest : Str) (h : parseZone v = some (off, rest)) :
    off % 60 = 0 ∧ -90000 ≤ off ∧ off ≤ 90000 := by
  unfold parseZone at h
  split at h
  · simp at h
  · split at h
    · simp only [Option.some.injEq, Prod.mk.injEq] at h
      omega
    · split at h
      · simp only at h
        split_ifs at h <;> simp only [Option.some.injEq, Prod.mk.injEq, reduceCtorEq] at h <;> omega
      · simp at h

/-- Every timestamp `Parse` returns is a real reading with a year of four
digits and a zone offset of whole minutes, at most 25 hours. -/
theorem Parse_range (s : Str) (t : Time) (h : Parse s = some t) :
    (1 ≤ t.month ∧ t.month ≤ 12 ∧ 1 ≤ t.day ∧ t.day ≤ daysIn t.month t.year ∧
      t.hour < 24 ∧ t.minute < 60 ∧ t.second < 60) ∧
    0 ≤ t.year ∧ t.year ≤ 9999 ∧ t.offset % 60 = 0 ∧ -90000 ≤ t.offset ∧ t.offset ≤ 90000 := by
  unfold Parse at h
  split at h
  · simp at h
  rename_i year v1 hyear
  split at h
  · simp at h
  split at h
  · simp at h
  split at h
  · simp at h
  split at h
  · simp at h
  split at h
  · simp at h
  split at h
  · simp at h
  split at h
  · simp at h
  split at h
  · simp at h
  split at h
  · simp at h
  split at h
  · simp at h
  split at h
  · simp at h
  rename_i offset v12 hzone
  split_ifs at h with hc
  simp only [Option.some.injEq] at h
  subst h
  obtain ⟨_, hm1, hm2, hh, hmi, hs, hd1, hd2⟩ := hc
  have hy := parseYear_range _ _ _ hyear
  have hz := parseZone_range _ _ _ hzone
  exact ⟨⟨hm1, hm2, hd1, hd2, hh, hmi, hs⟩, hy.1, hy.2, hz.1, hz.2.1, hz.2.2⟩

/-! ### Loaded tasks and rewriting -/

theorem decodeRecord_writable (r : List Str) (t : Task) (h : decodeRecord r = some t)
    (hr : t.Rewritable) : t.Writable := by
  obtain ⟨_, _, f2, _, _, _, _, h2, _⟩ := (decodeRecord_eq_some r t).1 h
  obtain ⟨hv, hy0, hy1, h60, hlo, hhi⟩ := Parse_range f2 t.CreatedAt h2
  obtain ⟨hd, ho1, ho2⟩ := hr
  exact ⟨decodeRecord_isInt64 r t h, hd, hv, hy0, hy1, h60, by omega, by omega⟩

/-- The rewritable tasks among those `LoadTasks` returns are writable. -/
theorem LoadTasks_writable (file : Str) (tasks : List Task) (h : (LoadTasks file).2 = .ok tasks)
    (hr : ∀ t ∈ tasks, t.Rewritable) : ∀ t ∈ tasks, t.Writable := by
  obtain ⟨records, rfl⟩ := LoadTasks_ok file tasks h
  intro t ht
  obtain ⟨r, _, hdec⟩ := List.mem_filterMap.1 ht
  exact decodeRecord_writable r t hdec (hr t ht)

/-- The settled tasks among those `LoadTasks` returns are canonical. -/
theorem LoadTasks_canonical (file : Str) (tasks : List Task) (h : (LoadTasks file).2 = .ok tasks)
    (hs : ∀ t ∈ tasks, t.Settled) : ∀ t ∈ tasks, t.Canonical :=
  fun t ht => ⟨LoadTasks_writable file tasks h (fun u hu => (hs u hu).1) t ht, (hs t ht).2⟩

theorem isInt64_nextID (tasks : List Task) : IsInt64 (nextID tasks) := by
  have key : ∀ (ts : List Task) (init : Int), IsInt64 init →
      IsInt64 (ts.foldl
        (fun next task => if task.ID ≥ next then wrapInt (task.ID + 1) else next) init) := by
    intro ts
    induction ts with
    | nil => intro init h; exact h
    | cons t ts ih =>
      intro init h
      simp only [List.foldl_cons]
      apply ih
      split_ifs
      · exact isInt64_wrapInt _
      · exact h
  exact key tasks 1 (by decide)

theorem nextID_append (tasks : List Task) (t : Task) :
    nextID (tasks ++ [t]) = if t.ID ≥ nextID tasks then wrapInt (t.ID + 1) else nextID tasks := by
  unfold nextID
  rw [List.foldl_append]
  rfl

theorem markComplete_some (id : Int) (tasks : List Task) (h : ∃ t ∈ tasks, t.ID = id) :
    ∃ marked, markComplete id tasks = some marked := by
  induction tasks with
  | nil => obtain ⟨t, ht, _⟩ := h; simp at ht
  | cons t ts ih =>
    by_cases hid : t.ID = id
    · exact ⟨{ t with IsComplete := true } :: ts, by simp [markComplete, hid]⟩
    · obtain ⟨u, hu, hu2⟩ := h
      rcases List.mem_cons.1 hu with rfl | hu
      · exact absurd hu2 hid
      · obtain ⟨m, hm⟩ := ih ⟨u, hu, hu2⟩
        exact ⟨t :: m, by simp [markComplete, hid, hm]⟩

/-- What the loop of `CompleteTask` returns: the list with the first task of
the ID marked, and nothing else changed. -/
theorem markComplete_spec (id : Int) (tasks : List Task) : ∀ marked,
    markComplete id tasks = some marked →
    ∃ pre t post, tasks = pre ++ t :: post ∧ (∀ u ∈ pre, u.ID ≠ id) ∧ t.ID = id ∧
      marked = pre ++ { t with IsComplete := true } :: post := by
  induction tasks with
  | nil => intro marked h; simp [markComplete] at h
  | cons t ts ih =>
    intro marked h
    by_cases hid : t.ID = id
    · simp only [markComplete, if_pos hid, Option.some.injEq] at h
      exact ⟨[], t, ts, rfl, by simp, hid, h.symm⟩
    · simp only [markComplete, if_neg hid] at h
      cases hm : markComplete id ts with
      | none => simp [hm] at h
      | some m =>
        simp only [hm, Option.some.injEq] at h
        obtain ⟨pre, u, post, h1, h2, h3, h4⟩ := ih m hm
        refine ⟨t :: pre, u, post, by simp [h1], ?_, h3, by simp [← h, h4]⟩
        intro x hx
        rcases List.mem_cons.1 hx with rfl | hx
        · exact hid
        · exact h2 x hx

theorem markComplete_of_split (id : Int) (pre post : List Task) (t : Task)
    (hpre : ∀ u ∈ pre, u.ID ≠ id) (ht : t.ID = id) :
    markComplete id (pre ++ t :: post) = some (pre ++ { t with IsComplete := true } :: post) := by
  induction pre with
  | nil => simp [markComplete, ht]
  | cons p ps ih =>
    have hp := hpre p (List.mem_cons_self _ _)
    simp [markComplete, hp, ih (fun u hu => hpre u (List.mem_cons_of_mem _ hu))]

/-- `AddTask` on the file `SaveTasks` wrote for canonical tasks. -/
theorem AddTask_fileOf (tasks : List Task) (d : Str) (now : Time)
    (h : ∀ t ∈ tasks, t.Canonical) :
    AddTask d now (fileOf tasks) =
      (fileOf (tasks ++ [(NewTask (nextID tasks) d now).truncSecond]), .ok ()) := by
  have hl := LoadTasks_fileOf tasks (fun t ht => (h t ht).1)
  rw [map_truncSecond_of_canonical tasks h] at hl
  have h2 : (LoadTasks (fileOf tasks)).2 = .ok tasks := by rw [hl]
  rw [AddTask_of_ok (fileOf tasks) tasks d now h2,
    ← fileOf_map_truncSecond (tasks ++ [NewTask (nextID tasks) d now]), List.map_append,
    map_truncSecond_of_canonical tasks h]
  rfl

theorem AddTask_empty (d : Str) (now : Time) : AddTask d now [] = AddTask d now (fileOf []) := by
  rw [AddTask_of_ok [] [] d now (by decide), AddTask_of_ok (fileOf []) [] d now (by decide)]

theorem DeleteTask_of_ok (file : Str) (tasks : List Task) (id : Int)
    (h : (LoadTasks file).2 = .ok tasks) (hid : ∃ t ∈ tasks, t.ID = id) :
    DeleteTask id file = (fileOf (tasks.filter (fun task => ¬ task.ID = id)), .ok ()) := by
  have hany : tasks.any (fun task => decide (task.ID = id)) = true := by
    rw [List.any_eq_true]
    obtain ⟨t, ht, h1⟩ := hid
    exact ⟨t, ht, by simpa using h1⟩
  unfold DeleteTask
  rw [LoadTasks_fst_of_ok file tasks h]
  simp only [hany, if_true]
  rfl

theorem CompleteTask_of_ok (file : Str) (tasks marked : List Task) (id : Int)
    (h : (LoadTasks file).2 = .ok tasks) (hm : markComplete id tasks = some marked) :
    CompleteTask id file = (fileOf marked, .ok ()) := by
  unfold CompleteTask
  rw [LoadTasks_fst_of_ok file tasks h]
  simp only [hm]
  rfl

theorem find_append_of_split (id : Int) (pre post : List Task) (t : Task)
    (hpre : ∀ u ∈ pre, u.ID ≠ id) (ht : t.ID = id) :
    (pre ++ t :: post).find? (fun task => decide (task.ID = id)) = some t := by
  induction pre with
  | nil => simp [ht]
  | cons p ps ih =>
    have hp := hpre p (List.mem_cons_self _ _)
    simp only [List.cons_append, List.find?_cons, hp, decide_False]
    exact ih (fun u hu => hpre u (List.mem_cons_of_mem _ hu))

/-! ### Carriage returns before line feeds -/

theorem normalizeLines_append_crlfToLf (xs : Str) : ∀ ys, endsCR xs = false →
    normalizeLines (xs ++ ys) = crlfToLf xs ++ normalizeLines ys := by
  induction xs using crlfToLf.induct with
  | case1 => intro ys _; rfl
  | case2 c =>
    intro ys h
    have hc : c ≠ '\r' := by simpa [endsCR] using h
    cases ys with
    | nil => simp [normalizeLines, crlfToLf, hc]
    | cons y ys => simp [normalizeLines, crlfToLf, hc]
  | case3 c d rest hcd ih =>
    intro ys h
    have h2 : endsCR rest = false := by
      cases rest with
      | nil => rfl
      | cons e es => simpa [endsCR] using h
    have := ih ys h2
    simp only [List.cons_append, normalizeLines, crlfToLf, hcd, and_self, if_true,
      List.append_eq, this]
  | case4 c d rest hcd ih =>
    intro ys h
    have h2 : endsCR (d :: rest) = false := by simpa [endsCR] using h
    have := ih ys h2
    simp only [List.cons_append] at this
    simp only [List.cons_append, normalizeLines, crlfToLf, hcd, if_false, List.append_eq, this]

theorem crlfToLf_cons_of_ne (c : Char) (ys : Str) (hc : c ≠ '\r') :
    crlfToLf (c :: ys) = c :: crlfToLf ys := by
  cases ys with
  | nil => rfl
  | cons y ys => simp [crlfToLf, hc]

theorem crlfToLf_append_of_ne (xs : Str) : ∀ (c : Char) (ys : Str), c ≠ '\n' →
    crlfToLf (xs ++ c :: ys) = crlfToLf xs ++ crlfToLf (c :: ys) := by
  induction xs using crlfToLf.induct with
  | case1 => intro c ys _; rfl
  | case2 x =>
    intro c ys hc
    simp [crlfToLf, hc]
  | case3 x d rest hcd ih =>
    intro c ys hc
    have := ih c ys hc
    simp only [List.cons_append, crlfToLf, hcd, and_self, if_true, List.append_eq, this]
  | case4 x d rest hcd ih =>
    intro c ys hc
    have := ih c ys hc
    simp only [List.cons_append] at this
    simp only [List.cons_append, crlfToLf, hcd, if_false, List.append_eq, this]

theorem crlfToLf_of_no_cr (xs : Str) (h : ∀ c ∈ xs, c ≠ '\r') : crlfToLf xs = xs := by
  induction xs with
  | nil => rfl
  | cons c cs ih =>
    rw [crlfToLf_cons_of_ne c cs (h c (List.mem_cons_self _ _)),
      ih (fun d hd => h d (List.mem_cons_of_mem _ hd))]

theorem crlfToLf_escapeField (xs : Str) :
    crlfToLf (escapeField xs) = escapeField (crlfToLf xs) := by
  induction xs using crlfToLf.induct with
  | case1 => rfl
  | case2 c =>
    by_cases hq : c = '"'
    · subst hq; decide
    · simp [escapeField, hq, crlfToLf]
  | case3 c d rest hcd ih =>
    obtain ⟨rfl, rfl⟩ := hcd
    have h1 : escapeField ('\r' :: '\n' :: rest) = '\r' :: '\n' :: escapeField rest := by
      simp [escapeField]
    have h2 : escapeField ('\n' :: crlfToLf rest) = '\n' :: escapeField (crlfToLf rest) := by
      simp [escapeField]
    simp only [h1, crlfToLf, and_self, if_true, h2, ih]
  | case4 c d rest hcd ih =>
    by_cases hq : c = '"'
    · subst hq
      have h1 : escapeField ('"' :: d :: rest) = '"' :: '"' :: escapeField (d :: rest) := by
        simp [escapeField]
      have h3 : crlfToLf ('"' :: d :: rest) = '"' :: crlfToLf (d :: rest) :=
        crlfToLf_cons_of_ne _ _ (by decide)
      rw [h1, h3, crlfToLf_cons_of_ne _ _ (by decide), crlfToLf_cons_of_ne _ _ (by decide), ih]
      simp [escapeField]
    · have h1 : escapeField (c :: d :: rest) = c :: escapeField (d :: rest) := by
        simp [escapeField, hq]
      have h3 : crlfToLf (c :: d :: rest) = c :: crlfToLf (d :: rest) := by
        simp [crlfToLf, hcd]
      rw [h1, h3]
      have h4 : escapeField (c :: crlfToLf (d :: rest)) = c :: escapeField (crlfToLf (d :: rest)) := by
        simp [escapeField, hq]
      rw [h4, ← ih]
      -- the escaped text starts with d or with a quote
      by_cases hd : d = '"'
      · subst hd
        have h5 : escapeField ('"' :: rest) = '"' :: '"' :: escapeField rest := by
          simp [escapeField]
        rw [h5]
        simp [crlfToLf]
      · have h5 : escapeField (d :: rest) = d :: escapeField rest := by
          simp [escapeField, hd]
        rw [h5]
        simp [crlfToLf, hcd]

theorem any_isSpecial_crlfToLf (xs : Str) :
    (crlfToLf xs).any isSpecial = xs.any isSpecial := by
  induction xs using crlfToLf.induct with
  | case1 => rfl
  | case2 c => rfl
  | case3 c d rest hcd ih =>
    obtain ⟨rfl, rfl⟩ := hcd
    simp [crlfToLf, isSpecial]
  | case4 c d rest hcd ih =>
    have h3 : crlfToLf (c :: d :: rest) = c :: crlfToLf (d :: rest) := by
      simp [crlfToLf, hcd]
    rw [h3, List.any_cons, ih]
    rfl

theorem fieldNeedsQuotes_of_special (f : Str) (h : f.any isSpecial = true) :
    fieldNeedsQuotes f = true := by
  cases f with
  | nil => simp at h
  | cons c cs =>
    simp only [fieldNeedsQuotes, h, if_true]
    split_ifs <;> rfl

theorem no_cr_of_not_special (f : Str) (h : ¬ f.any isSpecial = true) : ∀ c ∈ f, c ≠ '\r' := by
  intro c hc hcr
  apply h
  rw [List.any_eq_true]
  exact ⟨c, hc, by simp [isSpecial, hcr]⟩

theorem fieldNeedsQuotes_crlfToLf (f : Str) :
    fieldNeedsQuotes (crlfToLf f) = fieldNeedsQuotes f := by
  by_cases h : f.any isSpecial = true
  · rw [fieldNeedsQuotes_of_special f h,
      fieldNeedsQuotes_of_special _ (by rw [any_isSpecial_crlfToLf]; exact h)]
  · rw [crlfToLf_of_no_cr f (no_cr_of_not_special f h)]

theorem crlfToLf_writeField (f : Str) : crlfToLf (writeField f) = writeField (crlfToLf f) := by
  unfold writeField
  rw [fieldNeedsQuotes_crlfToLf]
  by_cases hq : fieldNeedsQuotes f = true
  · rw [if_pos hq, if_pos hq, crlfToLf_cons_of_ne _ _ (by decide),
      crlfToLf_append_of_ne _ _ _ (by decide), crlfToLf_escapeField]
    rfl
  · rw [if_neg hq, if_neg hq]

theorem endsCR_of_no_cr (xs : Str) (h : ∀ c ∈ xs, c ≠ '\r') : endsCR xs = false := by
  induction xs with
  | nil => rfl
  | cons c cs ih =>
    cases cs with
    | nil => simpa [endsCR] using h c (List.mem_cons_self _ _)
    | cons d ds =>
      have := ih (fun x hx => h x (List.mem_cons_of_mem _ hx))
      simpa [endsCR] using this

theorem endsCR_append_singleton (xs : Str) (c : Char) :
    endsCR (xs ++ [c]) = decide (c = '\r') := by
  induction xs with
  | nil => rfl
  | cons x xs ih =>
    cases xs with
    | nil => rfl
    | cons y ys =>
      simp only [List.cons_append] at ih ⊢
      simp only [endsCR, ih]

theorem endsCR_writeField (f : Str) : endsCR (writeField f) = false := by
  unfold writeField
  by_cases hq : fieldNeedsQuotes f = true
  · rw [if_pos hq]
    have : '"' :: (escapeField f ++ ['"']) = ('"' :: escapeField f) ++ ['"'] := rfl
    rw [this, endsCR_append_singleton]
    decide
  · rw [if_neg hq]
    have hs : ¬ f.any isSpecial = true := fun h => hq (fieldNeedsQuotes_of_special f h)
    exact endsCR_of_no_cr f (no_cr_of_not_special f hs)

theorem normalizeLines_cons_of_ne (c : Char) (ys : Str) (hc : c ≠ '\r') :
    normalizeLines (c :: ys) = c :: normalizeLines ys := by
  cases ys with
  | nil => simp [normalizeLines, hc]
  | cons y ys => simp [normalizeLines, hc]

/-- What `readLine` makes of the written fields of a record and the line feed
after them. -/
theorem normalizeLines_writeFields (fs : List Str) : ∀ (f : Str) (rest : Str),
    normalizeLines (writeFields (f :: fs) ++ '\n' :: rest) =
      writeFields ((f :: fs).map crlfToLf) ++ '\n' :: normalizeLines rest := by
  induction fs with
  | nil =>
    intro f rest
    simp only [writeFields, List.map_cons, List.map_nil]
    rw [normalizeLines_append_crlfToLf _ _ (endsCR_writeField f), crlfToLf_writeField,
      normalizeLines_cons_of_ne _ _ (by decide)]
  | cons g gs ih =>
    intro f rest
    simp only [writeFields, List.map_cons, List.append_assoc, List.cons_append]
    rw [normalizeLines_append_crlfToLf _ _ (endsCR_writeField f), crlfToLf_writeField,
      normalizeLines_cons_of_ne _ _ (by decide)]
    have := ih g rest
    simp only [List.map_cons] at this
    rw [this]

/-- What `readLine` makes of written records that have a field each. -/
theorem normalizeLines_writeAll (rs : List (List Str)) (h : ∀ r ∈ rs, r ≠ []) :
    normalizeLines (writeAll rs) = writeAll (rs.map (List.map crlfToLf)) := by
  induction rs with
  | nil => rfl
  | cons r rs ih =>
    have hr := h r (List.mem_cons_self _ _)
    obtain ⟨f, fs, rfl⟩ : ∃ f fs, r = f :: fs := by
      cases r with
      | nil => exact absurd rfl hr
      | cons f fs => exact ⟨f, fs, rfl⟩
    simp only [writeAll, writeRecord, List.map_cons, List.append_assoc, List.singleton_append]
    rw [normalizeLines_writeFields, ih (fun x hx => h x (List.mem_cons_of_mem _ hx))]
    simp

/-- Round trip of the CSV layer in general: records of one length, at least
two fields each, are read back with every carriage return that directly
precedes a line feed removed. -/
theorem ReadAll_writeAll_crlfToLf (n : Nat) (hn : 2 ≤ n) (rs : List (List Str))
    (hlen : ∀ r ∈ rs, r.length = n) :
    ReadAll (writeAll rs) = .ok (rs.map (List.map crlfToLf)) := by
  unfold ReadAll
  rw [normalizeLines_writeAll rs (fun r hr h0 => by
    have := hlen r hr
    rw [h0] at this
    simp at this
    omega)]
  rw [readRecords_writeAll n hn _ none [] (by
    intro r hr
    obtain ⟨r0, hr0, rfl⟩ := List.mem_map.1 hr
    simp [hlen r0 hr0]) (Or.inl rfl)]
  simp

theorem header_map_crlfToLf : header.map crlfToLf = header := by decide

/-- The reader on the file `SaveTasks` wrote, for any tasks. -/
theorem ReadAll_fileOf_crlfToLf (tasks : List Task) :
    ReadAll (fileOf tasks) =
      .ok (header :: tasks.map (fun t => (encodeTask t).map crlfToLf)) := by
  unfold fileOf
  rw [ReadAll_writeAll_crlfToLf 4 (by decide)]
  · simp only [List.map_cons, header_map_crlfToLf, List.map_map]
    rfl
  · intro r hr
    rcases List.mem_cons.1 hr with h1 | h1
    · rw [h1]; rfl
    · obtain ⟨t, _, rfl⟩ := List.mem_map.1 h1
      rfl

/-- Loading the file `SaveTasks` wrote, for any tasks: each task is reloaded
or skipped. -/
theorem LoadTasks_fileOf_reload (tasks : List Task) :
    LoadTasks (fileOf tasks) = (fileOf tasks, .ok (tasks.filterMap reload)) := by
  rw [LoadTasks_of_ReadAll _ _ _ (ReadAll_fileOf_crlfToLf tasks), List.filterMap_map]
  rfl

/-- A reloaded task has the ID and the flag of the task written, its
description with the carriage returns before line feeds removed, and the
timestamp `Parse` reads from what `Format` wrote. -/
theorem reload_eq_some (t t1 : Task) (hid : IsInt64 t.ID) (h : reload t = some t1) :
    t1.ID = t.ID ∧ t1.Description = crlfToLf t.Description ∧
      Parse t.CreatedAt.Format = some t1.CreatedAt ∧ t1.IsComplete = t.IsComplete := by
  obtain ⟨f0, f1, f2, f3, hr, h0, h1, h2, h3⟩ := (decodeRecord_eq_some _ _).1 h
  simp only [encodeTask, List.map_cons, List.map_nil, List.cons.injEq, and_true] at hr
  obtain ⟨r0, r1, r2, r3⟩ := hr
  rw [crlfToLf_of_no_cr _ (Itoa_no_cr _)] at r0
  rw [crlfToLf_of_no_cr _ (Format_no_cr _)] at r2
  have r3' : f3 = FormatBool t.IsComplete := by
    rw [← r3]; cases t.IsComplete <;> decide
  rw [← r0, Atoi_Itoa t.ID hid] at h0
  rw [← r2] at h2
  rw [r3', ParseBool_FormatBool] at h3
  simp only [Option.some.injEq] at h0 h3
  exact ⟨h0.symm, by rw [← h1, ← r1], h2, h3.symm⟩

theorem reload_ID (t t1 : Task) (hid : IsInt64 t.ID) (h : reload t = some t1) : t1.ID = t.ID :=
  (reload_eq_some t t1 hid h).1

/-- The IDs after a reload are IDs written, in the order written. -/
theorem reload_IDs_sublist (tasks : List Task) (h : ∀ t ∈ tasks, IsInt64 t.ID) :
    ((tasks.filterMap reload).map Task.ID).Sublist (tasks.map Task.ID) := by
  induction tasks with
  | nil => simp
  | cons t ts ih =>
    have ih2 := ih (fun x hx => h x (List.mem_cons_of_mem _ hx))
    cases hr : reload t with
    | none =>
      simp only [List.filterMap_cons, hr, List.map_cons]
      exact ih2.cons _
    | some t1 =>
      simp only [List.filterMap_cons, hr, List.map_cons,
        reload_ID t t1 (h t (List.mem_cons_self _ _)) hr]
      exact ih2.cons₂ _

theorem reload_mem_ID (tasks : List Task) (h : ∀ t ∈ tasks, IsInt64 t.ID) (t1 : Task)
    (h1 : t1 ∈ tasks.filterMap reload) : ∃ t ∈ tasks, t.ID = t1.ID := by
  obtain ⟨t, ht, hr⟩ := List.mem_filterMap.1 h1
  exact ⟨t, ht, (reload_ID t t1 (h t ht) hr).symm⟩

/-! ### Calls that succeed and calls that do not find the ID -/

theorem CompleteTask_not_found (file : Str) (tasks : List Task) (id : Int)
    (h : (LoadTasks file).2 = .ok tasks) (hno : ∀ t ∈ tasks, t.ID ≠ id) :
    CompleteTask id file = ((LoadTasks file).1, .error (.notFound id)) := by
  unfold CompleteTask
  rw [LoadTasks_fst_of_ok file tasks h]
  simp only [markComplete_none id tasks hno]

theorem DeleteTask_not_found (file : Str) (tasks : List Task) (id : Int)
    (h : (LoadTasks file).2 = .ok tasks) (hno : ∀ t ∈ tasks, t.ID ≠ id) :
    DeleteTask id file = ((LoadTasks file).1, .error (.notFound id)) := by
  unfold DeleteTask
  rw [LoadTasks_fst_of_ok file tasks h]
  simp [any_ID_false id tasks hno]

theorem CompleteTask_ok (file : Str) (tasks : List Task) (id : Int)
    (h : (LoadTasks file).2 = .ok tasks) (hok : (CompleteTask id file).2 = .ok ()) :
    ∃ marked, markComplete id tasks = some marked ∧
      CompleteTask id file = (fileOf marked, .ok ()) := by
  cases hm : markComplete id tasks with
  | none =>
    unfold CompleteTask at hok
    rw [LoadTasks_fst_of_ok file tasks h] at hok
    simp [hm] at hok
  | some marked => exact ⟨marked, rfl, CompleteTask_of_ok file tasks marked id h hm⟩

theorem DeleteTask_ok (file : Str) (tasks : List Task) (id : Int)
    (h : (LoadTasks file).2 = .ok tasks) (hok : (DeleteTask id file).2 = .ok ()) :
    DeleteTask id file = (fileOf (tasks.filter (fun task => ¬ task.ID = id)), .ok ()) := by
  by_cases hid : ∃ t ∈ tasks, t.ID = id
  · exact DeleteTask_of_ok file tasks id h hid
  · have hno : ∀ t ∈ tasks, t.ID ≠ id := fun t ht he => hid ⟨t, ht, he⟩
    rw [DeleteTask_not_found file tasks id h hno] at hok
    simp at hok

theorem markComplete_map_ID (id : Int) (tasks marked : List Task)
    (h : markComplete id tasks = some marked) : marked.map Task.ID = tasks.map Task.ID := by
  obtain ⟨pre, t, post, h1, _, _, h2⟩ := markComplete_spec id tasks marked h
  rw [h1, h2]
  simp

theorem markComplete_mem (id : Int) (tasks marked : List Task)
    (h : markComplete id tasks = some marked) (u : Task) (hu : u ∈ marked) :
    ∃ v ∈ tasks, v.ID = u.ID ∧ v.Description = u.Description ∧ v.CreatedAt = u.CreatedAt := by
  obtain ⟨pre, t, post, h1, _, _, h2⟩ := markComplete_spec id tasks marked h
  rw [h2] at hu
  rw [h1]
  rcases List.mem_append.1 hu with hu | hu
  · exact ⟨u, List.mem_append_left _ hu, rfl, rfl, rfl⟩
  · rcases List.mem_cons.1 hu with hu | hu
    · rw [hu]
      exact ⟨t, List.mem_append_right _ (List.mem_cons_self _ _), rfl, rfl, rfl⟩
    · exact ⟨u, List.mem_append_right _ (List.mem_cons_of_mem _ hu), rfl, rfl, rfl⟩

theorem markComplete_canonical (id : Int) (tasks marked : List Task)
    (h : markComplete id tasks = some marked) (hc : ∀ t ∈ tasks, t.Canonical) :
    ∀ u ∈ marked, u.Canonical := by
  intro u hu
  obtain ⟨v, hv, h1, h2, h3⟩ := markComplete_mem id tasks marked h u hu
  have := hc v hv
  unfold Task.Canonical Task.Writable at this ⊢
  rw [h1, h2, h3] at this
  exact this

/-- The stored tasks after `SaveTasks` wrote canonical tasks. -/
theorem LoadTasks_fileOf_canonical (tasks : List Task) (h : ∀ t ∈ tasks, t.Canonical) :
    LoadTasks (fileOf tasks) = (fileOf tasks, .ok tasks) := by
  rw [LoadTasks_fileOf tasks (fun t ht => (h t ht).1), map_truncSecond_of_canonical tasks h]

/-- The stored tasks after `SaveTasks` wrote tasks with pairwise distinct
IDs have pairwise distinct IDs. -/
theorem nodup_ID_fileOf (tasks : List Task) (hint : ∀ t ∈ tasks, IsInt64 t.ID)
    (hnodup : (tasks.map Task.ID).Nodup) :
    ∃ stored, (LoadTasks (fileOf tasks)).2 = .ok stored ∧ (stored.map Task.ID).Nodup :=
  ⟨tasks.filterMap reload, by rw [LoadTasks_fileOf_reload],
    (reload_IDs_sublist tasks hint).nodup hnodup⟩

/-- Pairwise distinct IDs are kept by every successful `CompleteTask` and
`DeleteTask`, and by every `AddTask` when no loaded ID is the greatest
`int`. -/
theorem nodup_ID_preserved (file : Str) (tasks : List Task)
    (hload : (LoadTasks file).2 = .ok tasks) (hnodup : (tasks.map Task.ID).Nodup) :
    (∀ id, (CompleteTask id file).2 = .ok () →
      ∃ stored, (LoadTasks (CompleteTask id file).1).2 = .ok stored ∧
        (stored.map Task.ID).Nodup) ∧
    (∀ id, (DeleteTask id file).2 = .ok () →
      ∃ stored, (LoadTasks (DeleteTask id file).1).2 = .ok stored ∧
        (stored.map Task.ID).Nodup) ∧
    (∀ d now, (∀ t ∈ tasks, t.ID < maxInt) →
      ∃ stored, (LoadTasks (AddTask d now file).1).2 = .ok stored ∧
        (stored.map Task.ID).Nodup) := by
  have hint := LoadTasks_isInt64 file tasks hload
  refine ⟨?_, ?_, ?_⟩
  · intro id hok
    obtain ⟨marked, hm, hc⟩ := CompleteTask_ok file tasks id hload hok
    rw [hc]
    apply nodup_ID_fileOf
    · intro u hu
      obtain ⟨v, hv, h1, _⟩ := markComplete_mem id tasks marked hm u hu
      rw [← h1]; exact hint v hv
    · rw [markComplete_map_ID id tasks marked hm]; exact hnodup
  · intro id hok
    rw [DeleteTask_ok file tasks id hload hok]
    apply nodup_ID_fileOf
    · intro u hu
      exact hint u (List.mem_filter.1 hu).1
    · exact (List.Sublist.map Task.ID (List.filter_sublist tasks)).nodup hnodup
  · intro d now hmax
    rw [AddTask_of_ok file tasks d now hload]
    apply nodup_ID_fileOf
    · intro u hu
      rcases List.mem_append.1 hu with hu | hu
      · exact hint u hu
      · rw [List.mem_singleton.1 hu]; exact isInt64_nextID tasks
    · obtain ⟨_, h2, _⟩ := nextID_spec tasks (fun t ht => ⟨hint t ht, hmax t ht⟩)
      rw [List.map_append, List.nodup_append]
      refine ⟨hnodup, by simp, ?_⟩
      intro a ha hb
      obtain ⟨t, ht, rfl⟩ := List.mem_map.1 ha
      simp only [List.map_cons, List.map_nil, List.mem_singleton, NewTask] at hb
      have := h2 t ht
      omega

theorem encodeTask_map_crlfToLf (t : Task) :
    (encodeTask t).map crlfToLf =
      [Itoa t.ID, crlfToLf t.Description, t.CreatedAt.Format, FormatBool t.IsComplete] := by
  simp only [encodeTask, List.map_cons, List.map_nil]
  rw [crlfToLf_of_no_cr _ (Itoa_no_cr _), crlfToLf_of_no_cr _ (Format_no_cr _)]
  have h3 : crlfToLf (FormatBool t.IsComplete) = FormatBool t.IsComplete := by
    cases t.IsComplete <;> decide
  rw [h3]

theorem ListTasks_fileOf_canonical (tasks : List Task) (showAll : Bool)
    (h : ∀ t ∈ tasks, t.Canonical) :
    ListTasks showAll (fileOf tasks) =
      (fileOf tasks, .ok (if showAll then tasks else tasks.filter (fun task => !task.IsComplete))) := by
  unfold ListTasks
  rw [LoadTasks_fileOf_canonical tasks h]
  cases showAll <;> rfl

/-- The files of the scenario. -/
theorem scenario_files (now1 now2 : Time) (h1 : now1.Printable) (h2 : now2.Printable) :
    (∀ t ∈ [(⟨1, "buy milk".toList, now1.truncSecond, false⟩ : Task)], t.Canonical) ∧
    (∀ t ∈ [(⟨1, "buy milk".toList, now1.truncSecond, false⟩ : Task),
            ⟨2, "walk dog".toList, now2.truncSecond, false⟩], t.Canonical) ∧
    (∀ t ∈ [(⟨1, "buy milk".toList, now1.truncSecond, true⟩ : Task),
            ⟨2, "walk dog".toList, now2.truncSecond, false⟩], t.Canonical) ∧
    (∀ t ∈ [(⟨1, "buy milk".toList, now1.truncSecond, true⟩ : Task)], t.Canonical) := by
  have c1 : ∀ b, (⟨1, "buy milk".toList, now1.truncSecond, b⟩ : Task).Canonical :=
    fun b => ⟨⟨(by decide : IsInt64 1), (by decide : crlfFree "buy milk".toList = true), h1⟩, rfl⟩
  have c2 : (⟨2, "walk dog".toList, now2.truncSecond, false⟩ : Task).Canonical :=
    ⟨⟨(by decide : IsInt64 2), (by decide : crlfFree "walk dog".toList = true), h2⟩, rfl⟩
  refine ⟨?_, ?_, ?_, ?_⟩ <;> intro t ht <;> simp only [List.mem_cons, List.mem_singleton,
    List.not_mem_nil, or_false] at ht
  · rw [ht]; exact c1 false
  · rcases ht with ht | ht <;> rw [ht]
    · exact c1 false
    · exact c2
  · rcases ht with ht | ht <;> rw [ht]
    · exact c1 true
    · exact c2
  · rw [ht]; exact c1 true

theorem scenario1_eq (now1 : Time) :
    AddTask "buy milk".toList now1 [] =
      (fileOf [⟨1, "buy milk".toList, now1.truncSecond, false⟩], .ok ()) := by
  rw [AddTask_empty, AddTask_fileOf [] _ _ (by simp)]
  rfl

theorem scenario2_eq (now1 now2 : Time) (h1 : now1.Printable) (h2 : now2.Printable) :
    AddTask "walk dog".toList now2 (scenario1 now1) =
      (fileOf [⟨1, "buy milk".toList, now1.truncSecond, false⟩,
               ⟨2, "walk dog".toList, now2.truncSecond, false⟩], .ok ()) := by
  unfold scenario1
  rw [scenario1_eq]
  simp only []
  rw [AddTask_fileOf _ _ _ (scenario_files now1 now2 h1 h2).1]
  have : nextID [(⟨1, "buy milk".toList, now1.truncSecond, false⟩ : Task)] = 2 := by
    simp [nextID, wrapInt]
  rw [this]
  rfl

theorem LoadTasks_fst_of_nonempty (file : Str) (h0 : ¬ file.length = 0) :
    (LoadTasks file).1 = file := by
  unfold LoadTasks
  rw [if_neg h0]
  split
  · rfl
  · split <;> rfl

theorem decodeRecord_printable (r : List Str) (t : Task) (h : decodeRecord r = some t)
    (h1 : t.CreatedAt.offset ≠ 90000) (h2 : t.CreatedAt.offset ≠ -90000) :
    t.CreatedAt.Printable := by
  obtain ⟨_, _, f2, _, _, _, _, hp, _⟩ := (decodeRecord_eq_some r t).1 h
  obtain ⟨hv, hy0, hy1, h60, hlo, hhi⟩ := Parse_range f2 t.CreatedAt hp
  exact ⟨hv, hy0, hy1, h60, by omega, by omega⟩

/-- The loaded timestamps whose zone offset is not 25 hours are ones `Format`
writes readably. -/
theorem LoadTasks_printable (file : Str) (tasks : List Task)
    (h : (LoadTasks file).2 = .ok tasks) (t : Task) (ht : t ∈ tasks)
    (h1 : t.CreatedAt.offset ≠ 90000) (h2 : t.CreatedAt.offset ≠ -90000) :
    t.CreatedAt.Printable := by
  obtain ⟨records, rfl⟩ := LoadTasks_ok file tasks h
  obtain ⟨r, _, hdec⟩ := List.mem_filterMap.1 ht
  exact decodeRecord_printable r t hdec h1 h2

/-! ### Reloading what `SaveTasks` wrote -/

theorem crlfToLf_of_crlfFree (xs : Str) (h : crlfFree xs = true) : crlfToLf xs = xs := by
  induction xs using crlfToLf.induct with
  | case1 => rfl
  | case2 c => rfl
  | case3 c d rest hcd ih =>
    simp [crlfFree, hcd.1, hcd.2] at h
  | case4 c d rest hcd ih =>
    simp only [crlfFree, Bool.and_eq_true] at h
    simp only [crlfToLf, if_neg hcd, ih h.2]

theorem reload_of_printable (t : Task) (hid : IsInt64 t.ID) (hp : t.CreatedAt.Printable) :
    reload t = some t.reloaded := by
  unfold reload
  have henc : (encodeTask t).map crlfToLf =
      encodeTask { t with Description := crlfToLf t.Description } := by
    rw [encodeTask_map_crlfToLf]; rfl
  rw [henc, decodeRecord_encodeTask { t with Description := crlfToLf t.Description } hid hp]
  rfl

theorem filterMap_reload (tasks : List Task)
    (h : ∀ t ∈ tasks, IsInt64 t.ID ∧ t.CreatedAt.Printable) :
    tasks.filterMap reload = tasks.map Task.reloaded := by
  induction tasks with
  | nil => rfl
  | cons t ts ih =>
    rw [List.filterMap_cons, reload_of_printable t (h t (List.mem_cons_self _ _)).1
      (h t (List.mem_cons_self _ _)).2, List.map_cons,
      ih (fun u hu => h u (List.mem_cons_of_mem _ hu))]

theorem nextID_map_reloaded (tasks : List Task) :
    nextID (tasks.map Task.reloaded) = nextID tasks := by
  unfold nextID
  rw [List.foldl_map]
  rfl

/-- Loading the file `SaveTasks` wrote for tasks with Go `int` IDs and
timestamps written readably. -/
theorem LoadTasks_fileOf_reloaded (tasks : List Task)
    (h : ∀ t ∈ tasks, IsInt64 t.ID ∧ t.CreatedAt.Printable) :
    LoadTasks (fileOf tasks) = (fileOf tasks, .ok (tasks.map Task.reloaded)) := by
  rw [LoadTasks_fileOf_reload, filterMap_reload tasks h]

/-- The loaded tasks without a zone offset of 25 hours have Go `int` IDs and
timestamps written readably. -/
theorem LoadTasks_readable (file : Str) (tasks : List Task)
    (hload : (LoadTasks file).2 = .ok tasks)
    (hoff : ∀ t ∈ tasks, t.CreatedAt.offset ≠ 90000 ∧ t.CreatedAt.offset ≠ -90000) :
    ∀ t ∈ tasks, IsInt64 t.ID ∧ t.CreatedAt.Printable := fun t ht =>
  ⟨LoadTasks_isInt64 file tasks hload t ht,
    LoadTasks_printable file tasks hload t ht (hoff t ht).1 (hoff t ht).2⟩

theorem reloaded_iterate (n : Nat) (t : Task) :
    Task.reloaded^[n] t =
      ⟨t.ID, crlfToLf^[n] t.Description, Time.truncSecond^[n] t.CreatedAt, t.IsComplete⟩ := by
  induction n with
  | zero => rfl
  | succ n ih =>
    rw [Function.iterate_succ_apply', Function.iterate_succ_apply',
      Function.iterate_succ_apply', ih]
    rfl

theorem truncSecond_iterate (n : Nat) (t : Time) :
    Time.truncSecond^[n + 1] t = t.truncSecond := by
  induction n with
  | zero => rfl
  | succ n ih =>
    rw [Function.iterate_succ_apply', ih]
    rfl

theorem crlfToLf_iterate (n : Nat) (d : Str) (h : crlfFree d = true) : crlfToLf^[n] d = d :=
  Function.iterate_fixed (crlfToLf_of_crlfFree d h) n

/-- The `AddTask` on the file `SaveTasks` wrote for tasks with Go `int` IDs and
timestamps written readably. -/
theorem AddTask_fileOf_reloaded (tasks : List Task) (d : Str) (now : Time)
    (h : ∀ t ∈ tasks, IsInt64 t.ID ∧ t.CreatedAt.Printable) :
    AddTask d now (fileOf tasks) =
      (fileOf (tasks.map Task.reloaded ++ [NewTask (nextID tasks) d now]), .ok ()) := by
  have hl : (LoadTasks (fileOf tasks)).2 = .ok (tasks.map Task.reloaded) := by
    rw [LoadTasks_fileOf_reloaded tasks h]
  rw [AddTask_of_ok (fileOf tasks) _ d now hl, nextID_map_reloaded]

/-- Successive additions to the file `SaveTasks` wrote, for any
descriptions. -/
theorem addTasks_fileOf_reloaded (inputs : List (Str × Time)) : ∀ (tasks : List Task) (k : Int),
    (∀ t ∈ tasks, IsInt64 t.ID ∧ t.CreatedAt.Printable) → (inputs ≠ [] → nextID tasks = k) →
    1 ≤ k → k + inputs.length ≤ maxInt + 1 → (∀ p ∈ inputs, p.2.Printable) →
    addTasks inputs (fileOf tasks) =
      (fileOf (tasks.map Task.reloaded^[inputs.length] ++ tasksAdded k inputs), .ok ()) ∧
    ∀ t ∈ tasks.map Task.reloaded^[inputs.length] ++ tasksAdded k inputs,
      IsInt64 t.ID ∧ t.CreatedAt.Printable := by
  induction inputs with
  | nil =>
    intro tasks k hc _ _ _ _
    simpa [addTasks, tasksAdded] using hc
  | cons p rest ih =>
    intro tasks k hc hk0 h1 hbound hin
    obtain ⟨d, now⟩ := p
    have hk := hk0 (List.cons_ne_nil _ _)
    have hnow := hin (d, now) (List.mem_cons_self _ _)
    simp only [List.length_cons, Nat.cast_add, Nat.cast_one] at hbound
    have hkint : IsInt64 k := by rw [← hk]; exact isInt64_nextID tasks
    have hstep := AddTask_fileOf_reloaded tasks d now hc
    rw [hk] at hstep
    have hnext : rest ≠ [] → nextID (tasks.map Task.reloaded ++ [NewTask k d now]) = k + 1 := by
      intro hne
      have hlen : 1 ≤ (rest.length : Int) := by
        have := List.length_pos.2 hne
        omega
      rw [nextID_append, nextID_map_reloaded, hk]
      have hid : (NewTask k d now).ID = k := rfl
      rw [hid, if_pos (le_refl k)]
      apply wrapInt_of_isInt64
      obtain ⟨hk1, hk2⟩ := hkint
      have hb := hbound
      unfold minInt at hk1
      unfold maxInt at hk2 hb
      unfold IsInt64 minInt maxInt
      omega
    have hc2 : ∀ t ∈ tasks.map Task.reloaded ++ [NewTask k d now],
        IsInt64 t.ID ∧ t.CreatedAt.Printable := by
      intro t ht
      rcases List.mem_append.1 ht with ht | ht
      · obtain ⟨u, hu, rfl⟩ := List.mem_map.1 ht
        exact hc u hu
      · rw [List.mem_singleton.1 ht]; exact ⟨hkint, hnow⟩
    obtain ⟨ih1, ih2⟩ := ih (tasks.map Task.reloaded ++ [NewTask k d now]) (k + 1)
      hc2 hnext (by omega) (by omega) (fun q hq => hin q (List.mem_cons_of_mem _ hq))
    have hlist : tasks.map Task.reloaded^[((d, now) :: rest).length] ++
          tasksAdded k ((d, now) :: rest) =
        (tasks.map Task.reloaded ++ [NewTask k d now]).map Task.reloaded^[rest.length] ++
          tasksAdded (k + 1) rest := by
      simp [tasksAdded, Function.iterate_succ]
    rw [hlist]
    refine ⟨?_, ih2⟩
    simp only [addTasks, hstep]
    exact ih1

theorem tasksAdded_length (inputs : List (Str × Time)) : ∀ k, (tasksAdded k inputs).length =
    inputs.length := by
  induction inputs with
  | nil => intro k; rfl
  | cons p rest ih => intro k; obtain ⟨d, now⟩ := p; simp [tasksAdded, ih]

theorem tasksAdded_getElem (inputs : List (Str × Time)) : ∀ (k : Int) (i : Nat) (d : Str)
    (now : Time), inputs[i]? = some (d, now) →
    (tasksAdded k inputs)[i]? =
      some (Task.reloaded^[inputs.length - (i + 1)] (NewTask (k + i) d now)) := by
  induction inputs with
  | nil => intro k i d now h; simp at h
  | cons p rest ih =>
    intro k i d now h
    obtain ⟨d0, now0⟩ := p
    cases i with
    | zero =>
      simp only [List.getElem?_cons_zero, Option.some.injEq, Prod.mk.injEq] at h
      simp [tasksAdded, h.1, h.2]
    | succ j =>
      simp only [List.getElem?_cons_succ] at h
      have := ih (k + 1) j d now h
      simp only [tasksAdded, List.getElem?_cons_succ, this, List.length_cons]
      have e1 : rest.length + 1 - (j + 1 + 1) = rest.length - (j + 1) := by omega
      have e2 : k + 1 + (j : Int) = k + ((j + 1 : Nat) : Int) := by push_cast; omega
      rw [e1, e2]

/-- The rows the reader returns from the file `SaveTasks` wrote are the
records of the tasks, and the loop of `LoadTasks` accepts each of them when
the IDs are Go `int`s and the timestamps are written readably. -/
theorem rows_after_save (result : List Task)
    (hp : ∀ t ∈ result, IsInt64 t.ID ∧ t.CreatedAt.Printable) :
    ReadAll (fileOf result) =
      .ok (header :: result.map (fun t => (encodeTask t).map crlfToLf)) ∧
    (∀ t ∈ result, ∃ u, decodeRecord ((encodeTask t).map crlfToLf) = some u) ∧
    (∀ r, decodeRecord r = none → r ∉ result.map (fun t => (encodeTask t).map crlfToLf)) := by
  have h2 : ∀ t ∈ result, ∃ u, decodeRecord ((encodeTask t).map crlfToLf) = some u :=
    fun t ht => ⟨t.reloaded, reload_of_printable t (hp t ht).1 (hp t ht).2⟩
  refine ⟨ReadAll_fileOf_crlfToLf result, h2, ?_⟩
  intro r hnone hr
  obtain ⟨t, ht, rfl⟩ := List.mem_map.1 hr
  obtain ⟨u, hu⟩ := h2 t ht
  rw [hu] at hnone
  simp at hnone

/-! ## The claims -/

/-! ### C1: round trip of the record codec -/

/-- C1, as stated, fails: the record `SaveTasks` builds for a task created in
the year 10000 is skipped by the loop of `LoadTasks`, the record of a task
whose zone offset has seconds decodes to a different instant (offset zero),
and the record of a task whose zone offset is a hundred hours is skipped. -/
theorem C1_counterexample :
    (IsInt64 taskYear10000.ID ∧ taskYear10000.CreatedAt.Valid ∧
      encodeTask taskYear10000 =
        ["1".toList, "a".toList, "10000-01-01T00:00:00Z".toList, "false".toList] ∧
      decodeRecord (encodeTask taskYear10000) = none) ∧
    (IsInt64 taskOffsetSeconds.ID ∧ taskOffsetSeconds.CreatedAt.Valid ∧
      decodeRecord (encodeTask taskOffsetSeconds) =
        some ⟨1, "a".toList, ⟨2024, 1, 1, 0, 0, 0, 0, 0⟩, false⟩) ∧
    (IsInt64 taskOffsetLarge.ID ∧ taskOffsetLarge.CreatedAt.Valid ∧
      decodeRecord (encodeTask taskOffsetLarge) = none) := by
  decide

/-- C1, amended: for every task whose ID is a Go `int` and whose `CreatedAt`
is a real reading with a year from 0 to 9999 and a zone offset of whole
minutes below 25 hours, the record `SaveTasks` builds has four fields, and the
loop body of `LoadTasks` accepts it and decodes it to the task with the same
ID, Description and IsComplete and with `CreatedAt` the same reading, the
fraction of the second dropped. -/
theorem C1_codec_round_trip (t : Task) (hid : IsInt64 t.ID) (ht : t.CreatedAt.Printable) :
    (encodeTask t).length = 4 ∧
    decodeRecord (encodeTask t) =
      some { ID := t.ID, Description := t.Description,
             CreatedAt := t.CreatedAt.truncSecond, IsComplete := t.IsComplete } :=
  ⟨rfl, decodeRecord_encodeTask t hid ht⟩

/-- C1 at the task of 6 May 2024. -/
theorem C1_codec_round_trip_witness :
    (encodeTask taskMay).length = 4 ∧
    decodeRecord (encodeTask taskMay) =
      some { ID := -42, Description := "buy, \"milk\"\r\n".toList,
             CreatedAt := ⟨2024, 5, 6, 7, 8, 9, 0, 7200⟩, IsComplete := true } :=
  C1_codec_round_trip taskMay (by decide) (by decide)

/-! ### C2: IDs of successive additions -/

/-- C2, as stated, fails.  After one `AddTask` with a description that has a
carriage return before a line feed, the listed task has another description,
the carriage return gone.  And of two successful `AddTask` calls of which the
first reads a clock in the year 10000, only the second task is listed, with
ID 1. -/
theorem C2_counterexample :
    ((addTasks [("a\r\nb".toList, clockMay)] []).2 = .ok () ∧
      (ListTasks true (addTasks [("a\r\nb".toList, clockMay)] []).1).2 =
        .ok [⟨1, "a\nb".toList, ⟨2024, 5, 6, 7, 8, 9, 0, 7200⟩, false⟩] ∧
      "a\nb".toList ≠ "a\r\nb".toList) ∧
    ((addTasks [("a".toList, clockYear10000), ("b".toList, clockMay)] []).2 = .ok () ∧
      (ListTasks true (addTasks [("a".toList, clockYear10000), ("b".toList, clockMay)] []).1).2 =
        .ok [⟨1, "b".toList, ⟨2024, 5, 6, 7, 8, 9, 0, 7200⟩, false⟩]) := by
  decide

/-- C2, amended: for every N up to the greatest `int` and every sequence of N
descriptions, added to an empty file at readings of the clock with a year
from 0 to 9999 and a zone offset of whole minutes below 25 hours, all N
`AddTask` calls succeed and `ListTasks(true)` then returns exactly N tasks
whose IDs are 1, 2, ..., N in insertion order: the i-th task has ID i, the
i-th reading of the clock in whole seconds, is incomplete, and has the i-th
description whenever that description has no carriage return directly before
a line feed. -/
theorem C2_id_monotonicity (inputs : List (Str × Time))
    (hin : ∀ p ∈ inputs, p.2.Printable) (hN : (inputs.length : Int) ≤ maxInt) :
    (addTasks inputs []).2 = .ok () ∧
    ∃ listed, (ListTasks true (addTasks inputs []).1).2 = .ok listed ∧
      listed.length = inputs.length ∧
      ∀ (i : Nat) (d : Str) (now : Time), inputs[i]? = some (d, now) →
        ∃ t, listed[i]? = some t ∧ t.ID = (i : Int) + 1 ∧
          (crlfFree d = true → t.Description = d) ∧
          t.CreatedAt = now.truncSecond ∧ t.IsComplete = false := by
  have hrun : addTasks inputs [] = addTasks inputs (fileOf []) ∨ inputs = [] := by
    cases inputs with
    | nil => exact Or.inr rfl
    | cons p rest =>
      obtain ⟨d, now⟩ := p
      left
      simp only [addTasks, AddTask_empty]
  have hfile := addTasks_fileOf_reloaded inputs [] 1 (by simp) (fun _ => by decide)
    (by decide) (by omega) hin
  simp only [List.map_nil, List.nil_append] at hfile
  obtain ⟨hf1, hf2⟩ := hfile
  have hlist : (ListTasks true (fileOf (tasksAdded 1 inputs))).2 =
      .ok ((tasksAdded 1 inputs).map Task.reloaded) := by
    unfold ListTasks
    rw [LoadTasks_fileOf_reloaded _ hf2]
    rfl
  refine ⟨?_, (tasksAdded 1 inputs).map Task.reloaded, ?_, ?_, ?_⟩
  · rcases hrun with h | h
    · rw [h, hf1]
    · subst h; rfl
  · rcases hrun with h | h
    · rw [h, hf1]; exact hlist
    · subst h; decide
  · rw [List.length_map, tasksAdded_length]
  · intro i d now h
    have hi : i < inputs.length := (List.getElem?_eq_some_iff.1 h).1
    obtain ⟨m, hm⟩ : ∃ m, inputs.length - (i + 1) = m := ⟨_, rfl⟩
    refine ⟨Task.reloaded^[m + 1] (NewTask (1 + i) d now), ?_, ?_⟩
    · rw [List.getElem?_map, tasksAdded_getElem inputs 1 i d now h, hm,
        Function.iterate_succ_apply']
      rfl
    · rw [reloaded_iterate, truncSecond_iterate]
      exact ⟨add_comm _ _, fun hd => crlfToLf_iterate _ d hd, rfl, rfl⟩

/-- C2 for three descriptions of which the first and the last have a
carriage return before a line feed. -/
theorem C2_id_monotonicity_witness :
    (addTasks [("a\r\nb".toList, clockMay), ("c".toList, clockMay),
        ("d\r\n".toList, clockMay)] []).2 = .ok () ∧
    ∃ listed, (ListTasks true (addTasks [("a\r\nb".toList, clockMay), ("c".toList, clockMay),
        ("d\r\n".toList, clockMay)] []).1).2 = .ok listed ∧
      listed.length = [("a\r\nb".toList, clockMay), ("c".toList, clockMay),
        ("d\r\n".toList, clockMay)].length ∧
      ∀ (i : Nat) (d : Str) (now : Time),
        [("a\r\nb".toList, clockMay), ("c".toList, clockMay),
          ("d\r\n".toList, clockMay)][i]? = some (d, now) →
        ∃ t, listed[i]? = some t ∧ t.ID = (i : Int) + 1 ∧
          (crlfFree d = true → t.Description = d) ∧
          t.CreatedAt = now.truncSecond ∧ t.IsComplete = false :=
  C2_id_monotonicity [("a\r\nb".toList, clockMay), ("c".toList, clockMay),
    ("d\r\n".toList, clockMay)] (by decide) (by decide)

/-! ### C3: IDs after a deletion -/

/-- C3, as stated, fails.  In the file with the tasks 1 and 2, `DeleteTask(2)`
and then `AddTask` both succeed, and the task `AddTask` creates has ID 2
again.  In the file with the tasks 1 and 2 of which the second has the zone
offset `+24:60`, `DeleteTask(1)` and then `AddTask` both succeed, and the task
`AddTask` creates has ID 1 again: `DeleteTask` wrote the offset of task 2 as
`+25:00`, which `LoadTasks` skips. -/
theorem C3_counterexample :
    ((LoadTasks fileOneTwo).2 =
        .ok [⟨1, "a".toList, ⟨2024, 1, 1, 0, 0, 0, 0, 0⟩, false⟩,
             ⟨2, "b".toList, ⟨2024, 1, 2, 0, 0, 0, 0, 0⟩, false⟩] ∧
      (DeleteTask 2 fileOneTwo).2 = .ok () ∧
      (AddTask "c".toList clockMay (DeleteTask 2 fileOneTwo).1).2 = .ok () ∧
      (LoadTasks (AddTask "c".toList clockMay (DeleteTask 2 fileOneTwo).1).1).2 =
        .ok [⟨1, "a".toList, ⟨2024, 1, 1, 0, 0, 0, 0, 0⟩, false⟩,
             ⟨2, "c".toList, ⟨2024, 5, 6, 7, 8, 9, 0, 7200⟩, false⟩]) ∧
    ((LoadTasks fileOneTwo25).2 =
        .ok [⟨1, "a".toList, ⟨2024, 1, 1, 0, 0, 0, 0, 0⟩, false⟩,
             ⟨2, "b".toList, ⟨2024, 1, 2, 0, 0, 0, 0, 90000⟩, false⟩] ∧
      (DeleteTask 1 fileOneTwo25).2 = .ok () ∧
      (AddTask "c".toList clockMay (DeleteTask 1 fileOneTwo25).1).2 = .ok () ∧
      (LoadTasks (AddTask "c".toList clockMay (DeleteTask 1 fileOneTwo25).1).1).2 =
        .ok [⟨1, "c".toList, ⟨2024, 5, 6, 7, 8, 9, 0, 7200⟩, false⟩]) := by
  decide

/-- C3, amended: for every content of the file that loads and every ID `k`
present such that the loaded tasks with another ID have no zone offset of 25
hours and no ID equal to the greatest `int`, `DeleteTask(k)` succeeds and
saves the tasks with another ID, these are the tasks still present, with
their IDs, when the `AddTask(d)` that follows loads the file, and that
`AddTask(d)` succeeds and saves them followed by one new task; the new ID is
at least 1 and greater than every ID still present, it is greater than `k`
when a task with an ID above `k` was present, and it is at most `k` when `k`
was the greatest ID and at least 1. -/
theorem C3_id_after_delete (file : Str) (tasks : List Task) (k : Int) (d : Str) (now : Time)
    (hload : (LoadTasks file).2 = .ok tasks) (hk : ∃ t ∈ tasks, t.ID = k)
    (hoff : ∀ t ∈ tasks, t.ID ≠ k →
      t.CreatedAt.offset ≠ 90000 ∧ t.CreatedAt.offset ≠ -90000)
    (hmax : ∀ t ∈ tasks, t.ID ≠ k → t.ID < maxInt) :
    DeleteTask k file = (fileOf (tasks.filter (fun task => ¬ task.ID = k)), .ok ()) ∧
    ∃ kept, (LoadTasks (DeleteTask k file).1).2 = .ok kept ∧
      kept.map Task.ID = (tasks.filter (fun task => ¬ task.ID = k)).map Task.ID ∧
      AddTask d now (DeleteTask k file).1 =
        (fileOf (kept ++ [NewTask (nextID kept) d now]), .ok ()) ∧
      1 ≤ nextID kept ∧ (∀ t ∈ kept, t.ID < nextID kept) ∧
      ((∃ u ∈ tasks, k < u.ID) → k < nextID kept) ∧
      ((∀ u ∈ tasks, u.ID ≤ k) → 1 ≤ k → nextID kept ≤ k) := by
  generalize hrest : tasks.filter (fun task => ¬ task.ID = k) = rest
  have hmem : ∀ t, t ∈ rest ↔ t ∈ tasks ∧ t.ID ≠ k := by
    intro t
    rw [← hrest, List.mem_filter]
    simp
  have hrr : ∀ t ∈ rest, IsInt64 t.ID ∧ t.CreatedAt.Printable := fun t ht =>
    ⟨LoadTasks_isInt64 file tasks hload t ((hmem t).1 ht).1,
      LoadTasks_printable file tasks hload t ((hmem t).1 ht).1
        (hoff t ((hmem t).1 ht).1 ((hmem t).1 ht).2).1
        (hoff t ((hmem t).1 ht).1 ((hmem t).1 ht).2).2⟩
  obtain ⟨h1, h2, h3⟩ := nextID_spec rest
    (fun t ht => ⟨(hrr t ht).1, hmax t ((hmem t).1 ht).1 ((hmem t).1 ht).2⟩)
  have hdel : DeleteTask k file = (fileOf rest, .ok ()) := by
    rw [DeleteTask_of_ok file tasks k hload hk, hrest]
  have hkept : (LoadTasks (DeleteTask k file).1).2 = .ok (rest.map Task.reloaded) := by
    rw [hdel]
    simp only []
    rw [LoadTasks_fileOf_reloaded rest hrr]
  refine ⟨hdel, rest.map Task.reloaded, hkept, ?_, ?_, ?_⟩
  · rw [List.map_map]
    rfl
  · exact AddTask_of_ok _ _ d now hkept
  · rw [nextID_map_reloaded]
    refine ⟨h1, ?_, ?_, ?_⟩
    · intro t ht
      obtain ⟨u, hu, rfl⟩ := List.mem_map.1 ht
      exact h2 u hu
    · rintro ⟨u, hu, hku⟩
      have := h2 u ((hmem u).2 ⟨hu, by omega⟩)
      omega
    · intro hall hk1
      rcases h3 with h3 | ⟨u, hu, h3⟩
      · omega
      · have hu1 := (hmem u).1 hu
        have := hall u hu1.1
        have := hu1.2
        omega

set_option maxRecDepth 10000 in
/-- C3 at the file with the tasks 1, 2 and 3, the first loaded with a
carriage return before a line feed in its description, and the deleted
ID 2. -/
theorem C3_id_after_delete_witness :
    DeleteTask 2 fileReturnThree =
      (fileOf (tasksReturnThree.filter (fun task => ¬ task.ID = 2)), .ok ()) ∧
    ∃ kept, (LoadTasks (DeleteTask 2 fileReturnThree).1).2 = .ok kept ∧
      kept.map Task.ID = (tasksReturnThree.filter (fun task => ¬ task.ID = 2)).map Task.ID ∧
      AddTask "d".toList clockMay (DeleteTask 2 fileReturnThree).1 =
        (fileOf (kept ++ [NewTask (nextID kept) "d".toList clockMay]), .ok ()) ∧
      1 ≤ nextID kept ∧ (∀ t ∈ kept, t.ID < nextID kept) ∧
      ((∃ u ∈ tasksReturnThree, 2 < u.ID) → 2 < nextID kept) ∧
      ((∀ u ∈ tasksReturnThree, u.ID ≤ 2) → (1 : Int) ≤ 2 → nextID kept ≤ 2) :=
  C3_id_after_delete fileReturnThree tasksReturnThree 2 "d".toList clockMay (by decide)
    (by decide) (by decide) (by decide)

/-! ### C4: the next-ID rule -/

/-- C4, as stated, fails: the only task loaded from `fileNegativeID` has ID
-5, so the maximum ID plus one is -4, and `AddTask` gives the new task ID 1. -/
theorem C4_counterexample :
    (LoadTasks fileNegativeID).2 = .ok [⟨-5, "a".toList, ⟨2024, 1, 1, 0, 0, 0, 0, 0⟩, false⟩] ∧
    nextID [⟨-5, "a".toList, ⟨2024, 1, 1, 0, 0, 0, 0, 0⟩, false⟩] = 1 ∧
    AddTask "b".toList clockMay fileNegativeID =
      ("ID,Description,CreatedAt,IsComplete\n-5,a,2024-01-01T00:00:00Z,false\n1,b,2024-05-06T07:08:09+02:00,false\n".toList,
        .ok ()) ∧
    (1 : Int) ≠ -5 + 1 := by
  decide

/-- C4, amended: for every list of tasks loaded from the store in which no ID
is the greatest `int`, `AddTask` saves the loaded list followed by one new
task, whose ID is 1 when the loaded list is empty or its maximum ID is
negative, and (the maximum ID among the loaded tasks) + 1 when that maximum is
at least 0. -/
theorem C4_next_id (file : Str) (tasks : List Task) (d : Str) (now : Time)
    (hload : (LoadTasks file).2 = .ok tasks) (hmax : ∀ t ∈ tasks, t.ID < maxInt) :
    AddTask d now file = (fileOf (tasks ++ [NewTask (nextID tasks) d now]), .ok ()) ∧
    (tasks = [] → nextID tasks = 1) ∧
    (∀ t ∈ tasks, (∀ u ∈ tasks, u.ID ≤ t.ID) → 0 ≤ t.ID → nextID tasks = t.ID + 1) ∧
    (∀ t ∈ tasks, (∀ u ∈ tasks, u.ID ≤ t.ID) → t.ID < 0 → nextID tasks = 1) := by
  have hint := LoadTasks_isInt64 file tasks hload
  obtain ⟨h1, h2, h3⟩ := nextID_spec tasks (fun t ht => ⟨hint t ht, hmax t ht⟩)
  refine ⟨AddTask_of_ok file tasks d now hload, ?_, ?_, ?_⟩
  · intro he; subst he; rfl
  · intro t ht hmx h0
    have := h2 t ht
    rcases h3 with h3 | ⟨u, hu, h3⟩
    · omega
    · have := hmx u hu
      omega
  · intro t ht hmx h0
    rcases h3 with h3 | ⟨u, hu, h3⟩
    · exact h3
    · have := hmx u hu
      omega

/-- C4 at the file with the tasks 3 and 7: the new task gets ID 8. -/
theorem C4_next_id_witness :
    AddTask "c".toList clockMay fileThreeSeven =
      (fileOf (tasksThreeSeven ++ [NewTask (nextID tasksThreeSeven) "c".toList clockMay]), .ok ()) ∧
    (tasksThreeSeven = [] → nextID tasksThreeSeven = 1) ∧
    (∀ t ∈ tasksThreeSeven, (∀ u ∈ tasksThreeSeven, u.ID ≤ t.ID) → 0 ≤ t.ID →
      nextID tasksThreeSeven = t.ID + 1) ∧
    (∀ t ∈ tasksThreeSeven, (∀ u ∈ tasksThreeSeven, u.ID ≤ t.ID) → t.ID < 0 →
      nextID tasksThreeSeven = 1) :=
  C4_next_id fileThreeSeven tasksThreeSeven "c".toList clockMay (by decide) (by decide)

/-! ### C5: `AddTask` appends -/

/-- C5, as stated, fails.  A description with a carriage return before a line
feed is not listed verbatim.  A loaded task whose timestamp has a fraction of
a second is listed without the fraction after `AddTask`, so the loaded list
is not kept unchanged.  And after an `AddTask` that reads a clock in the year
10000 no new task is listed. -/
theorem C5_counterexample :
    ((AddTask "x\r\ny".toList clockMay []).2 = .ok () ∧
      (ListTasks true (AddTask "x\r\ny".toList clockMay []).1).2 =
        .ok [⟨1, "x\ny".toList, ⟨2024, 5, 6, 7, 8, 9, 0, 7200⟩, false⟩]) ∧
    ((LoadTasks fileFraction).2 =
        .ok [⟨1, "a".toList, ⟨2024, 1, 1, 0, 0, 0, 500000000, 0⟩, false⟩] ∧
      (AddTask "b".toList clockMay fileFraction).2 = .ok () ∧
      (ListTasks true (AddTask "b".toList clockMay fileFraction).1).2 =
        .ok [⟨1, "a".toList, ⟨2024, 1, 1, 0, 0, 0, 0, 0⟩, false⟩,
             ⟨2, "b".toList, ⟨2024, 5, 6, 7, 8, 9, 0, 7200⟩, false⟩]) ∧
    ((AddTask "b".toList clockYear10000 []).2 = .ok () ∧
      (ListTasks true (AddTask "b".toList clockYear10000 []).1).2 = .ok []) := by
  decide

/-- C5, amended: for every content of the file that loads, `AddTask(d)`
succeeds and the file it leaves is the one `SaveTasks` writes for the loaded
list followed by the new task; and when the loaded tasks have no carriage
return directly before a line feed in the description, no fraction of a
second and no zone offset of 25 hours in the timestamp, the description `d`
has no carriage return directly before a line feed and the clock reads a year
from 0 to 9999 and a zone offset of whole minutes below 25 hours,
`ListTasks(true)` then returns the previously loaded list, unchanged and in
the same order, followed by exactly one new task whose description is `d` and
whose `IsComplete` is false. -/
theorem C5_add_appends (file : Str) (tasks : List Task) (d : Str) (now : Time)
    (hload : (LoadTasks file).2 = .ok tasks) :
    AddTask d now file = (fileOf (tasks ++ [NewTask (nextID tasks) d now]), .ok ()) ∧
    ((∀ t ∈ tasks, t.Settled) → crlfFree d = true → now.Printable →
      (ListTasks true (AddTask d now file).1).2 =
        .ok (tasks ++ [⟨nextID tasks, d, now.truncSecond, false⟩])) := by
  refine ⟨AddTask_of_ok file tasks d now hload, ?_⟩
  intro hs hd hnow
  have hc := LoadTasks_canonical file tasks hload hs
  have hnew : (NewTask (nextID tasks) d now).Writable := ⟨isInt64_nextID tasks, hd, hnow⟩
  have hw : ∀ t ∈ tasks ++ [NewTask (nextID tasks) d now], t.Writable := by
    intro t ht
    rcases List.mem_append.1 ht with ht | ht
    · exact (hc t ht).1
    · rw [List.mem_singleton.1 ht]; exact hnew
  rw [AddTask_of_ok file tasks d now hload]
  unfold ListTasks
  simp only []
  rw [LoadTasks_fileOf _ hw, List.map_append, map_truncSecond_of_canonical tasks hc]
  rfl

/-- C5 at the file with the tasks 3 and 7, which have no carriage return, no
fraction of a second and no zone offset of 25 hours. -/
theorem C5_add_appends_witness :
    AddTask "c".toList clockMay fileThreeSeven =
      (fileOf (tasksThreeSeven ++ [NewTask (nextID tasksThreeSeven) "c".toList clockMay]),
        .ok ()) ∧
    (ListTasks true (AddTask "c".toList clockMay fileThreeSeven).1).2 =
      .ok (tasksThreeSeven ++ [⟨nextID tasksThreeSeven, "c".toList, clockMay.truncSecond, false⟩]) :=
  ⟨(C5_add_appends fileThreeSeven tasksThreeSeven "c".toList clockMay (by decide)).1,
    (C5_add_appends fileThreeSeven tasksThreeSeven "c".toList clockMay (by decide)).2
      (by decide) (by decide) (by decide)⟩

/-! ### C6: the filter of `ListTasks` -/

/-- C6: for every content of the file, `ListTasks(true)` returns what
`LoadTasks` returns, all loaded tasks in the order of the file, and
`ListTasks(false)` returns the tasks of that list with `IsComplete` false, in
the same order, also when it is called after `ListTasks(true)`; both fail
exactly when `LoadTasks` fails, and leave the file as `LoadTasks` does. -/
theorem C6_filter_correctness (file : Str) :
    (ListTasks true file).2 = (LoadTasks file).2 ∧
    (ListTasks false file).2 =
      (LoadTasks file).2.map (fun tasks => tasks.filter (fun task => !task.IsComplete)) ∧
    (ListTasks false (ListTasks true file).1).2 =
      (ListTasks true file).2.map (fun tasks => tasks.filter (fun task => !task.IsComplete)) ∧
    (ListTasks true file).1 = (LoadTasks file).1 ∧
    (ListTasks false file).1 = (LoadTasks file).1 := by
  have key : ∀ f : Str, (ListTasks true f).2 = (LoadTasks f).2 ∧
      (ListTasks false f).2 =
        (LoadTasks f).2.map (fun tasks => tasks.filter (fun task => !task.IsComplete)) ∧
      (ListTasks true f).1 = (LoadTasks f).1 ∧ (ListTasks false f).1 = (LoadTasks f).1 := by
    intro f
    unfold ListTasks
    rcases hl : LoadTasks f with ⟨f1, r⟩
    cases r with
    | error e => exact ⟨rfl, rfl, rfl, rfl⟩
    | ok tasks => exact ⟨rfl, rfl, rfl, rfl⟩
  obtain ⟨h1, h2, h3, h4⟩ := key file
  refine ⟨h1, h2, ?_, h3, h4⟩
  rw [(key (ListTasks true file).1).2.1, h3, LoadTasks_LoadTasks, h1]

/-! ### C7: not-found signalling -/

/-- C7: for every content of the file and every id that is not the ID of a
loaded task, `CompleteTask(id)` and `DeleteTask(id)` return an error, the
not-found error when the load succeeded, they leave the file as `LoadTasks`
leaves it, and a load after the call returns what a load before it returns. -/
theorem C7_not_found (file : Str) (id : Int)
    (h : ∀ tasks, (LoadTasks file).2 = .ok tasks → ∀ t ∈ tasks, t.ID ≠ id) :
    (∃ e, (CompleteTask id file).2 = .error e) ∧
    (∃ e, (DeleteTask id file).2 = .error e) ∧
    (∀ tasks, (LoadTasks file).2 = .ok tasks →
      (CompleteTask id file).2 = .error (.notFound id) ∧
      (DeleteTask id file).2 = .error (.notFound id)) ∧
    (CompleteTask id file).1 = (LoadTasks file).1 ∧
    (DeleteTask id file).1 = (LoadTasks file).1 ∧
    (LoadTasks (CompleteTask id file).1).2 = (LoadTasks file).2 ∧
    (LoadTasks (DeleteTask id file).1).2 = (LoadTasks file).2 := by
  have hc : (CompleteTask id file).1 = (LoadTasks file).1 ∧
      (DeleteTask id file).1 = (LoadTasks file).1 ∧
      (∃ e, (CompleteTask id file).2 = .error e) ∧ (∃ e, (DeleteTask id file).2 = .error e) ∧
      (∀ tasks, (LoadTasks file).2 = .ok tasks →
        (CompleteTask id file).2 = .error (.notFound id) ∧
        (DeleteTask id file).2 = .error (.notFound id)) := by
    unfold CompleteTask DeleteTask
    rcases hl : LoadTasks file with ⟨f1, r⟩
    rw [hl] at h
    cases r with
    | error e =>
      refine ⟨rfl, rfl, ⟨e, rfl⟩, ⟨e, rfl⟩, ?_⟩
      intro tasks ht
      simp at ht
    | ok tasks =>
      have hno := h tasks rfl
      simp [markComplete_none id tasks hno, any_ID_false id tasks hno]
  obtain ⟨h1, h2, h3, h4, h5⟩ := hc
  refine ⟨h3, h4, h5, h1, h2, ?_, ?_⟩
  · rw [h1, LoadTasks_LoadTasks]
  · rw [h2, LoadTasks_LoadTasks]

/-- C7 at the file with the tasks 3 and 7 and the absent ID 5. -/
theorem C7_not_found_witness :
    (∃ e, (CompleteTask 5 fileThreeSeven).2 = .error e) ∧
    (∃ e, (DeleteTask 5 fileThreeSeven).2 = .error e) ∧
    (∀ tasks, (LoadTasks fileThreeSeven).2 = .ok tasks →
      (CompleteTask 5 fileThreeSeven).2 = .error (.notFound 5) ∧
      (DeleteTask 5 fileThreeSeven).2 = .error (.notFound 5)) ∧
    (CompleteTask 5 fileThreeSeven).1 = (LoadTasks fileThreeSeven).1 ∧
    (DeleteTask 5 fileThreeSeven).1 = (LoadTasks fileThreeSeven).1 ∧
    (LoadTasks (CompleteTask 5 fileThreeSeven).1).2 = (LoadTasks fileThreeSeven).2 ∧
    (LoadTasks (DeleteTask 5 fileThreeSeven).1).2 = (LoadTasks fileThreeSeven).2 :=
  C7_not_found fileThreeSeven 5 (by
    intro tasks ht
    have h0 : (LoadTasks fileThreeSeven).2 = .ok tasksThreeSeven := by decide
    rw [h0] at ht
    injection ht with ht
    subst ht
    decide)

/-! ### C8: rows without four fields -/

/-- C8 fails on the code.  On a file whose first row is the header and whose
third row has two fields, `ReadAll` fails with `ErrFieldCount`, since the
reader expects of every record the number of fields of the first, and
`LoadTasks` returns that error and no tasks: the row is not skipped and the
well-formed row is not returned.  In general, whenever `LoadTasks` gets
records from the reader and the first has four fields, all have four, so
that the loop never skips a row for its number of fields. -/
theorem C8_short_row_aborts_load :
    (ReadAll fileShortRow = .error .fieldCount ∧
      LoadTasks fileShortRow = (fileShortRow, .error (.readCSV .fieldCount))) ∧
    (∀ (file : Str) (hdr : List Str) (rows : List (List Str)),
      ReadAll file = .ok (hdr :: rows) → hdr.length = 4 → ∀ r ∈ rows, r.length = 4) :=
  ⟨by decide, fun file hdr rows h h4 r hr => by rw [ReadAll_uniform file hdr rows h r hr, h4]⟩

/-! ### C9: the row acceptance rule -/

set_option maxRecDepth 20000 in
/-- C9 fails on the code, by the defect of C8.  The file `fileLongRow` is
the header, a well-formed row and a row of five fields; the rule of the claim
gives the task of the well-formed row and no task for the other, but
`LoadTasks` returns the `ErrFieldCount` of the reader and no task.  The rule
holds wherever the reader returns the rows: `LoadTasks` then returns, in the
order of the file, the tasks of the rows its loop accepts, one task a row;
the loop accepts a row exactly when the row has four fields of which the first
parses as an integer, the third as an RFC 3339 timestamp and the fourth as a
boolean; and the reader does return the rows of every file that the CSV writer
wrote from the header and rows of four fields.  In `fileBadFields` the rows
whose ID, timestamp or flag does not parse are skipped and the two
well-formed rows are loaded, in their order. -/
theorem C9_long_row_aborts_load :
    (fileLongRow = writeAll [header,
        ["1".toList, "a".toList, "2024-01-01T00:00:00Z".toList, "false".toList],
        ["2".toList, "b".toList, "2024-01-02T00:00:00Z".toList, "false".toList, "x".toList]] ∧
      [["1".toList, "a".toList, "2024-01-01T00:00:00Z".toList, "false".toList],
        ["2".toList, "b".toList, "2024-01-02T00:00:00Z".toList, "false".toList,
          "x".toList]].filterMap decodeRecord =
        [⟨1, "a".toList, ⟨2024, 1, 1, 0, 0, 0, 0, 0⟩, false⟩] ∧
      LoadTasks fileLongRow = (fileLongRow, .error (.readCSV .fieldCount))) ∧
    (∀ (file : Str) (hdr : List Str) (rows : List (List Str)),
      ReadAll file = .ok (hdr :: rows) →
      LoadTasks file = (file, .ok (rows.filterMap decodeRecord))) ∧
    (∀ (r : List Str) (t : Task), decodeRecord r = some t ↔
      ∃ f0 f1 f2 f3, r = [f0, f1, f2, f3] ∧ Atoi f0 = some t.ID ∧ f1 = t.Description ∧
        Parse f2 = some t.CreatedAt ∧ ParseBool f3 = some t.IsComplete) ∧
    (∀ written : List (List Str), (∀ r ∈ written, r.length = 4) →
      LoadTasks (writeAll (header :: written)) =
        (writeAll (header :: written),
          .ok ((written.map (List.map crlfToLf)).filterMap decodeRecord))) ∧
    LoadTasks fileBadFields =
      (fileBadFields, .ok [⟨1, "a".toList, ⟨2024, 1, 1, 0, 0, 0, 0, 0⟩, false⟩,
        ⟨5, "e".toList, ⟨2024, 1, 5, 0, 0, 0, 0, 0⟩, true⟩]) := by
  refine ⟨by decide, fun file hdr rows h => LoadTasks_of_ReadAll file hdr rows h,
    decodeRecord_eq_some, ?_, by decide⟩
  intro written hw
  apply LoadTasks_of_ReadAll _ header
  rw [ReadAll_writeAll_crlfToLf 4 (by decide)]
  · rw [List.map_cons, header_map_crlfToLf]
  · intro r hr
    rcases List.mem_cons.1 hr with h1 | h1
    · rw [h1]; rfl
    · exact hw r h1

/-! ### C10: completing twice -/

/-- C10, as stated, fails.  In a file whose task has a description with three
carriage returns before a line feed, both `CompleteTask` calls succeed, and
the stored list after the second call differs from the one after the first:
each rewriting removes one carriage return.  In a file whose task has the
zone offset `+24:60`, the first `CompleteTask` succeeds and writes the offset
as `+25:00`, which `LoadTasks` skips, so the second call returns the
not-found error. -/
theorem C10_counterexample :
    ((LoadTasks fileCarriageReturns).2 =
        .ok [⟨1, "a\r\r\nb".toList, ⟨2024, 1, 1, 0, 0, 0, 0, 0⟩, false⟩] ∧
      (CompleteTask 1 fileCarriageReturns).2 = .ok () ∧
      (CompleteTask 1 (CompleteTask 1 fileCarriageReturns).1).2 = .ok () ∧
      (LoadTasks (CompleteTask 1 fileCarriageReturns).1).2 =
        .ok [⟨1, "a\r\nb".toList, ⟨2024, 1, 1, 0, 0, 0, 0, 0⟩, true⟩] ∧
      (LoadTasks (CompleteTask 1 (CompleteTask 1 fileCarriageReturns).1).1).2 =
        .ok [⟨1, "a\nb".toList, ⟨2024, 1, 1, 0, 0, 0, 0, 0⟩, true⟩]) ∧
    ((LoadTasks fileOffset25).2 =
        .ok [⟨1, "a".toList, ⟨2024, 1, 1, 0, 0, 0, 0, 90000⟩, false⟩] ∧
      (CompleteTask 1 fileOffset25).2 = .ok () ∧
      (CompleteTask 1 (CompleteTask 1 fileOffset25).1).2 = .error (.notFound 1)) := by
  decide

/-- C10, amended: for every content of the file whose loaded tasks have no
carriage return directly before a line feed in the description and no zone
offset of 25 hours, and every id that is the ID of a loaded task, calling
`CompleteTask(id)` twice succeeds both times, the second call leaves the file
as the first left it, the stored task list after the second call equals the
stored task list after the first call, and in it the first task with that ID
has `IsComplete` true. -/
theorem C10_idempotent_complete (file : Str) (tasks : List Task) (id : Int)
    (hload : (LoadTasks file).2 = .ok tasks) (hrw : ∀ t ∈ tasks, t.Rewritable)
    (hid : ∃ t ∈ tasks, t.ID = id) :
    (CompleteTask id file).2 = .ok () ∧
    (CompleteTask id (CompleteTask id file).1).2 = .ok () ∧
    (CompleteTask id (CompleteTask id file).1).1 = (CompleteTask id file).1 ∧
    ∃ stored, (LoadTasks (CompleteTask id file).1).2 = .ok stored ∧
      (LoadTasks (CompleteTask id (CompleteTask id file).1).1).2 = .ok stored ∧
      ∃ t, stored.find? (fun task => decide (task.ID = id)) = some t ∧
        t.IsComplete = true := by
  have hw := LoadTasks_writable file tasks hload hrw
  obtain ⟨marked, hm⟩ := markComplete_some id tasks hid
  obtain ⟨pre, t, post, hsplit, hpre, ht, hmarked⟩ := markComplete_spec id tasks marked hm
  have hwm : ∀ u ∈ marked, u.Writable := by
    intro u hu
    rw [hmarked] at hu
    rcases List.mem_append.1 hu with hu | hu
    · exact hw u (by rw [hsplit]; exact List.mem_append_left _ hu)
    · rcases List.mem_cons.1 hu with hu | hu
      · rw [hu]
        exact hw t (by rw [hsplit]; exact List.mem_append_right _ (List.mem_cons_self _ _))
      · exact hw u (by rw [hsplit]
                       exact List.mem_append_right _ (List.mem_cons_of_mem _ hu))
  have h1 := CompleteTask_of_ok file tasks marked id hload hm
  have hl := LoadTasks_fileOf marked hwm
  have hl2 : (LoadTasks (fileOf marked)).2 = .ok (marked.map Task.truncSecond) := by rw [hl]
  have hmap : marked.map Task.truncSecond =
      pre.map Task.truncSecond ++
        ({ t with IsComplete := true } : Task).truncSecond :: post.map Task.truncSecond := by
    rw [hmarked]; simp
  have hpre2 : ∀ u ∈ pre.map Task.truncSecond, u.ID ≠ id := by
    intro u hu
    obtain ⟨v, hv, rfl⟩ := List.mem_map.1 hu
    exact hpre v hv
  have hm2 : markComplete id (marked.map Task.truncSecond) =
      some (marked.map Task.truncSecond) := by
    rw [hmap]
    exact markComplete_of_split id _ _ _ hpre2 ht
  have h2 := CompleteTask_of_ok (fileOf marked) _ _ id hl2 hm2
  rw [fileOf_map_truncSecond] at h2
  rw [h1]
  simp only []
  rw [h2]
  refine ⟨trivial, rfl, rfl, marked.map Task.truncSecond, hl2, hl2,
    ({ t with IsComplete := true } : Task).truncSecond, ?_, rfl⟩
  rw [hmap]
  exact find_append_of_split id _ _ _ hpre2 ht

/-- C10 at the file with the tasks 3 and 7 and the ID 7. -/
theorem C10_idempotent_complete_witness :
    (CompleteTask 7 fileThreeSeven).2 = .ok () ∧
    (CompleteTask 7 (CompleteTask 7 fileThreeSeven).1).2 = .ok () ∧
    (CompleteTask 7 (CompleteTask 7 fileThreeSeven).1).1 = (CompleteTask 7 fileThreeSeven).1 ∧
    ∃ stored, (LoadTasks (CompleteTask 7 fileThreeSeven).1).2 = .ok stored ∧
      (LoadTasks (CompleteTask 7 (CompleteTask 7 fileThreeSeven).1).1).2 = .ok stored ∧
      ∃ t, stored.find? (fun task => decide (task.ID = 7)) = some t ∧
        t.IsComplete = true :=
  C10_idempotent_complete fileThreeSeven tasksThreeSeven 7 (by decide) (by decide) (by decide)

/-! ### C11: `CompleteTask` changes one flag -/

set_option maxRecDepth 10000 in
/-- C11, as stated, fails.  In the file with the tasks 1 and 2, the second
with half a second in its timestamp, `CompleteTask(1)` succeeds and the
stored task 2 has another `CreatedAt` afterwards, the half second gone; in
the file whose task 1 has half a second in its timestamp, the completed task
has another `CreatedAt` afterwards. -/
theorem C11_counterexample :
    ((LoadTasks fileMixed).2 =
        .ok [⟨1, "a".toList, ⟨2024, 1, 1, 0, 0, 0, 0, 0⟩, false⟩,
             ⟨2, "b".toList, ⟨2024, 1, 2, 0, 0, 0, 500000000, 0⟩, false⟩] ∧
      (CompleteTask 1 fileMixed).2 = .ok () ∧
      (LoadTasks (CompleteTask 1 fileMixed).1).2 =
        .ok [⟨1, "a".toList, ⟨2024, 1, 1, 0, 0, 0, 0, 0⟩, true⟩,
             ⟨2, "b".toList, ⟨2024, 1, 2, 0, 0, 0, 0, 0⟩, false⟩]) ∧
    ((LoadTasks fileFraction).2 =
        .ok [⟨1, "a".toList, ⟨2024, 1, 1, 0, 0, 0, 500000000, 0⟩, false⟩] ∧
      (CompleteTask 1 fileFraction).2 = .ok () ∧
      (LoadTasks (CompleteTask 1 fileFraction).1).2 =
        .ok [⟨1, "a".toList, ⟨2024, 1, 1, 0, 0, 0, 0, 0⟩, true⟩]) := by
  decide

/-- C11, amended: for every content of the file whose loaded tasks have no
carriage return directly before a line feed in the description, no fraction
of a second and no zone offset of 25 hours in the timestamp, and every id
that is the ID of a loaded task, `CompleteTask(id)` succeeds, and the stored
list afterwards is the list before with the first task of that ID marked
complete: the same length and order, that task with its ID, Description and
CreatedAt unchanged, every other task unchanged in all four fields. -/
theorem C11_complete_one_flag (file : Str) (tasks : List Task) (id : Int)
    (hload : (LoadTasks file).2 = .ok tasks) (hs : ∀ t ∈ tasks, t.Settled)
    (hid : ∃ t ∈ tasks, t.ID = id) :
    ∃ pre t post, tasks = pre ++ t :: post ∧ (∀ u ∈ pre, u.ID ≠ id) ∧ t.ID = id ∧
      CompleteTask id file =
        (fileOf (pre ++ { t with IsComplete := true } :: post), .ok ()) ∧
      (LoadTasks (CompleteTask id file).1).2 =
        .ok (pre ++ { ID := t.ID, Description := t.Description, CreatedAt := t.CreatedAt,
                      IsComplete := true } :: post) := by
  have hc := LoadTasks_canonical file tasks hload hs
  obtain ⟨marked, hm⟩ := markComplete_some id tasks hid
  obtain ⟨pre, t, post, hsplit, hpre, ht, hmarked⟩ := markComplete_spec id tasks marked hm
  have hcm := markComplete_canonical id tasks marked hm hc
  have h1 := CompleteTask_of_ok file tasks marked id hload hm
  refine ⟨pre, t, post, hsplit, hpre, ht, ?_, ?_⟩
  · rw [h1, hmarked]
  · rw [h1]
    simp only []
    rw [LoadTasks_fileOf_canonical marked hcm, hmarked]

/-- C11 at the file with the tasks 3 and 7 and the ID 7. -/
theorem C11_complete_one_flag_witness :
    ∃ pre t post, tasksThreeSeven = pre ++ t :: post ∧ (∀ u ∈ pre, u.ID ≠ 7) ∧ t.ID = 7 ∧
      CompleteTask 7 fileThreeSeven =
        (fileOf (pre ++ { t with IsComplete := true } :: post), .ok ()) ∧
      (LoadTasks (CompleteTask 7 fileThreeSeven).1).2 =
        .ok (pre ++ { ID := t.ID, Description := t.Description, CreatedAt := t.CreatedAt,
                      IsComplete := true } :: post) :=
  C11_complete_one_flag fileThreeSeven tasksThreeSeven 7 (by decide) (by decide) (by decide)

/-! ### C12: `DeleteTask` removes one task -/

set_option maxRecDepth 10000 in
/-- C13 fails on the code.  In the file whose tasks have the least and the
greatest `int` as IDs, `AddTask` succeeds and gives the new task the least
`int` again: `task.ID + 1` wraps around at the greatest `int`, and the stored
tasks no longer have pairwise distinct IDs.  Apart from that the invariant
holds: every successful `CompleteTask` and `DeleteTask` keeps the IDs
pairwise distinct, and so does `AddTask` when no loaded ID is the greatest
`int`. -/
theorem C13_add_repeats_ID_at_maxInt :
    ((LoadTasks fileMinMax).2 =
        .ok [⟨-9223372036854775808, "a".toList, ⟨2024, 1, 1, 0, 0, 0, 0, 0⟩, false⟩,
             ⟨9223372036854775807, "b".toList, ⟨2024, 1, 2, 0, 0, 0, 0, 0⟩, false⟩] ∧
      ([-9223372036854775808, 9223372036854775807] : List Int).Nodup ∧
      (AddTask "c".toList clockMay fileMinMax).2 = .ok () ∧
      (LoadTasks (AddTask "c".toList clockMay fileMinMax).1).2 =
        .ok [⟨-9223372036854775808, "a".toList, ⟨2024, 1, 1, 0, 0, 0, 0, 0⟩, false⟩,
             ⟨9223372036854775807, "b".toList, ⟨2024, 1, 2, 0, 0, 0, 0, 0⟩, false⟩,
             ⟨-9223372036854775808, "c".toList, ⟨2024, 5, 6, 7, 8, 9, 0, 7200⟩, false⟩] ∧
      ¬ ([-9223372036854775808, 9223372036854775807, -9223372036854775808] : List Int).Nodup) ∧
    (∀ (file : Str) (tasks : List Task), (LoadTasks file).2 = .ok tasks →
      (tasks.map Task.ID).Nodup →
      (∀ id, (CompleteTask id file).2 = .ok () →
        ∃ stored, (LoadTasks (CompleteTask id file).1).2 = .ok stored ∧
          (stored.map Task.ID).Nodup) ∧
      (∀ id, (DeleteTask id file).2 = .ok () →
        ∃ stored, (LoadTasks (DeleteTask id file).1).2 = .ok stored ∧
          (stored.map Task.ID).Nodup) ∧
      (∀ d now, (∀ t ∈ tasks, t.ID < maxInt) →
        ∃ stored, (LoadTasks (AddTask d now file).1).2 = .ok stored ∧
          (stored.map Task.ID).Nodup)) :=
  ⟨by decide, nodup_ID_preserved⟩

/-! ### C14: the scenario of the specification -/

/-- C14: on an empty file, at readings of the clock with a year from 0 to
9999 and a zone offset of whole minutes below 25 hours, every call of the
scenario succeeds; `AddTask("buy milk")` creates the task with ID 1 and
`AddTask("walk dog")` the task with ID 2; `ListTasks(false)` returns both,
incomplete; after `CompleteTask(1)`, `ListTasks(false)` returns task 2 only
and `ListTasks(true)` task 1, complete, and task 2, incomplete; after
`DeleteTask(2)`, `ListTasks(true)` returns task 1, complete. -/
theorem C14_scenario (now1 now2 : Time) (h1 : now1.Printable) (h2 : now2.Printable) :
    (AddTask "buy milk".toList now1 []).2 = .ok () ∧
    (LoadTasks (scenario1 now1)).2 = .ok [⟨1, "buy milk".toList, now1.truncSecond, false⟩] ∧
    (AddTask "walk dog".toList now2 (scenario1 now1)).2 = .ok () ∧
    (ListTasks false (scenario2 now1 now2)).2 =
      .ok [⟨1, "buy milk".toList, now1.truncSecond, false⟩,
           ⟨2, "walk dog".toList, now2.truncSecond, false⟩] ∧
    (CompleteTask 1 (scenario3 now1 now2)).2 = .ok () ∧
    (ListTasks false (scenario4 now1 now2)).2 =
      .ok [⟨2, "walk dog".toList, now2.truncSecond, false⟩] ∧
    (ListTasks true (scenario5 now1 now2)).2 =
      .ok [⟨1, "buy milk".toList, now1.truncSecond, true⟩,
           ⟨2, "walk dog".toList, now2.truncSecond, false⟩] ∧
    (DeleteTask 2 (scenario6 now1 now2)).2 = .ok () ∧
    (ListTasks true (scenario7 now1 now2)).2 =
      .ok [⟨1, "buy milk".toList, now1.truncSecond, true⟩] := by
  obtain ⟨c1, c2, c3, c4⟩ := scenario_files now1 now2 h1 h2
  have e1 : scenario1 now1 = fileOf [⟨1, "buy milk".toList, now1.truncSecond, false⟩] := by
    unfold scenario1; rw [scenario1_eq]
  have a2 := scenario2_eq now1 now2 h1 h2
  have e2 : scenario2 now1 now2 =
      fileOf [⟨1, "buy milk".toList, now1.truncSecond, false⟩,
              ⟨2, "walk dog".toList, now2.truncSecond, false⟩] := by
    unfold scenario2; rw [a2]
  have l2 := ListTasks_fileOf_canonical _ false c2
  have e3 : scenario3 now1 now2 = scenario2 now1 now2 := by
    unfold scenario3; rw [e2, l2]
  have a4 : CompleteTask 1 (scenario3 now1 now2) =
      (fileOf [⟨1, "buy milk".toList, now1.truncSecond, true⟩,
               ⟨2, "walk dog".toList, now2.truncSecond, false⟩], .ok ()) := by
    rw [e3, e2]
    exact CompleteTask_of_ok _ _ _ 1 (by rw [LoadTasks_fileOf_canonical _ c2])
      (by simp [markComplete])
  have e4 : scenario4 now1 now2 =
      fileOf [⟨1, "buy milk".toList, now1.truncSecond, true⟩,
              ⟨2, "walk dog".toList, now2.truncSecond, false⟩] := by
    unfold scenario4; rw [a4]
  have l4 := ListTasks_fileOf_canonical _ false c3
  have e5 : scenario5 now1 now2 = scenario4 now1 now2 := by
    unfold scenario5; rw [e4, l4]
  have l5 := ListTasks_fileOf_canonical _ true c3
  have e6 : scenario6 now1 now2 = scenario4 now1 now2 := by
    unfold scenario6; rw [e5, e4, l5]
  have a7 : DeleteTask 2 (scenario6 now1 now2) =
      (fileOf [⟨1, "buy milk".toList, now1.truncSecond, true⟩], .ok ()) := by
    rw [e6, e4, DeleteTask_of_ok _ _ 2 (by rw [LoadTasks_fileOf_canonical _ c3])
      ⟨_, List.mem_cons_of_mem _ (List.mem_cons_self _ _), rfl⟩]
    simp
  have e7 : scenario7 now1 now2 = fileOf [⟨1, "buy milk".toList, now1.truncSecond, true⟩] := by
    unfold scenario7; rw [a7]
  refine ⟨by rw [scenario1_eq], by rw [e1, LoadTasks_fileOf_canonical _ c1], by rw [a2],
    by rw [e2, l2]; rfl, by rw [a4], by rw [e4, l4]; rfl, by rw [e5, e4, l5]; rfl, by rw [a7],
    by rw [e7, ListTasks_fileOf_canonical _ true c4]; rfl⟩

set_option maxRecDepth 10000 in
/-- C14 at the clock readings of 6 May 2024. -/
theorem C14_scenario_witness :
    (AddTask "buy milk".toList clockMay []).2 = .ok () ∧
    (LoadTasks (scenario1 clockMay)).2 =
      .ok [⟨1, "buy milk".toList, clockMay.truncSecond, false⟩] ∧
    (AddTask "walk dog".toList clockMay (scenario1 clockMay)).2 = .ok () ∧
    (ListTasks false (scenario2 clockMay clockMay)).2 =
      .ok [⟨1, "buy milk".toList, clockMay.truncSecond, false⟩,
           ⟨2, "walk dog".toList, clockMay.truncSecond, false⟩] ∧
    (CompleteTask 1 (scenario3 clockMay clockMay)).2 = .ok () ∧
    (ListTasks false (scenario4 clockMay clockMay)).2 =
      .ok [⟨2, "walk dog".toList, clockMay.truncSecond, false⟩] ∧
    (ListTasks true (scenario5 clockMay clockMay)).2 =
      .ok [⟨1, "buy milk".toList, clockMay.truncSecond, true⟩,
           ⟨2, "walk dog".toList, clockMay.truncSecond, false⟩] ∧
    (DeleteTask 2 (scenario6 clockMay clockMay)).2 = .ok () ∧
    (ListTasks true (scenario7 clockMay clockMay)).2 =
      .ok [⟨1, "buy milk".toList, clockMay.truncSecond, true⟩] :=
  C14_scenario clockMay clockMay (by decide) (by decide)

/-! ### C15: `SaveTasks` rewrites the file -/

/-- C15: for every previous content of the file and every list of tasks,
`SaveTasks` succeeds and leaves in the file the header row
`ID,Description,CreatedAt,IsComplete` followed by one row per task, in the
order of the list, with the four fields ID in decimal, Description,
CreatedAt in the RFC 3339 layout and IsComplete as `true` or `false`, each
row as the CSV writer writes it; the content does not depend on the previous
content; and the reader finds in the file these rows and no others, each with
four fields, the descriptions with carriage returns before line feeds
removed. -/
theorem C15_full_rewrite (prev : Str) (tasks : List Task) :
    SaveTasks tasks prev =
      (writeRecord header ++
        writeAll (tasks.map (fun t =>
          [Itoa t.ID, t.Description, t.CreatedAt.Format, FormatBool t.IsComplete])), .ok ()) ∧
    writeRecord header = "ID,Description,CreatedAt,IsComplete\n".toList ∧
    (∀ other : Str, SaveTasks tasks other = SaveTasks tasks prev) ∧
    (∀ t : Task, FormatBool t.IsComplete = "true".toList ∨
      FormatBool t.IsComplete = "false".toList) ∧
    ReadAll (SaveTasks tasks prev).1 =
      .ok (header :: tasks.map (fun t =>
        [Itoa t.ID, crlfToLf t.Description, t.CreatedAt.Format, FormatBool t.IsComplete])) := by
  refine ⟨rfl, by decide, fun _ => rfl, ?_, ?_⟩
  · intro t
    cases t.IsComplete
    · exact Or.inr rfl
    · exact Or.inl rfl
  · have h := ReadAll_fileOf_crlfToLf tasks
    simp only [encodeTask_map_crlfToLf] at h
    exact h

/-! ### C16: the header of an empty file -/

/-- C16: on an empty file `LoadTasks` returns no tasks and no error and
leaves exactly the header row in the file, and a second `LoadTasks` returns
no tasks and no error and leaves the file as it is. -/
theorem C16_header_initialisation :
    LoadTasks [] = ("ID,Description,CreatedAt,IsComplete\n".toList, .ok []) ∧
    LoadTasks (LoadTasks []).1 = ("ID,Description,CreatedAt,IsComplete\n".toList, .ok []) := by
  decide

/-! ### C17: the first row -/

set_option maxRecDepth 10000 in
/-- C17: for every content of the file, what `LoadTasks` returns is decoded
from the rows after the first alone, whatever the first row is; a file in
which the reader finds no row or one row loads as the empty list; so does the
file whose only row is a well-formed data row; and two written files whose
rows of four fields differ in the first row only load the same tasks. -/
theorem C17_first_row_not_data (file : Str) :
    (∀ (first : List Str) (rows : List (List Str)), ReadAll file = .ok (first :: rows) →
      LoadTasks file = (file, .ok (rows.filterMap decodeRecord))) ∧
    (ReadAll file = .ok [] → (LoadTasks file).2 = .ok []) ∧
    (∀ first : List Str, ReadAll file = .ok [first] → (LoadTasks file).2 = .ok []) ∧
    LoadTasks fileNoHeader = (fileNoHeader, .ok []) ∧
    (∀ (first other : List Str) (rows : List (List Str)), first.length = 4 →
      other.length = 4 → (∀ r ∈ rows, r.length = 4) →
      (LoadTasks (writeAll (first :: rows))).2 = (LoadTasks (writeAll (other :: rows))).2) := by
  refine ⟨fun first rows h => LoadTasks_of_ReadAll file first rows h, ?_, ?_, by decide, ?_⟩
  · intro h
    unfold LoadTasks
    split_ifs
    · rfl
    · rw [h]; rfl
  · intro first h
    rw [LoadTasks_of_ReadAll file first [] h]
    rfl
  · intro first other rows hf ho hr
    have key : ∀ x : List Str, x.length = 4 →
        (LoadTasks (writeAll (x :: rows))).2 =
          .ok ((rows.map (List.map crlfToLf)).filterMap decodeRecord) := by
      intro x hx
      have hread := ReadAll_writeAll_crlfToLf 4 (by decide) (x :: rows) (by
        intro r hr2
        rcases List.mem_cons.1 hr2 with h | h
        · rw [h]; exact hx
        · exact hr r h)
      rw [List.map_cons] at hread
      rw [LoadTasks_of_ReadAll _ _ _ hread]
    rw [key first hf, key other ho]

/-! ### C18: the new ID and the present IDs -/

set_option maxRecDepth 10000 in
/-- C18 fails on the code.  In the file whose task has the greatest `int` as
ID, `AddTask` gives the new task the least `int`: `task.ID + 1` wraps around,
so the new ID is neither at least 1 nor greater than the loaded ID.  For
loaded IDs below the greatest `int`, zero and negative ones included, the new
ID is at least 1 and greater than every loaded ID. -/
theorem C18_new_ID_wraps_at_maxInt :
    ((LoadTasks fileMaxInt).2 =
        .ok [⟨9223372036854775807, "a".toList, ⟨2024, 1, 1, 0, 0, 0, 0, 0⟩, false⟩] ∧
      nextID [⟨9223372036854775807, "a".toList, ⟨2024, 1, 1, 0, 0, 0, 0, 0⟩, false⟩] =
        -9223372036854775808 ∧
      AddTask "b".toList clockMay fileMaxInt =
        ("ID,Description,CreatedAt,IsComplete\n9223372036854775807,a,2024-01-01T00:00:00Z,false\n-9223372036854775808,b,2024-05-06T07:08:09+02:00,false\n".toList,
          .ok ())) ∧
    (∀ (file : Str) (tasks : List Task) (d : Str) (now : Time),
      (LoadTasks file).2 = .ok tasks → (∀ t ∈ tasks, t.ID < maxInt) →
      AddTask d now file = (fileOf (tasks ++ [NewTask (nextID tasks) d now]), .ok ()) ∧
      1 ≤ nextID tasks ∧ ∀ t ∈ tasks, t.ID < nextID tasks) :=
  ⟨by decide, fun file tasks d now hload hmax =>
    ⟨AddTask_of_ok file tasks d now hload,
      (nextID_spec tasks (fun t ht => ⟨LoadTasks_isInt64 file tasks hload t ht, hmax t ht⟩)).1,
      (nextID_spec tasks (fun t ht => ⟨LoadTasks_isInt64 file tasks hload t ht, hmax t ht⟩)).2.1⟩⟩

/-! ### C19: no task with the deleted ID -/

/-- C19: for every content of the file, also one in which several loaded
tasks share an ID, and every id that is the ID of a loaded task,
`DeleteTask(id)` succeeds, no stored task has that ID afterwards, and a
`CompleteTask(id)` or `DeleteTask(id)` that follows returns the not-found
error. -/
theorem C19_delete_leaves_no_ID (file : Str) (tasks : List Task) (id : Int)
    (hload : (LoadTasks file).2 = .ok tasks) (hid : ∃ t ∈ tasks, t.ID = id) :
    (DeleteTask id file).2 = .ok () ∧
    (∃ stored, (LoadTasks (DeleteTask id file).1).2 = .ok stored ∧
      ∀ t ∈ stored, t.ID ≠ id) ∧
    (CompleteTask id (DeleteTask id file).1).2 = .error (.notFound id) ∧
    (DeleteTask id (DeleteTask id file).1).2 = .error (.notFound id) := by
  have hint := LoadTasks_isInt64 file tasks hload
  have h1 := DeleteTask_of_ok file tasks id hload hid
  have hl := LoadTasks_fileOf_reload (tasks.filter (fun task => ¬ task.ID = id))
  have hl2 : (LoadTasks (fileOf (tasks.filter (fun task => ¬ task.ID = id)))).2 =
      .ok ((tasks.filter (fun task => ¬ task.ID = id)).filterMap reload) := by rw [hl]
  have hno : ∀ t ∈ (tasks.filter (fun task => ¬ task.ID = id)).filterMap reload, t.ID ≠ id := by
    intro t1 ht1
    obtain ⟨t, ht, he⟩ := reload_mem_ID _ (fun u hu => hint u (List.mem_filter.1 hu).1) t1 ht1
    have := (List.mem_filter.1 ht).2
    rw [← he]
    simpa using this
  rw [h1]
  simp only []
  rw [CompleteTask_not_found _ _ id hl2 hno, DeleteTask_not_found _ _ id hl2 hno]
  exact ⟨trivial, ⟨_, hl2, hno⟩, rfl, rfl⟩

set_option maxRecDepth 10000 in
/-- C19 at the file in which two tasks share the ID 1. -/
theorem C19_delete_leaves_no_ID_witness :
    (DeleteTask 1 fileSharedID).2 = .ok () ∧
    (∃ stored, (LoadTasks (DeleteTask 1 fileSharedID).1).2 = .ok stored ∧
      ∀ t ∈ stored, t.ID ≠ 1) ∧
    (CompleteTask 1 (DeleteTask 1 fileSharedID).1).2 = .error (.notFound 1) ∧
    (DeleteTask 1 (DeleteTask 1 fileSharedID).1).2 = .error (.notFound 1) :=
  C19_delete_leaves_no_ID fileSharedID
    [⟨1, "a".toList, ⟨2024, 1, 1, 0, 0, 0, 0, 0⟩, false⟩,
     ⟨1, "b".toList, ⟨2024, 1, 2, 0, 0, 0, 0, 0⟩, true⟩,
     ⟨2, "c".toList, ⟨2024, 1, 3, 0, 0, 0, 0, 0⟩, false⟩] 1 (by decide) (by decide)

/-! ### C20: skipped rows and the next write -/

set_option maxRecDepth 20000 in
/-- C20, as stated, fails.  In `fileSkipped25` the first data row, with the
zone offset `+24:60`, is loaded and the second, the same with `+25:00`, is
skipped; `AddTask` succeeds and writes the loaded task with the offset
`+25:00`, so that the skipped row is a data row of the file afterwards.  In
`fileFirstRowTwice` the first row is not the header but a well-formed data
row, which is not loaded, and the second row is the same; after `AddTask` the
first row of the file is the header and the old first row is a data row of
the file, as the row of the task loaded from the second row. -/
theorem C20_counterexample :
    (ReadAll fileSkipped25 =
        .ok [header,
          ["1".toList, "a".toList, "2024-01-01T00:00:00+24:60".toList, "false".toList],
          ["1".toList, "a".toList, "2024-01-01T00:00:00+25:00".toList, "false".toList]] ∧
      decodeRecord
        ["1".toList, "a".toList, "2024-01-01T00:00:00+25:00".toList, "false".toList] = none ∧
      (LoadTasks fileSkipped25).2 =
        .ok [⟨1, "a".toList, ⟨2024, 1, 1, 0, 0, 0, 0, 90000⟩, false⟩] ∧
      (AddTask "c".toList clockMay fileSkipped25).2 = .ok () ∧
      ReadAll (AddTask "c".toList clockMay fileSkipped25).1 =
        .ok [header,
          ["1".toList, "a".toList, "2024-01-01T00:00:00+25:00".toList, "false".toList],
          ["2".toList, "c".toList, "2024-05-06T07:08:09+02:00".toList, "false".toList]]) ∧
    (ReadAll fileFirstRowTwice =
        .ok [["1".toList, "a".toList, "2024-01-01T00:00:00Z".toList, "false".toList],
          ["1".toList, "a".toList, "2024-01-01T00:00:00Z".toList, "false".toList]] ∧
      (LoadTasks fileFirstRowTwice).2 =
        .ok [⟨1, "a".toList, ⟨2024, 1, 1, 0, 0, 0, 0, 0⟩, false⟩] ∧
      (AddTask "c".toList clockMay fileFirstRowTwice).2 = .ok () ∧
      ReadAll (AddTask "c".toList clockMay fileFirstRowTwice).1 =
        .ok [header,
          ["1".toList, "a".toList, "2024-01-01T00:00:00Z".toList, "false".toList],
          ["2".toList, "c".toList, "2024-05-06T07:08:09+02:00".toList, "false".toList]]) := by
  decide

/-- C20, amended: for every content of the file that loads without error,
after a successful `AddTask` (the clock reading a year from 0 to 9999 and a
zone offset of whole minutes below 25 hours), `CompleteTask` or `DeleteTask`
that leaves no loaded task with a zone offset of 25 hours, the rows of the
file are the header and the rows of the resulting tasks, in their order, each
a row that the loop of `LoadTasks` accepts; so no row that the loop skips is
a data row of the file afterwards, and a first row that was not the header is
one only as the row of a resulting task.  A `CompleteTask` or `DeleteTask`
that does not find the ID leaves a file that is not empty as it is, skipped
rows included. -/
theorem C20_skipped_rows_lost (file : Str) (tasks : List Task)
    (hload : (LoadTasks file).2 = .ok tasks) :
    ((∀ t ∈ tasks, t.CreatedAt.offset ≠ 90000 ∧ t.CreatedAt.offset ≠ -90000) →
      ∀ d now, now.Printable →
        (AddTask d now file).2 = .ok () ∧
        ReadAll (AddTask d now file).1 =
          .ok (header :: (tasks ++ [NewTask (nextID tasks) d now]).map
            (fun t => (encodeTask t).map crlfToLf)) ∧
        (∀ t ∈ tasks ++ [NewTask (nextID tasks) d now],
          ∃ u, decodeRecord ((encodeTask t).map crlfToLf) = some u) ∧
        ∀ r, decodeRecord r = none →
          r ∉ (tasks ++ [NewTask (nextID tasks) d now]).map
            (fun t => (encodeTask t).map crlfToLf)) ∧
    ((∀ t ∈ tasks, t.CreatedAt.offset ≠ 90000 ∧ t.CreatedAt.offset ≠ -90000) →
      ∀ id, (CompleteTask id file).2 = .ok () →
        ∃ marked, markComplete id tasks = some marked ∧
          ReadAll (CompleteTask id file).1 =
            .ok (header :: marked.map (fun t => (encodeTask t).map crlfToLf)) ∧
          (∀ t ∈ marked, ∃ u, decodeRecord ((encodeTask t).map crlfToLf) = some u) ∧
          ∀ r, decodeRecord r = none →
            r ∉ marked.map (fun t => (encodeTask t).map crlfToLf)) ∧
    (∀ id, (∀ t ∈ tasks, t.ID ≠ id →
        t.CreatedAt.offset ≠ 90000 ∧ t.CreatedAt.offset ≠ -90000) →
      (DeleteTask id file).2 = .ok () →
        ReadAll (DeleteTask id file).1 =
          .ok (header :: (tasks.filter (fun task => ¬ task.ID = id)).map
            (fun t => (encodeTask t).map crlfToLf)) ∧
        (∀ t ∈ tasks.filter (fun task => ¬ task.ID = id),
          ∃ u, decodeRecord ((encodeTask t).map crlfToLf) = some u) ∧
        ∀ r, decodeRecord r = none →
          r ∉ (tasks.filter (fun task => ¬ task.ID = id)).map
            (fun t => (encodeTask t).map crlfToLf)) ∧
    (∀ id, (∀ t ∈ tasks, t.ID ≠ id) → ¬ file.length = 0 →
      CompleteTask id file = (file, .error (.notFound id)) ∧
      DeleteTask id file = (file, .error (.notFound id))) := by
  have hint := LoadTasks_isInt64 file tasks hload
  refine ⟨?_, ?_, ?_, ?_⟩
  · intro hoff d now hnow
    have hp := LoadTasks_readable file tasks hload hoff
    rw [AddTask_of_ok file tasks d now hload]
    refine ⟨rfl, rows_after_save _ ?_⟩
    intro t ht
    rcases List.mem_append.1 ht with ht | ht
    · exact hp t ht
    · rw [List.mem_singleton.1 ht]
      exact ⟨isInt64_nextID tasks, hnow⟩
  · intro hoff id hok
    have hp := LoadTasks_readable file tasks hload hoff
    obtain ⟨marked, hm, hc⟩ := CompleteTask_ok file tasks id hload hok
    refine ⟨marked, hm, ?_⟩
    rw [hc]
    apply rows_after_save
    intro u hu
    obtain ⟨v, hv, e1, _, e3⟩ := markComplete_mem id tasks marked hm u hu
    rw [← e1, ← e3]
    exact hp v hv
  · intro id hoff hok
    rw [DeleteTask_ok file tasks id hload hok]
    apply rows_after_save
    intro t ht
    obtain ⟨ht1, ht2⟩ := List.mem_filter.1 ht
    have hne : t.ID ≠ id := by simpa using ht2
    exact ⟨hint t ht1, LoadTasks_printable file tasks hload t ht1 (hoff t ht1 hne).1
      (hoff t ht1 hne).2⟩
  · intro id hno h0
    rw [CompleteTask_not_found file tasks id hload hno,
      DeleteTask_not_found file tasks id hload hno, LoadTasks_fst_of_nonempty file h0]
    exact ⟨rfl, rfl⟩

set_option maxRecDepth 20000 in
/-- C20 at the file with one well-formed row and one skipped row, whose ID
field is not a number: `AddTask` succeeds and leaves the header, the row of
task 1 and the row of the new task, the skipped row gone, and a
`CompleteTask` or `DeleteTask` that does not find ID 9 leaves the file with
the skipped row. -/
theorem C20_skipped_rows_lost_witness :
    ((AddTask "c".toList clockMay fileBadID).2 = .ok () ∧
      ReadAll (AddTask "c".toList clockMay fileBadID).1 =
        .ok (header :: (tasksBadID ++ [NewTask (nextID tasksBadID) "c".toList clockMay]).map
          (fun t => (encodeTask t).map crlfToLf)) ∧
      ["x".toList, "b".toList, "2024-01-02T00:00:00Z".toList, "false".toList] ∉
        (tasksBadID ++ [NewTask (nextID tasksBadID) "c".toList clockMay]).map
          (fun t => (encodeTask t).map crlfToLf)) ∧
    (CompleteTask 9 fileBadID = (fileBadID, .error (.notFound 9)) ∧
      DeleteTask 9 fileBadID = (fileBadID, .error (.notFound 9))) ∧
    ReadAll (AddTask "c".toList clockMay fileBadID).1 =
      .ok [header, ["1".toList, "a".toList, "2024-01-01T00:00:00Z".toList, "false".toList],
        ["2".toList, "c".toList, "2024-05-06T07:08:09+02:00".toList, "false".toList]] :=
  ⟨⟨((C20_skipped_rows_lost fileBadID tasksBadID (by decide)).1 (by decide) "c".toList clockMay
        (by decide)).1,
      ((C20_skipped_rows_lost fileBadID tasksBadID (by decide)).1 (by decide) "c".toList clockMay
        (by decide)).2.1,
      ((C20_skipped_rows_lost fileBadID tasksBadID (by decide)).1 (by decide) "c".toList clockMay
        (by decide)).2.2.2
        ["x".toList, "b".toList, "2024-01-02T00:00:00Z".toList, "false".toList] (by decide)⟩,
    (C20_skipped_rows_lost fileBadID tasksBadID (by decide)).2.2.2 9 (by decide) (by decide),
    by decide⟩

end Tasks
